import Mathlib


/-!
Verification of the `k2_tree` crate (GGabi/k2_tree): a shallow embedding of
the core data structure `K2Tree` (src/tree/datastore.rs, src/tree/mod.rs,
src/matrix.rs) into Lean, together with theorems settling the claims of the
specification.

Bit sequences (`bitvec::BitVec`) are modelled as `List Bool`; `usize` as
`Nat`.  Rust operations that panic (out-of-bounds slicing or indexing,
unsigned-subtraction overflow) are modelled as follows: the block
primitives `remove_block`/`insert_block` return an explicit `panics`
outcome; elsewhere out-of-range reads are modelled with `List.getD` /
truncating `take`/`drop`, which is written at each site.  All theorems
below are evaluated only on trees for which those accesses are in bounds,
except where a panic itself is the point (then the theorem exhibits the
out-of-range state rather than pretending a value is returned.)

One deliberate deviation, flagged here and at the definition:
`K2Tree::layer_from_range` computes `log(width / leaf_k)` base `stem_k`
in `f64` (as `ln` ratio).  That float computation truncates to the exact
integer logarithm for the configurations covered by the theorems below
(stem_k = 2, or exponent ≤ 2 for the generically quantified ones; e.g.
`(4.0).log(2.0) = 2`), but NOT in general: `(243.0_f64).log(3.0)`
evaluates to `4.999999999999999` and truncates to `4`.  The model
`layerFromRange` uses the exact `Nat.log`.  Claims whose truth depends on
the deviating configurations are settled as code bugs with concrete
failing inputs, not through this model.
-/

namespace K2

/-- `ones_in_range(bits, begin, end)` (src/tree/mod.rs): number of set bits
in `bits[begin..end]`.  The Rust slice panics when `begin > end` or
`end > bits.len()`; the model truncates instead, and every theorem below
applies it in bounds only. -/
def onesInRange (bits : List Bool) (b e : Nat) : Nat :=
  ((bits.drop b).take (e - b)).countP id

/-- `all_zeroes(bits, begin, end)` (src/tree/mod.rs): true iff no bit of
`bits[begin..end]` is set.  Same slicing caveat as `onesInRange`. -/
def allZeroes (bits : List Bool) (b e : Nat) : Bool :=
  ((bits.drop b).take (e - b)).all (fun bit => !bit)

/-- `one_positions(bits)` (src/tree/mod.rs): indices whose bit is set. -/
def onePositions (bits : List Bool) : List Nat :=
  (List.range bits.length).filter (fun i => bits.getD i false)

/-- `one_positions_range(bits, begin, end)` (src/tree/mod.rs): set-bit
indices of `bits[begin..end]`, as offsets from `begin`. -/
def onePositionsRange (bits : List Bool) (b e : Nat) : List Nat :=
  onePositions ((bits.drop b).take (e - b))

/-- Outcome of a Rust block primitive: success with the new bit sequence,
`Err(())` (the caller's sequence is left unchanged), or a panic. -/
inductive BlockResult
  | ok (bits : List Bool)
  | err
  | panics
deriving DecidableEq, Repr

/-- `remove_block(bit_vec, block_start, block_len)` (src/tree/mod.rs).
The source guard is `block_start > bit_vec.len()-block_len`, an unsigned
subtraction: when `block_len > bit_vec.len()` it overflows (debug builds
abort there; in release the wrapped value makes the comparison false and
the removal loop then pops past the end of the vector, which also panics).
Both abort, so the model returns `panics` for that case; `block_len = 0`
panics in `block_start % block_len`, unless the first disjunct
short-circuits to an error. -/
def removeBlock (bitVec : List Bool) (blockStart blockLen : Nat) : BlockResult :=
  if blockLen = 0 then
    (if blockStart > bitVec.length then .err else .panics)
  else if blockLen ≤ bitVec.length ∧ blockStart > bitVec.length - blockLen then .err
  else if blockStart % blockLen ≠ 0 then .err
  else if bitVec.length < blockLen then .panics
  else .ok (bitVec.take blockStart ++ bitVec.drop (blockStart + blockLen))

/-- `insert_block(bit_vec, block_start, block_len)` (src/tree/mod.rs):
insert `block_len` zero bits at `block_start` when `block_start` is within
the sequence and block-aligned, `Err(())` otherwise (`block_len = 0`
panics in the `%`). -/
def insertBlock (bitVec : List Bool) (blockStart blockLen : Nat) : BlockResult :=
  if blockStart > bitVec.length then .err
  else if blockLen = 0 then .panics
  else if blockStart % blockLen ≠ 0 then .err
  else .ok (bitVec.take blockStart ++ List.replicate blockLen false ++ bitVec.drop blockStart)

/-- `Range2D` (src/tree/mod.rs): inclusive axis-aligned rectangle. -/
structure Range2D where
  minX : Nat
  maxX : Nat
  minY : Nat
  maxY : Nat
deriving DecidableEq, Repr, Inhabited

namespace Range2D

/-- `Range2D::width`: `max_x - min_x + 1`. -/
def width (r : Range2D) : Nat := r.maxX - r.minX + 1

/-- `Range2D::height`: `max_y - min_y + 1`. -/
def height (r : Range2D) : Nat := r.maxY - r.minY + 1

/-- `Range2D::contains(x, y)`. -/
def contains (r : Range2D) (x y : Nat) : Bool :=
  decide (r.minX ≤ x) && decide (x ≤ r.maxX) && decide (r.minY ≤ y) && decide (y ≤ r.maxY)

end Range2D

/-- `SubRanges::from_range(r, w, h)` (src/tree/mod.rs): subdivide `r` into
a `w × h` grid of equal subranges, produced row-major (rows of `y`, then
`x`); `none` models the `CannotSubdivideRange` error when the width or
height does not divide evenly. -/
def subRangesFromRange (r : Range2D) (w h : Nat) : Option (List Range2D) :=
  if r.width / w * w ≠ r.width ∨ r.height / h * h ≠ r.height then none
  else some <| (List.range h).flatMap fun y =>
    (List.range w).map fun x =>
      let subWidth := r.width / w
      let subHeight := r.height / h
      { minX := r.minX + x * subWidth
        maxX := r.minX + x * subWidth + subWidth - 1
        minY := r.minY + y * subHeight
        maxY := r.minY + y * subHeight + subHeight - 1 }

/-- `BitMatrixError` (src/error.rs). -/
inductive BitMatrixErr
  | outOfBounds (xy : Nat × Nat) (maxXY : Nat × Nat)
deriving DecidableEq, Repr

/-- `SubRangesError` (src/error.rs). -/
inductive SubRangesErr
  | cannotSubdivideRange (range : (Nat × Nat) × (Nat × Nat)) (hs vs : Nat)
deriving DecidableEq, Repr

/-- `K2TreeError` (src/error.rs).  The boxed `source` fields become plain
recursive arguments. -/
inductive K2Error
  | smallStemKValue (stemK : Nat)
  | smallLeafKValue (leafK : Nat)
  | traverseError (x y : Nat)
  | outOfBounds (xy minXY maxXY : Nat × Nat)
  | stemInsertionError (pos len : Nat)
  | stemRemovalError (pos len : Nat)
  | leafInsertionError (pos len : Nat)
  | leafRemovalError (pos len : Nat)
  | couldNotShrink (reason : String)
  | corruptedK2Tree (source : K2Error)
  | read (source : K2Error)
  | write (source : K2Error)
  | bitMatrixError (source : BitMatrixErr)
  | subRangesError (source : SubRangesErr)
deriving DecidableEq, Repr

/-- `K2Tree` (src/tree/datastore.rs): the two bit sequences, the two
branching factors, the stem-layer count and the maintained layer-start
offsets. -/
structure K2Tree where
  stemK : Nat
  leafK : Nat
  maxSlayers : Nat
  slayerStarts : List Nat
  stems : List Bool
  leaves : List Bool
deriving DecidableEq, Repr, Inhabited

namespace K2Tree

/-- `K2Tree::new()`: 8×8 all-zero matrix, both k values 2. -/
def new : K2Tree :=
  { stemK := 2, leafK := 2, maxSlayers := 2, slayerStarts := [0]
    stems := List.replicate 4 false, leaves := [] }

/-- `K2Tree::with_k(stem_k, leaf_k)`: empty tree with the given k values,
rejecting values below 2. -/
def withK (stemK leafK : Nat) : Except K2Error K2Tree :=
  if stemK < 2 then .error (.smallStemKValue stemK)
  else if leafK < 2 then .error (.smallLeafKValue leafK)
  else .ok { stemK, leafK, maxSlayers := 2, slayerStarts := [0]
             stems := List.replicate (stemK * stemK) false, leaves := [] }

/-- `K2Tree::stem_len()`: `stem_k²`. -/
def stemLen (t : K2Tree) : Nat := t.stemK ^ 2

/-- `K2Tree::leaf_len()`: `leaf_k²`. -/
def leafLen (t : K2Tree) : Nat := t.leafK ^ 2

/-- `K2Tree::matrix_width()`: `leaf_k · stem_k ^ max_slayers`. -/
def matrixWidth (t : K2Tree) : Nat := t.leafK * t.stemK ^ t.maxSlayers

/-- `K2Tree::stem_start(bit_pos)`: round down to a stem boundary. -/
def stemStart (t : K2Tree) (bitPos : Nat) : Nat := bitPos / t.stemLen * t.stemLen

/-- `K2Tree::leaf_start(bit_pos)`: round down to a leaf boundary. -/
def leafStart (t : K2Tree) (bitPos : Nat) : Nat := bitPos / t.leafLen * t.leafLen

/-- `K2Tree::to_subranges(r)`: subdivide by `stem_k` in both directions. -/
def toSubranges (t : K2Tree) (r : Range2D) : Option (List Range2D) :=
  subRangesFromRange r t.stemK t.stemK

/-- `K2Tree::is_empty()`: no set bit among the leaves. -/
def isEmpty (t : K2Tree) : Bool :=
  onesInRange t.leaves 0 t.leaves.length = 0

/-- One step of the `layer_start`/`layer_starts` scan of src/tree/mod.rs:
from `(starts[i-1], starts[i])` to `(starts[i], starts[i+1])`, where
`starts[i+1] = starts[i] + ones_in_range(stems, starts[i-1], starts[i]) * stem_len`. -/
def lsStep (t : K2Tree) (p : Nat × Nat) : Nat × Nat :=
  (p.2, p.2 + onesInRange t.stems p.1 p.2 * t.stemLen)

/-- The pair `(starts[l], starts[l+1])` of the on-demand layer-start scan,
seeded with `starts[0] = 0`, `starts[1] = stem_len`. -/
def lsPair (t : K2Tree) : Nat → Nat × Nat
  | 0 => (0, t.stemLen)
  | n + 1 => t.lsStep (t.lsPair n)

/-- `K2Tree::layer_start(l)` (src/tree/mod.rs), computed on demand from
popcounts by the `lsPair` recurrence, exactly as the source's loop. -/
def layerStart (t : K2Tree) (l : Nat) : Nat := (t.lsPair l).1

/-- `K2Tree::layer_starts()` (src/tree/mod.rs): the source builds
`[0, stem_len]` and extends while `curr_layer < max_slayers - 1`, giving
`max 2 max_slayers` entries, each satisfying the `lsPair` recurrence. -/
def layerStartsList (t : K2Tree) : List Nat :=
  (List.range (max 2 t.maxSlayers)).map t.layerStart

/-- `K2Tree::num_stems_before_child(bit_pos, layer)`. -/
def numStemsBeforeChild (t : K2Tree) (bitPos layer : Nat) : Nat :=
  onesInRange t.stems (t.layerStart layer) bitPos

/-- `K2Tree::stem_to_leaf_start(stem_bitpos)`: `Err(())` when the stem bit
is unset, else the leaf offset of its rank within the final stem layer.
The source indexes the maintained `slayer_starts` field
(`self.slayer_starts[self.max_slayers-1]`, a panic when absent); the model
reads it with a `getD` default that no theorem below reaches. -/
def stemToLeafStart (t : K2Tree) (stemBitpos : Nat) : Option Nat :=
  if !(t.stems.getD stemBitpos false) then none
  else some (onesInRange t.stems (t.slayerStarts.getD (t.maxSlayers - 1) 0) stemBitpos * t.leafLen)

/-- `K2Tree::child_stem(layer, stem_start, nth_child)`: `Err(())` when the
child bit is unset or the layer is final. -/
def childStem (t : K2Tree) (layer stemStart nthChild : Nat) : Option Nat :=
  if !(t.stems.getD (stemStart + nthChild) false) ∨ layer = t.maxSlayers - 1 then none
  else some (t.layerStart (layer + 1) + t.numStemsBeforeChild (stemStart + nthChild) layer * t.stemLen)

/-- `K2Tree::leaf_parent(bit_pos)` (src/tree/mod.rs): absolute position of
the `bit_pos / leaf_len`-th set bit of the final stem layer.  The source
indexes the positions vector (a panic when the rank is absent); the model
uses a `getD` default that no theorem below reaches. -/
def leafParent (t : K2Tree) (bitPos : Nat) : Nat :=
  let fls := t.layerStart (t.maxSlayers - 1)
  fls + (onePositionsRange t.stems fls t.stems.length).getD (bitPos / t.leafLen) 0

/-- `K2Tree::parent(stem_start)` (src/tree/mod.rs): the stem start and bit
offset of the parent bit, `Err(())` for the top stem.  The layer search
mirrors the source: the first `layer_starts` entry exceeding `stem_start`,
minus one, defaulting to the final layer. -/
def parent (t : K2Tree) (stemStart : Nat) : Option (Nat × Nat) :=
  if stemStart < t.stemLen then none
  else
    let starts := t.layerStartsList
    let stemLayer := match starts.findIdx? (fun st => stemStart < st) with
      | some i => i - 1
      | none => t.maxSlayers - 1
    let stemNum := (stemStart - starts.getD stemLayer 0) / t.stemLen
    let rel := (onePositionsRange t.stems (starts.getD (stemLayer - 1) 0)
                 (starts.getD stemLayer 0)).getD stemNum 0
    let ab := rel + starts.getD (stemLayer - 1) 0
    some (t.stemStart ab, ab % t.stemLen)

/-- `DescendResult` (src/tree/datastore.rs). -/
inductive DescendResult
  | leaf (leafStart : Nat) (leafRange : Range2D)
  | stem (stemStart : Nat) (stemRange : Range2D)
deriving DecidableEq, Repr

/-- `K2Tree::descend` (src/tree/datastore.rs): walk down from `layer` at
stem `stemPos` over `range`, stopping at the first zero child bit (a
`Stem` result) or, on the final stem layer, at a leaf.  The `fuel`
argument bounds the recursion; calls pass `max_slayers`, which suffices
because each step increases `layer` and the walk stops at
`layer = slayerMax`.  The source's `unreachable!()` (no subrange contains
the point) and exhausted fuel are modelled as a `traverseError`, branches
no theorem below reaches. -/
def descend (t : K2Tree) (x y slayerMax : Nat) :
    Nat → Nat → Nat → Range2D → Except K2Error DescendResult
  | 0, _, _, _ => .error (.traverseError x y)
  | fuel + 1, layer, stemPos, range =>
    match t.toSubranges range with
    | none => .error (.subRangesError (.cannotSubdivideRange
        ((range.minX, range.minY), (range.maxX, range.maxY)) t.stemK t.stemK))
    | some subs =>
      match (List.range t.stemLen).find? (fun cp => (subs.getD cp default).contains x y) with
      | none => .error (.traverseError x y)
      | some childPos =>
        if !(t.stems.getD (stemPos + childPos) false) then
          .ok (.stem stemPos range)
        else if layer = slayerMax then
          match t.stemToLeafStart (stemPos + childPos) with
          | none => .error (.traverseError x y)
          | some ls => .ok (.leaf ls (subs.getD childPos default))
        else
          match t.childStem layer stemPos childPos with
          | none => .error (.traverseError x y)
          | some cs => t.descend x y slayerMax fuel (layer + 1) cs (subs.getD childPos default)

/-- `K2Tree::matrix_bit(x, y, m_width)`: run the descent from the root over
the whole matrix range.  The fuel `max_slayers` is enough for `max_slayers ≥ 1`:
the walk makes at most `slayer_max + 1 = max_slayers` calls. -/
def matrixBit (t : K2Tree) (x y mWidth : Nat) : Except K2Error DescendResult :=
  t.descend x y (t.maxSlayers - 1) t.maxSlayers 0 0
    { minX := 0, maxX := mWidth - 1, minY := 0, maxY := mWidth - 1 }

/-- `K2Tree::get(x, y)`: bounds check, descend, then read the leaf bit (or
`false` for a zero region).  The source indexes `self.leaves[...]` (a panic
when out of range); the model reads with `getD`, and every theorem below
evaluates it in bounds only. -/
def get (t : K2Tree) (x y : Nat) : Except K2Error Bool :=
  let mw := t.matrixWidth
  if x ≥ mw ∨ y ≥ mw then
    .error (.read (.outOfBounds (x, y) (0, 0) (mw - 1, mw - 1)))
  else
    match t.matrixBit x y mw with
    | .error e => .error (.read e)
    | .ok (.leaf ls lr) =>
      if lr.width ≠ t.leafK ∨ lr.height ≠ t.leafK then
        .error (.read (.traverseError x y))
      else
        .ok (t.leaves.getD (ls + (t.leafK * (y - lr.minY) + (x - lr.minX))) false)
    | .ok (.stem _ _) => .ok false

/-- The values `0, leaf_k, 2·leaf_k, …` below `mw` that `get_row`'s
`(0..matrix_width).step_by(self.leaf_k)` iterates over. -/
def stepXs (mw leafK : Nat) : List Nat :=
  (List.range ((mw + leafK - 1) / leafK)).map (· * leafK)

/-- `K2Tree::get_row(y)`: bounds check, then for each `leaf_k`-aligned
column block either copy `leaf_k` consecutive leaf bits or push `leaf_k`
falses. -/
def getRow (t : K2Tree) (y : Nat) : Except K2Error (List Bool) :=
  let mw := t.matrixWidth
  if y ≥ mw then
    .error (.read (.outOfBounds (0, y) (0, 0) (mw - 1, mw - 1)))
  else
    (stepXs mw t.leafK).foldlM
      (fun acc x =>
        match t.matrixBit x y mw with
        | .error e => .error (.read e)
        | .ok (.leaf ls lr) =>
          if lr.width ≠ t.leafK ∨ lr.height ≠ t.leafK then
            .error (.read (.traverseError x y))
          else
            let off := t.leafK * (y - lr.minY) + (x - lr.minX)
            .ok (acc ++ (List.range t.leafK).map (fun i => t.leaves.getD (ls + off + i) false))
        | .ok (.stem _ _) => .ok (acc ++ List.replicate t.leafK false))
      []

/-- `K2Tree::get_column(x)`: as `get_row`, reading every `leaf_k`-th leaf
bit inside each block. -/
def getColumn (t : K2Tree) (x : Nat) : Except K2Error (List Bool) :=
  let mw := t.matrixWidth
  if x ≥ mw then
    .error (.read (.outOfBounds (x, 0) (0, 0) (mw - 1, mw - 1)))
  else
    (stepXs mw t.leafK).foldlM
      (fun acc y =>
        match t.matrixBit x y mw with
        | .error e => .error (.read e)
        | .ok (.leaf ls lr) =>
          if lr.width ≠ t.leafK ∨ lr.height ≠ t.leafK then
            .error (.read (.traverseError x y))
          else
            let off := t.leafK * (y - lr.minY) + (x - lr.minX)
            .ok (acc ++ (List.range t.leafK).map (fun i => t.leaves.getD (ls + off + i * t.leafK) false))
        | .ok (.stem _ _) => .ok (acc ++ List.replicate t.leafK false))
      []

/-- Fuel-based base-`b` integer logarithm, structurally recursive so that
the kernel can evaluate it on concrete inputs; `natLog_eq_log` below proves
it equal to Mathlib's `Nat.log`. -/
def natLogAux (b : Nat) : Nat → Nat → Nat
  | 0, _ => 0
  | fuel + 1, n => if 1 < b ∧ b ≤ n then natLogAux b fuel (n / b) + 1 else 0

/-- Base-`b` integer logarithm (executable form of `Nat.log`). -/
def natLog (b n : Nat) : Nat := natLogAux b n n

/-- `K2Tree::layer_from_range(r)`.  DEVIATION, see the file header: the
source computes `((r.width()/self.leaf_k) as f64).log(self.stem_k as f64)
as usize`, an `f64` `ln`-ratio truncated to integer; the model uses the
exact integer logarithm `natLog` (= `Nat.log`).  The two agree on every
configuration a theorem below evaluates (`stem_k = 2` concretely, and
exponent ≤ 2 generally, where the ratio is exact), and the configurations
where they differ are the subject of the code-bug findings, not of any
proof through this definition. -/
def layerFromRange (t : K2Tree) (r : Range2D) : Nat :=
  (t.maxSlayers + 1) - (natLog t.stemK (r.width / t.leafK) + 1)

end K2Tree

/-- Outcome of `K2Tree::set` (and of other mutating entry points): the
source mutates `&mut self` and returns `Result<(), Error>`; the model
returns the final tree alongside.  `panics` models an aborted call
(out-of-bounds indexing or slicing inside the source). -/
inductive SetResult
  | ok (t : K2Tree)
  | err (e : K2Error) (t : K2Tree)
  | panics
deriving DecidableEq, Repr

namespace K2Tree

/-- The cascade-removal loop of `K2Tree::set`'s leaf branch: while
`curr_layer > 0` and the current stem is all zero, shift the later layer
starts down, remove the stem block and clear its parent bit, then climb.
Structural recursion on `curr_layer` mirrors `curr_layer -= 1`. -/
def cascadeRemove (stemLen : Nat) : Nat → Nat → K2Tree → SetResult
  | 0, _, t => .ok t
  | currLayer + 1, stemStart, t =>
    if allZeroes t.stems stemStart (stemStart + stemLen) then
      let starts1 := t.slayerStarts.mapIdx
        (fun i v => if currLayer + 2 ≤ i then v - stemLen else v)
      let t1 := { t with slayerStarts := starts1 }
      match t1.parent stemStart with
      | none => .panics
      | some pb =>
        match removeBlock t1.stems stemStart stemLen with
        | .err => .err (.corruptedK2Tree (.write (.stemRemovalError stemStart stemLen))) t1
        | .panics => .panics
        | .ok st =>
          cascadeRemove stemLen currLayer pb.1 { t1 with stems := st.set (pb.1 + pb.2) false }
    else .ok t

/-- The final-stem-layer step of `K2Tree::set`'s stem branch: set the
child bit, compute the new leaf's position by rank over the final layer,
insert a zero leaf block there and set the bit for `(x, y)` inside it. -/
def setFinal (x y stemLen leafLen stemStart : Nat) (stemRange : Range2D) (t : K2Tree) :
    SetResult :=
  match t.toSubranges stemRange with
  | none => .err (.corruptedK2Tree (.write (.subRangesError (.cannotSubdivideRange
      ((stemRange.minX, stemRange.minY), (stemRange.maxX, stemRange.maxY))
      t.stemK t.stemK)))) t
  | some subs =>
    match (List.range subs.length).find? (fun cp => (subs.getD cp default).contains x y) with
    | none => .err (.corruptedK2Tree (.write (.traverseError x y))) t
    | some childPos =>
      let sub := subs.getD childPos default
      let t1 := { t with stems := t.stems.set (stemStart + childPos) true }
      let nthLeaf := onesInRange t1.stems (t1.layerStart (t1.maxSlayers - 1)) (stemStart + childPos)
      let leafStart := nthLeaf * leafLen
      match insertBlock t1.leaves leafStart leafLen with
      | .err => .err (.corruptedK2Tree (.write (.leafInsertionError leafStart leafLen))) t1
      | .panics => .panics
      | .ok lv =>
        let off := t1.leafK * (y - sub.minY) + (x - sub.minX)
        .ok { t1 with leaves := lv.set (leafStart + off) true }

/-- The stem-materialisation loop of `K2Tree::set`'s stem branch: while
`layer < max_slayers - 1`, set the child bit, place the next stem (append
a new layer when the child layer does not exist yet, else by rank via
`child_stem`), insert the zero stem block and shift the later layer
starts up.  Fuel (`max_slayers` at the call site) bounds the loop; the
exhausted-fuel branch is unreachable since each pass increases `layer`. -/
def buildLoop (x y stemLen leafLen : Nat) :
    Nat → Nat → Nat → Nat → Range2D → K2Tree → SetResult
  | 0, _, _, _, _, _ => .panics
  | fuel + 1, layer, layerStartsLen, stemStart, stemRange, t =>
    if layer < t.maxSlayers - 1 then
      match t.toSubranges stemRange with
      | none => .err (.corruptedK2Tree (.write (.subRangesError (.cannotSubdivideRange
          ((stemRange.minX, stemRange.minY), (stemRange.maxX, stemRange.maxY))
          t.stemK t.stemK)))) t
      | some subs =>
        match (List.range subs.length).find? (fun cp => (subs.getD cp default).contains x y) with
        | none => .err (.corruptedK2Tree (.write (.traverseError x y))) t
        | some childPos =>
          let sub := subs.getD childPos default
          let t1 := { t with stems := t.stems.set (stemStart + childPos) true }
          if layer = layerStartsLen - 1 then
            let newStart := t1.stems.length
            let t2 := { t1 with slayerStarts := t1.slayerStarts ++ [newStart] }
            match insertBlock t2.stems newStart stemLen with
            | .err => .err (.corruptedK2Tree (.write (.stemInsertionError newStart stemLen))) t2
            | .panics => .panics
            | .ok st =>
              let starts3 := t2.slayerStarts.mapIdx
                (fun i v => if layer + 2 ≤ i then v + stemLen else v)
              let t3 := { t2 with stems := st, slayerStarts := starts3 }
              buildLoop x y stemLen leafLen fuel (layer + 1) (layerStartsLen + 1) newStart sub t3
          else
            match t1.childStem layer stemStart childPos with
            | none => .err (.corruptedK2Tree (.write (.traverseError x y))) t1
            | some newStart =>
              match insertBlock t1.stems newStart stemLen with
              | .err => .err (.corruptedK2Tree (.write (.stemInsertionError newStart stemLen))) t1
              | .panics => .panics
              | .ok st =>
                let starts3 := t1.slayerStarts.mapIdx
                  (fun i v => if layer + 2 ≤ i then v + stemLen else v)
                let t3 := { t1 with stems := st, slayerStarts := starts3 }
                buildLoop x y stemLen leafLen fuel (layer + 1) layerStartsLen newStart sub t3
    else setFinal x y stemLen leafLen stemStart stemRange t

/-- `K2Tree::set(x, y, state)` (src/tree/datastore.rs): bounds check,
descend; on a `Leaf` result write the bit (cascading removal when a
`false` write empties the leaf); on a `Stem` result with `state = true`
materialise the missing path; otherwise a no-op. -/
def set (t : K2Tree) (x y : Nat) (state : Bool) : SetResult :=
  let mw := t.matrixWidth
  if x ≥ mw ∨ y ≥ mw then
    .err (.write (.outOfBounds (x, y) (0, 0) (mw - 1, mw - 1))) t
  else
    let stemLen := t.stemLen
    let leafLen := t.leafLen
    match t.matrixBit x y mw with
    | .error e => .err (.write e) t
    | .ok (.leaf leafStart leafRange) =>
      if leafRange.width ≠ t.leafK ∨ leafRange.height ≠ t.leafK then
        .err (.write (.traverseError x y)) t
      else
        let off := t.leafK * (y - leafRange.minY) + (x - leafRange.minX)
        let t1 := { t with leaves := t.leaves.set (leafStart + off) state }
        if !state && allZeroes t1.leaves leafStart (leafStart + leafLen) then
          match removeBlock t1.leaves leafStart leafLen with
          | .err => .err (.corruptedK2Tree (.write (.leafRemovalError leafStart leafLen))) t1
          | .panics => .panics
          | .ok lv =>
            let t2 := { t1 with leaves := lv }
            let stemBitPos := t2.leafParent leafStart
            if t2.leaves.isEmpty then
              .ok { t2 with stems := List.replicate stemLen false, slayerStarts := [0] }
            else
              let t3 := { t2 with stems := t2.stems.set stemBitPos false }
              cascadeRemove stemLen (t3.maxSlayers - 1) (t3.stemStart stemBitPos) t3
        else .ok t1
    | .ok (.stem stemStart stemRange) =>
      if state then
        buildLoop x y stemLen leafLen t.maxSlayers (t.layerFromRange stemRange)
          t.slayerStarts.length stemStart stemRange t
      else .ok t

/-- `K2Tree::grow()`: bump `max_slayers`; when the tree has any leaves,
also prepend a `10…0` top stem and shift the layer starts.  (When the
tree is empty nothing else changes — the source comment: "Only insert the
extra layers etc. if the tree isn't all 0s".) -/
def grow (t : K2Tree) : K2Tree :=
  let stemLen := t.stemLen
  let t1 := { t with maxSlayers := t.maxSlayers + 1 }
  if t1.leaves.length > 0 then
    { t1 with
      slayerStarts := 0 :: t1.slayerStarts.map (· + stemLen)
      stems := true :: (List.replicate (stemLen - 1) false ++ t1.stems) }
  else t1

/-- `K2Tree::shrink()`: refuse when `matrix_width ≤ leaf_k · stem_k²` or
when any top-stem bit other than bit 0 is set; otherwise drop the top
stem block, the first layer start, and one stem layer.  The source slices
`self.stems[1..stem_len]` (a panic when `stems` is shorter); the model
truncates, and the theorems below only apply it with `stem_len ≤
stems.length`. -/
def shrink (t : K2Tree) : Except K2Error K2Tree :=
  let stemLen := t.stemLen
  if t.matrixWidth ≤ t.leafK * t.stemK ^ 2 then
    .error (.couldNotShrink ("Already at minimum size: " ++ toString t.matrixWidth))
  else if (t.stems.drop 1).take (stemLen - 1) ≠ List.replicate (stemLen - 1) false then
    .error (.couldNotShrink "Shrinking would lose information about the matrix")
  else
    .ok { t with
          maxSlayers := t.maxSlayers - 1
          slayerStarts := (t.slayerStarts.drop 1).map (· - stemLen)
          stems := t.stems.drop stemLen }

end K2Tree

/-- `BitMatrix` (src/matrix.rs): dense row-major bit matrix. -/
structure BitMatrix where
  width : Nat
  height : Nat
  bits : List Bool
deriving DecidableEq, Repr

namespace BitMatrix

/-- `BitMatrix::with_dimensions(width, height)`: all-zero matrix. -/
def withDimensions (width height : Nat) : BitMatrix :=
  { width, height, bits := List.replicate (width * height) false }

/-- `BitMatrix::from_bits(width, height, data)`: truncate or zero-extend
`data` to `width · height` bits. -/
def fromBits (width height : Nat) (data : List Bool) : BitMatrix :=
  { width, height
    bits := data.take (width * height) ++
      List.replicate (width * height - data.length) false }

/-- `BitMatrix::get(x, y)`. -/
def get (m : BitMatrix) (x y : Nat) : Except BitMatrixErr Bool :=
  if x ≥ m.width ∨ y ≥ m.height then
    .error (.outOfBounds (x, y) (m.width - 1, m.height - 1))
  else .ok (m.bits.getD (y * m.width + x) false)

/-- `BitMatrix::set(x, y, state)`. -/
def set (m : BitMatrix) (x y : Nat) (state : Bool) : Except BitMatrixErr BitMatrix :=
  if x ≥ m.width ∨ y ≥ m.height then
    .error (.outOfBounds (x, y) (m.width - 1, m.height - 1))
  else .ok { m with bits := m.bits.set (y * m.width + x) state }

/-- `BitMatrix::into_rows()`: the rows as lists of bits. -/
def intoRows (m : BitMatrix) : List (List Bool) :=
  (List.range m.height).map fun r => (m.bits.drop (r * m.width)).take m.width

end BitMatrix

/-- Outcome of constructing a tree (`K2Tree::from_matrix`): a tree, an
error, or an aborted call. -/
inductive BuildResult
  | ok (t : K2Tree)
  | err (e : K2Error)
  | panics
deriving DecidableEq, Repr

namespace K2Tree

/-- The `while matrix.width > tree.matrix_width() || matrix.height > …
{ tree.grow(); }` loop of `K2Tree::from_matrix`, with fuel: `w + h` steps
always suffice since `matrix_width ≥ 8` at least doubles per `grow`. -/
def growToFit (w h : Nat) : Nat → K2Tree → K2Tree
  | 0, t => t
  | fuel + 1, t =>
    if w > t.matrixWidth ∨ h > t.matrixWidth then growToFit w h fuel t.grow else t

/-- `K2Tree::from_matrix(matrix, stem_k, leaf_k)`: build an empty tree,
grow it over the matrix, then `set` every one-cell row by row,
propagating the first error. -/
def fromMatrix (matrix : BitMatrix) (stemK leafK : Nat) : BuildResult :=
  match withK stemK leafK with
  | .error e => .err e
  | .ok t0 =>
    let t1 := growToFit matrix.width matrix.height (matrix.width + matrix.height) t0
    matrix.intoRows.enum.foldl
      (fun acc yrow =>
        (onePositions yrow.2).foldl
          (fun acc2 x =>
            match acc2 with
            | .ok tt =>
              match tt.set x yrow.1 true with
              | .ok t' => BuildResult.ok t'
              | .err e _ => .err e
              | .panics => .panics
            | other => other)
          acc)
      (BuildResult.ok t1)

/-- `K2Tree::get_coords(leaf_bit_pos)` (src/tree/mod.rs): climb from the
leaf's parent bit to the root recording bit offsets, then walk the
offsets back down through subrange selection.  The source `unwrap`s the
`parent` and subranges calls (panics on malformed trees); the model takes
defaults that no theorem below reaches. -/
def getCoords (t : K2Tree) (leafBitPos : Nat) : Nat × Nat :=
  let parentBit := t.leafParent leafBitPos
  let start := t.stemStart parentBit
  let climb := (List.range (t.maxSlayers - 1)).foldl
    (fun (acc : Nat × List Nat) _ =>
      let p := (t.parent acc.1).getD (0, 0)
      (p.1, p.2 :: acc.2))
    (start, [parentBit - start])
  let rangeMax := t.matrixWidth - 1
  let finalRange := (climb.2.take t.maxSlayers).foldl
    (fun r childOffset => ((t.toSubranges r).getD []).getD childOffset default)
    { minX := 0, maxX := rangeMax, minY := 0, maxY := rangeMax }
  let leafOffset := leafBitPos - t.leafStart leafBitPos
  (finalRange.minX + leafOffset % t.leafK, finalRange.minY + leafOffset / t.leafK)

/-- `K2Tree::to_matrix()`: a zeroed `W × W` matrix with a bit set at
`get_coords(pos)` for every set leaf bit `pos`. -/
def toMatrix (t : K2Tree) : Except K2Error BitMatrix :=
  let mw := t.matrixWidth
  (List.range t.leaves.length).foldlM
    (fun m pos =>
      if t.leaves.getD pos false then
        match m.set (t.getCoords pos).1 (t.getCoords pos).2 true with
        | .error e => .error (.bitMatrixError e)
        | .ok m' => .ok m'
      else .ok m)
    (BitMatrix.withDimensions mw mw)

end K2Tree

end K2

namespace K2

/-- Number of set bits of a bit list. -/
def cnt (l : List Bool) : Nat := l.countP id

lemma cnt_nil : cnt [] = 0 := rfl

lemma cnt_cons (a : Bool) (l : List Bool) :
    cnt (a :: l) = cnt l + if a then 1 else 0 := by
  simp [cnt, List.countP_cons, id]

lemma cnt_append (l m : List Bool) : cnt (l ++ m) = cnt l + cnt m := by
  simp [cnt, List.countP_append]

lemma cnt_replicate_false (n : Nat) : cnt (List.replicate n false) = 0 := by
  induction n with
  | zero => rfl
  | succ n ih => simp [List.replicate_succ, cnt_cons, ih]

lemma cnt_le_length (l : List Bool) : cnt l ≤ l.length := by
  simpa [cnt] using List.countP_le_length (p := id) (l := l)

lemma onesInRange_zero (bits : List Bool) (p : Nat) :
    onesInRange bits 0 p = cnt (bits.take p) := by
  simp [onesInRange, cnt]

lemma onesInRange_eq (bits : List Bool) (b e : Nat) :
    onesInRange bits b e = cnt ((bits.drop b).take (e - b)) := rfl

lemma allZeroes_iff_cnt (bits : List Bool) (b e : Nat) :
    allZeroes bits b e = true ↔ cnt ((bits.drop b).take (e - b)) = 0 := by
  simp [allZeroes, cnt, List.all_eq_true, List.countP_eq_zero, id]

lemma onePositions_cons (a : Bool) (l : List Bool) :
    onePositions (a :: l) = (if a then [0] else []) ++ (onePositions l).map Nat.succ := by
  unfold onePositions
  rw [List.length_cons, List.range_succ_eq_map, List.filter_cons]
  cases a <;> simp [List.filter_map, Function.comp_def]

lemma length_onePositions (l : List Bool) : (onePositions l).length = cnt l := by
  induction l with
  | nil => rfl
  | cons a tl ih =>
    rw [onePositions_cons, cnt_cons]
    cases a <;> simp [ih] <;> omega

lemma getD_true_lt (l : List Bool) (p : Nat) (hp : l.getD p false = true) : p < l.length := by
  by_contra h
  rw [List.getD_eq_default] at hp
  · exact Bool.false_ne_true hp
  · omega

lemma cnt_take_lt (l : List Bool) (p : Nat) (hp : l.getD p false = true) :
    cnt (l.take p) < cnt l := by
  induction l generalizing p with
  | nil => exact absurd hp (by simp)
  | cons a tl ih =>
    cases p with
    | zero =>
      simp only [List.getD_cons_zero] at hp
      subst hp
      simp [cnt_cons]
      calc cnt [] = 0 := rfl
        _ < cnt tl + 1 := by omega
    | succ q =>
      simp only [List.getD_cons_succ] at hp
      rw [List.take_succ_cons, cnt_cons, cnt_cons]
      have := ih q hp
      omega

lemma onePositions_rank (l : List Bool) (p : Nat) (hp : l.getD p false = true) :
    (onePositions l).getD (cnt (l.take p)) 0 = p := by
  induction l generalizing p with
  | nil => exact absurd hp (by simp)
  | cons a tl ih =>
    cases p with
    | zero =>
      simp only [List.getD_cons_zero] at hp
      subst hp
      simp [onePositions_cons, cnt]
    | succ q =>
      simp only [List.getD_cons_succ] at hp
      rw [List.take_succ_cons, cnt_cons, onePositions_cons]
      have hlt : cnt (tl.take q) < (onePositions tl).length := by
        rw [length_onePositions]; exact cnt_take_lt tl q hp
      have hmap : ((onePositions tl).map Nat.succ).getD (cnt (tl.take q)) 0 = q + 1 := by
        rw [List.getD_eq_getElem _ _ (by simpa using hlt), List.getElem_map,
          ← List.getD_eq_getElem _ 0 hlt, ih q hp]
      cases a with
      | false => simpa using hmap
      | true => simpa using hmap

lemma getD_set_self (l : List Bool) (p : Nat) (v : Bool) (h : p < l.length) :
    (l.set p v).getD p false = v := by
  rw [List.getD_eq_getElem _ _ (by simpa using h)]
  exact List.getElem_set_self _

lemma getD_set_ne (l : List Bool) (p q : Nat) (v : Bool) (h : p ≠ q) :
    (l.set p v).getD q false = l.getD q false := by
  by_cases hq : q < l.length
  · rw [List.getD_eq_getElem _ _ (by simpa using hq), List.getD_eq_getElem _ _ hq]
    exact List.getElem_set_ne h _
  · rw [List.getD_eq_default _ _ (by simp; omega), List.getD_eq_default _ _ (by omega)]

lemma cnt_set_true (l : List Bool) (p : Nat) (hp : l.getD p false = false)
    (h : p < l.length) : cnt (l.set p true) = cnt l + 1 := by
  have : l[p] = false := by rw [← List.getD_eq_getElem _ false h]; exact hp
  simp [cnt, List.countP_set id l p true h, this, id]

lemma cnt_set_false (l : List Bool) (p : Nat) (hp : l.getD p false = true) :
    cnt (l.set p false) + 1 = cnt l := by
  have h : p < l.length := getD_true_lt l p hp
  have hv : l[p] = true := by rw [← List.getD_eq_getElem _ false h]; exact hp
  have hcnt : 0 < cnt l := by
    have := cnt_take_lt l p hp
    omega
  simp only [cnt] at hcnt ⊢
  simp [List.countP_set id l p false h, hv, id]
  omega

lemma take_set_of_le (l : List Bool) (q p : Nat) (v : Bool) (h : q ≤ p) :
    (l.set p v).take q = l.take q := by
  induction l generalizing p q with
  | nil => simp
  | cons a tl ih =>
    cases p with
    | zero =>
      interval_cases q
      · simp
    | succ pp =>
      cases q with
      | zero => simp
      | succ qq => simp [List.take_succ_cons, ih qq pp (by omega)]

lemma take_set_of_lt (l : List Bool) (q p : Nat) (v : Bool) (h : p < q) :
    (l.set p v).take q = (l.take q).set p v := by
  induction l generalizing p q with
  | nil => simp
  | cons a tl ih =>
    cases p with
    | zero =>
      cases q with
      | zero => omega
      | succ qq => simp [List.take_succ_cons]
    | succ pp =>
      cases q with
      | zero => omega
      | succ qq => simp [List.take_succ_cons, ih qq pp (by omega)]

lemma cnt_take_set_of_le (l : List Bool) (q p : Nat) (v : Bool) (h : q ≤ p) :
    cnt ((l.set p v).take q) = cnt (l.take q) := by
  rw [take_set_of_le l q p v h]

/-- The row-major `w × h` grid of `SubRanges::from_range` as a flat map
over a single index. -/
lemma grid_eq_map {α : Type} (f : Nat → Nat → α) (R C : Nat) :
    ((List.range R).flatMap fun r => (List.range C).map fun c => f r c) =
      (List.range (R * C)).map fun cp => f (cp / C) (cp % C) := by
  induction R with
  | zero => simp
  | succ R ih =>
    rw [List.range_succ, List.flatMap_append, ih, Nat.succ_mul, List.range_add, List.map_append]
    congr 1
    simp only [List.flatMap_cons, List.flatMap_nil, List.append_nil, List.map_map]
    refine List.map_congr_left fun c hc => ?_
    rw [List.mem_range] at hc
    have hC : 0 < C := by omega
    have h1 : (R * C + c) / C = R := by
      rw [Nat.add_comm, Nat.mul_comm R C, Nat.add_mul_div_left _ _ hC, Nat.div_eq_of_lt hc]
      omega
    have h2 : (R * C + c) % C = c := by
      rw [Nat.add_comm, Nat.mul_comm R C, Nat.add_mul_mod_self_left, Nat.mod_eq_of_lt hc]
    simp [Function.comp_def, h1, h2]

lemma range'_find?_eq (p : Nat → Bool) (s n i : Nat) (h1 : s ≤ i) (h2 : i < s + n)
    (hp : p i = true) (hprev : ∀ j, s ≤ j → j < i → p j = false) :
    (List.range' s n).find? p = some i := by
  induction n generalizing s with
  | zero => omega
  | succ n ih =>
    rw [List.range'_succ, List.find?_cons]
    rcases Nat.eq_or_lt_of_le h1 with h | h
    · subst h; rw [hp]
    · rw [hprev s le_rfl h]
      exact ih (s + 1) h (by omega) fun j hj1 hj2 => hprev j (by omega) hj2

lemma range_find?_eq (p : Nat → Bool) (L i : Nat) (hiL : i < L) (hp : p i = true)
    (hprev : ∀ j, j < i → p j = false) : (List.range L).find? p = some i := by
  rw [List.range_eq_range']
  exact range'_find?_eq p 0 L i (Nat.zero_le i) (by omega) hp fun j _ hj => hprev j hj

lemma lt_div_succ_mul (a b : Nat) (hb : 0 < b) : a < (a / b + 1) * b := by
  have h := Nat.div_add_mod a b
  have h2 := Nat.mod_lt a hb
  calc a = b * (a / b) + a % b := h.symm
    _ < b * (a / b) + b := by omega
    _ = (a / b + 1) * b := by ring

lemma div_lt_of_lt_mul_k (x k m : Nat) (hm : 0 < m) (h : x < k * m) : x / m < k := by
  rw [Nat.div_lt_iff_lt_mul hm]
  omega

/-- The cell of a square grid: the unique subrange containing a point
determines its row and column by division. -/
lemma contains_cell_iff (ax ay m x y c r : Nat) (hm : 0 < m) (hx1 : ax ≤ x) (hy1 : ay ≤ y) :
    (Range2D.contains
      { minX := ax + c * m, maxX := ax + c * m + m - 1
        minY := ay + r * m, maxY := ay + r * m + m - 1 } x y = true)
      ↔ ((x - ax) / m = c ∧ (y - ay) / m = r) := by
  unfold Range2D.contains
  simp only [Bool.and_eq_true, decide_eq_true_eq]
  constructor
  · rintro ⟨⟨⟨h1, h2⟩, h3⟩, h4⟩
    constructor
    · exact Nat.div_eq_of_lt_le (by omega) (by rw [Nat.succ_mul]; omega)
    · exact Nat.div_eq_of_lt_le (by omega) (by rw [Nat.succ_mul]; omega)
  · rintro ⟨h1, h2⟩
    have l1 : c * m ≤ x - ax := h1 ▸ Nat.div_mul_le_self (x - ax) m
    have l2 : x - ax < (c + 1) * m := h1 ▸ lt_div_succ_mul (x - ax) m hm
    have l3 : r * m ≤ y - ay := h2 ▸ Nat.div_mul_le_self (y - ay) m
    have l4 : y - ay < (r + 1) * m := h2 ▸ lt_div_succ_mul (y - ay) m hm
    rw [Nat.succ_mul] at l2 l4
    omega

/-- `to_subranges` of a square whose side is `stem_k · m`: a defined
row-major list whose `cp`-th entry is the `(cp / stem_k, cp % stem_k)`
cell of side `m`. -/
lemma toSubranges_square (t : K2Tree) (ax ay m : Nat) (hm : 0 < m) (hsk : 0 < t.stemK) :
    t.toSubranges
      { minX := ax, maxX := ax + t.stemK * m - 1
        minY := ay, maxY := ay + t.stemK * m - 1 } =
      some ((List.range (t.stemK * t.stemK)).map fun cp =>
        { minX := ax + (cp % t.stemK) * m, maxX := ax + (cp % t.stemK) * m + m - 1
          minY := ay + (cp / t.stemK) * m, maxY := ay + (cp / t.stemK) * m + m - 1 }) := by
  have hskm : 0 < t.stemK * m := Nat.mul_pos hsk hm
  have hw : Range2D.width
      { minX := ax, maxX := ax + t.stemK * m - 1
        minY := ay, maxY := ay + t.stemK * m - 1 } = t.stemK * m := by
    show ax + t.stemK * m - 1 - ax + 1 = t.stemK * m
    omega
  have hh : Range2D.height
      { minX := ax, maxX := ax + t.stemK * m - 1
        minY := ay, maxY := ay + t.stemK * m - 1 } = t.stemK * m := by
    show ay + t.stemK * m - 1 - ay + 1 = t.stemK * m
    omega
  unfold K2Tree.toSubranges subRangesFromRange
  simp only [hw, hh, Nat.mul_div_cancel_left m hsk]
  rw [if_neg (by simp [Nat.mul_comm])]
  congr 1
  rw [grid_eq_map (fun r c =>
    ({ minX := ax + c * m, maxX := ax + c * m + m - 1
       minY := ay + r * m, maxY := ay + r * m + m - 1 } : Range2D)) t.stemK t.stemK]

/-- Locating the unique subrange of the grid that contains a point. -/
lemma find_child_eq (t : K2Tree) (subs : List Range2D) (ax ay m x y L : Nat)
    (hm : 0 < m) (hsk : 0 < t.stemK) (hL : L = t.stemK * t.stemK)
    (hx1 : ax ≤ x) (hx2 : x < ax + t.stemK * m) (hy1 : ay ≤ y) (hy2 : y < ay + t.stemK * m)
    (hsubs : subs = (List.range (t.stemK * t.stemK)).map fun cp =>
      { minX := ax + (cp % t.stemK) * m, maxX := ax + (cp % t.stemK) * m + m - 1
        minY := ay + (cp / t.stemK) * m, maxY := ay + (cp / t.stemK) * m + m - 1 }) :
    (List.range L).find? (fun cp => (subs.getD cp default).contains x y) =
      some (t.stemK * ((y - ay) / m) + (x - ax) / m) := by
  have hcx : (x - ax) / m < t.stemK := div_lt_of_lt_mul_k (x - ax) t.stemK m hm (by omega)
  have hry : (y - ay) / m < t.stemK := div_lt_of_lt_mul_k (y - ay) t.stemK m hm (by omega)
  set i := t.stemK * ((y - ay) / m) + (x - ax) / m with hi
  have hiL : i < t.stemK * t.stemK := by
    calc i < t.stemK * ((y - ay) / m) + t.stemK := by omega
      _ ≤ t.stemK * t.stemK := by
        have : (y - ay) / m + 1 ≤ t.stemK := hry
        calc t.stemK * ((y - ay) / m) + t.stemK = t.stemK * ((y - ay) / m + 1) := by ring
          _ ≤ t.stemK * t.stemK := Nat.mul_le_mul_left _ this
  have hgetD : ∀ cp, cp < t.stemK * t.stemK → subs.getD cp default =
      { minX := ax + (cp % t.stemK) * m, maxX := ax + (cp % t.stemK) * m + m - 1
        minY := ay + (cp / t.stemK) * m, maxY := ay + (cp / t.stemK) * m + m - 1 } := by
    intro cp hcp
    rw [hsubs, List.getD_eq_getElem _ _ (by simpa using hcp), List.getElem_map,
      List.getElem_range]
  have hidiv : i / t.stemK = (y - ay) / m := by
    rw [hi, Nat.add_comm, Nat.add_mul_div_left _ _ hsk, Nat.div_eq_of_lt hcx]
    omega
  have himod : i % t.stemK = (x - ax) / m := by
    rw [hi, Nat.add_comm, Nat.add_mul_mod_self_left, Nat.mod_eq_of_lt hcx]
  apply range_find?_eq _ _ _ (hL ▸ hiL)
  · rw [hgetD i hiL]
    rw [contains_cell_iff ax ay m x y (i % t.stemK) (i / t.stemK) hm hx1 hy1]
    exact ⟨himod.symm, hidiv.symm⟩
  · intro j hj
    have hjL : j < t.stemK * t.stemK := by omega
    rw [hgetD j hjL]
    rw [Bool.eq_false_iff]
    intro hcont
    rw [contains_cell_iff ax ay m x y (j % t.stemK) (j / t.stemK) hm hx1 hy1] at hcont
    obtain ⟨hc, hr⟩ := hcont
    have : j = i := by
      have hjd := Nat.div_add_mod j t.stemK
      rw [← hc, ← hr] at hjd
      omega
    omega

lemma grid_getD (t : K2Tree) (ax ay m cp : Nat) (hcp : cp < t.stemK * t.stemK) :
    (((List.range (t.stemK * t.stemK)).map fun cp =>
      ({ minX := ax + (cp % t.stemK) * m, maxX := ax + (cp % t.stemK) * m + m - 1
         minY := ay + (cp / t.stemK) * m, maxY := ay + (cp / t.stemK) * m + m - 1 } :
        Range2D)).getD cp default) =
      { minX := ax + (cp % t.stemK) * m, maxX := ax + (cp % t.stemK) * m + m - 1
        minY := ay + (cp / t.stemK) * m, maxY := ay + (cp / t.stemK) * m + m - 1 } := by
  rw [List.getD_eq_getElem _ _ (by simpa using hcp), List.getElem_map, List.getElem_range]

lemma cell_idx_mod (sk qy qx : Nat) (hsk : 0 < sk) (hqx : qx < sk) :
    (sk * qy + qx) % sk = qx := by
  rw [Nat.add_comm, Nat.add_mul_mod_self_left, Nat.mod_eq_of_lt hqx]

lemma cell_idx_div (sk qy qx : Nat) (hsk : 0 < sk) (hqx : qx < sk) :
    (sk * qy + qx) / sk = qy := by
  rw [Nat.add_comm, Nat.add_mul_div_left _ _ hsk, Nat.div_eq_of_lt hqx]
  omega

lemma cell_idx_lt (sk qy qx : Nat) (hqy : qy < sk) (hqx : qx < sk) :
    sk * qy + qx < sk * sk := by
  calc sk * qy + qx < sk * qy + sk := by omega
    _ = sk * (qy + 1) := by ring
    _ ≤ sk * sk := Nat.mul_le_mul_left _ (by omega)

/-- One unfolding step of `descend` over a square of side `stem_k · m`
containing `(x, y)`: the child index is computed by division and the
recursion (or stop) happens on the corresponding cell. -/
lemma descend_unfold (t : K2Tree) (x y smax fuel layer stemPos ax ay m : Nat)
    (hm : 0 < m) (hsk : 0 < t.stemK)
    (hx1 : ax ≤ x) (hx2 : x < ax + t.stemK * m) (hy1 : ay ≤ y) (hy2 : y < ay + t.stemK * m) :
    t.descend x y smax (fuel + 1) layer stemPos
      { minX := ax, maxX := ax + t.stemK * m - 1
        minY := ay, maxY := ay + t.stemK * m - 1 } =
      (if !(t.stems.getD (stemPos + (t.stemK * ((y - ay) / m) + (x - ax) / m)) false) then
        .ok (.stem stemPos
          { minX := ax, maxX := ax + t.stemK * m - 1
            minY := ay, maxY := ay + t.stemK * m - 1 })
      else if layer = smax then
        match t.stemToLeafStart (stemPos + (t.stemK * ((y - ay) / m) + (x - ax) / m)) with
        | none => .error (.traverseError x y)
        | some ls => .ok (.leaf ls
            { minX := ax + (x - ax) / m * m, maxX := ax + (x - ax) / m * m + m - 1
              minY := ay + (y - ay) / m * m, maxY := ay + (y - ay) / m * m + m - 1 })
      else
        match t.childStem layer stemPos (t.stemK * ((y - ay) / m) + (x - ax) / m) with
        | none => .error (.traverseError x y)
        | some cs => t.descend x y smax fuel (layer + 1) cs
            { minX := ax + (x - ax) / m * m, maxX := ax + (x - ax) / m * m + m - 1
              minY := ay + (y - ay) / m * m, maxY := ay + (y - ay) / m * m + m - 1 }) := by
  have hcx : (x - ax) / m < t.stemK := div_lt_of_lt_mul_k (x - ax) t.stemK m hm (by omega)
  have hry : (y - ay) / m < t.stemK := div_lt_of_lt_mul_k (y - ay) t.stemK m hm (by omega)
  have hgrid := toSubranges_square t ax ay m hm hsk
  have hfind := find_child_eq t _ ax ay m x y t.stemLen hm hsk (Nat.pow_two _)
    hx1 hx2 hy1 hy2 rfl
  have hiL : t.stemK * ((y - ay) / m) + (x - ax) / m < t.stemK * t.stemK :=
    cell_idx_lt t.stemK ((y - ay) / m) ((x - ax) / m) hry hcx
  have hsub := grid_getD t ax ay m (t.stemK * ((y - ay) / m) + (x - ax) / m) hiL
  rw [cell_idx_mod t.stemK _ _ hsk hcx, cell_idx_div t.stemK _ _ hsk hcx] at hsub
  simp only [K2Tree.descend, hgrid, hfind, hsub]

lemma getD_drop (l : List Bool) (n i : Nat) :
    (l.drop n).getD i false = l.getD (n + i) false := by
  by_cases h : n + i < l.length
  · rw [List.getD_eq_getElem _ _ (by simp; omega), List.getD_eq_getElem _ _ h,
      List.getElem_drop]
  · rw [List.getD_eq_default _ _ (by simp; omega), List.getD_eq_default _ _ (by omega)]

lemma getD_take (l : List Bool) (n i : Nat) (h : i < n) :
    (l.take n).getD i false = l.getD i false := by
  by_cases hl : i < l.length
  · rw [List.getD_eq_getElem _ _ (by simp; omega), List.getD_eq_getElem _ _ hl,
      List.getElem_take]
  · rw [List.getD_eq_default _ _ (by simp; omega), List.getD_eq_default _ _ (by omega)]

/-- The root stem: the first `stem_len` stem bits. -/
def rootStem (t : K2Tree) : List Bool := t.stems.take t.stemLen

/-- The stems after the root: for a two-layer tree, the whole of layer 1. -/
def restStems (t : K2Tree) : List Bool := t.stems.drop t.stemLen

/-- The internal well-formedness invariant for two-stem-layer trees (the
only shape reachable from `new`/`with_k` by `set` calls). -/
structure Inv (t : K2Tree) : Prop where
  ms : t.maxSlayers = 2
  sk2 : 2 ≤ t.stemK
  lk2 : 2 ≤ t.leafK
  stemsLen : t.stems.length = t.stemLen * (1 + cnt (rootStem t))
  leavesLen : t.leaves.length = t.leafLen * cnt (restStems t)
  stemBlocks : ∀ b, b < cnt (rootStem t) →
    0 < cnt (((restStems t).drop (b * t.stemLen)).take t.stemLen)
  leafBlocks : ∀ j, j < cnt (restStems t) →
    0 < cnt ((t.leaves.drop (j * t.leafLen)).take t.leafLen)
  starts : t.slayerStarts = if t.leaves.length = 0 then [0] else [0, t.stemLen]
  emptyRoot : t.leaves.length = 0 → cnt (rootStem t) = 0

namespace Inv

variable {t : K2Tree}

lemma sl_pos (h : Inv t) : 0 < t.stemLen := by
  have := h.sk2
  unfold K2Tree.stemLen
  positivity

lemma ll_pos (h : Inv t) : 0 < t.leafLen := by
  have := h.lk2
  unfold K2Tree.leafLen
  positivity

lemma rootLen (h : Inv t) : (rootStem t).length = t.stemLen := by
  unfold rootStem
  rw [List.length_take]
  have h1 : t.stemLen ≤ t.stems.length := by
    rw [h.stemsLen]
    calc t.stemLen = t.stemLen * 1 := by omega
      _ ≤ t.stemLen * (1 + cnt (rootStem t)) := Nat.mul_le_mul_left _ (by omega)
  omega

lemma restLen (h : Inv t) : (restStems t).length = t.stemLen * cnt (rootStem t) := by
  unfold restStems
  rw [List.length_drop, h.stemsLen, Nat.mul_add, Nat.mul_one]
  omega

lemma stems_split : t.stems = rootStem t ++ restStems t :=
  (List.take_append_drop t.stemLen t.stems).symm

lemma leaves_len_zero_iff (h : Inv t) : t.leaves.length = 0 ↔ cnt (restStems t) = 0 := by
  rw [h.leavesLen]
  have := h.ll_pos
  rw [Nat.mul_eq_zero]
  omega

lemma cnt_root_le (h : Inv t) : cnt (rootStem t) ≤ t.stemLen := by
  have := cnt_le_length (rootStem t)
  rw [h.rootLen] at this
  exact this

lemma cnt_rest_le (h : Inv t) : cnt (restStems t) ≤ t.stemLen * cnt (rootStem t) := by
  have := cnt_le_length (restStems t)
  rw [h.restLen] at this
  exact this

end Inv

/-- The side of a level-1 subrange: `stem_k · leaf_k`. -/
def m1 (t : K2Tree) : Nat := t.stemK * t.leafK

/-- The root child index of `(x, y)`. -/
def specC0 (t : K2Tree) (x y : Nat) : Nat :=
  t.stemK * (y / (t.stemK * t.leafK)) + x / (t.stemK * t.leafK)

/-- The rank of the root child among the set root bits. -/
def specB (t : K2Tree) (x y : Nat) : Nat := cnt ((rootStem t).take (specC0 t x y))

/-- The level-1 child index of `(x, y)` inside its level-1 subrange. -/
def specC1 (t : K2Tree) (x y : Nat) : Nat :=
  t.stemK * ((y - y / (t.stemK * t.leafK) * (t.stemK * t.leafK)) / t.leafK) +
    (x - x / (t.stemK * t.leafK) * (t.stemK * t.leafK)) / t.leafK

/-- The position of `(x, y)`'s level-1 bit inside `restStems`. -/
def specPos1 (t : K2Tree) (x y : Nat) : Nat :=
  specB t x y * t.stemLen + specC1 t x y

/-- The rank of `(x, y)`'s leaf among the set level-1 bits. -/
def specJ (t : K2Tree) (x y : Nat) : Nat :=
  cnt ((restStems t).take (specPos1 t x y))

/-- The whole-matrix range. -/
def fullRange (t : K2Tree) : Range2D :=
  { minX := 0, maxX := t.matrixWidth - 1, minY := 0, maxY := t.matrixWidth - 1 }

/-- The level-1 subrange containing `(x, y)`. -/
def sub1 (t : K2Tree) (x y : Nat) : Range2D :=
  { minX := x / (t.stemK * t.leafK) * (t.stemK * t.leafK)
    maxX := x / (t.stemK * t.leafK) * (t.stemK * t.leafK) + t.stemK * t.leafK - 1
    minY := y / (t.stemK * t.leafK) * (t.stemK * t.leafK)
    maxY := y / (t.stemK * t.leafK) * (t.stemK * t.leafK) + t.stemK * t.leafK - 1 }

/-- The leaf range containing `(x, y)`. -/
def leafRange (t : K2Tree) (x y : Nat) : Range2D :=
  { minX := x / (t.stemK * t.leafK) * (t.stemK * t.leafK) +
      (x - x / (t.stemK * t.leafK) * (t.stemK * t.leafK)) / t.leafK * t.leafK
    maxX := x / (t.stemK * t.leafK) * (t.stemK * t.leafK) +
      (x - x / (t.stemK * t.leafK) * (t.stemK * t.leafK)) / t.leafK * t.leafK + t.leafK - 1
    minY := y / (t.stemK * t.leafK) * (t.stemK * t.leafK) +
      (y - y / (t.stemK * t.leafK) * (t.stemK * t.leafK)) / t.leafK * t.leafK
    maxY := y / (t.stemK * t.leafK) * (t.stemK * t.leafK) +
      (y - y / (t.stemK * t.leafK) * (t.stemK * t.leafK)) / t.leafK * t.leafK + t.leafK - 1 }

/-- The stem start of the level-1 stem holding `(x, y)`'s bit. -/
def stem1Start (t : K2Tree) (x y : Nat) : Nat :=
  t.stemLen + specB t x y * t.stemLen

end K2

namespace K2

lemma layerStart_zero (t : K2Tree) : t.layerStart 0 = 0 := rfl

lemma layerStart_one (t : K2Tree) : t.layerStart 1 = t.stemLen := rfl

lemma rootStem_take (t : K2Tree) (c : Nat) (hc : c ≤ t.stemLen) :
    (rootStem t).take c = t.stems.take c := by
  unfold rootStem
  rw [List.take_take]
  congr 1
  omega

lemma getD_rest (t : K2Tree) (i : Nat) :
    (restStems t).getD i false = t.stems.getD (t.stemLen + i) false :=
  getD_drop t.stems t.stemLen i

lemma getD_root (t : K2Tree) (c : Nat) (hc : c < t.stemLen) :
    (rootStem t).getD c false = t.stems.getD c false :=
  getD_take t.stems t.stemLen c hc

lemma m1_pos {t : K2Tree} (h : Inv t) : 0 < m1 t := by
  have h1 := h.sk2
  have h2 := h.lk2
  unfold m1
  positivity

lemma width_eq {t : K2Tree} (h : Inv t) : t.matrixWidth = t.stemK * m1 t := by
  unfold K2Tree.matrixWidth m1
  rw [h.ms]
  ring

lemma specC0_lt {t : K2Tree} (h : Inv t) (x y : Nat)
    (hx : x < t.matrixWidth) (hy : y < t.matrixWidth) : specC0 t x y < t.stemLen := by
  rw [width_eq h] at hx hy
  unfold specC0
  rw [K2Tree.stemLen, Nat.pow_two]
  exact cell_idx_lt t.stemK _ _
    (div_lt_of_lt_mul_k y t.stemK (m1 t) (m1_pos h) hy)
    (div_lt_of_lt_mul_k x t.stemK (m1 t) (m1_pos h) hx)

lemma width_eq_raw {t : K2Tree} (h : Inv t) :
    t.matrixWidth = t.stemK * (t.stemK * t.leafK) := width_eq h

lemma sub_div_mul_lt (v d : Nat) (hd : 0 < d) : v - v / d * d < d := by
  have h1 := Nat.div_add_mod v d
  have h2 := Nat.mod_lt v hd
  rw [Nat.mul_comm] at h1
  omega

lemma div_mul_le (v d : Nat) : v / d * d ≤ v := Nat.div_mul_le_self v d

lemma lt_div_mul_add (v d : Nat) (hd : 0 < d) : v < v / d * d + d := by
  have := sub_div_mul_lt v d hd
  have := div_mul_le v d
  omega

lemma specC1_lt {t : K2Tree} (h : Inv t) (x y : Nat) : specC1 t x y < t.stemLen := by
  have hlk : 0 < t.leafK := by have := h.lk2; omega
  unfold specC1
  rw [K2Tree.stemLen, Nat.pow_two]
  refine cell_idx_lt t.stemK _ _ ?_ ?_
  · exact div_lt_of_lt_mul_k _ t.stemK t.leafK hlk (sub_div_mul_lt y (m1 t) (m1_pos h))
  · exact div_lt_of_lt_mul_k _ t.stemK t.leafK hlk (sub_div_mul_lt x (m1 t) (m1_pos h))

/-- Root-level descent stop: the root child bit is 0. -/
lemma matrixBit_stem0 {t : K2Tree} (h : Inv t) (x y : Nat)
    (hx : x < t.matrixWidth) (hy : y < t.matrixWidth)
    (hbit : (rootStem t).getD (specC0 t x y) false = false) :
    t.matrixBit x y t.matrixWidth = .ok (.stem 0 (fullRange t)) := by
  have hW := width_eq h
  have hm1 := m1_pos h
  have hsk : 0 < t.stemK := by have := h.sk2; omega
  have hrange_lit :
      ({ minX := 0, maxX := t.matrixWidth - 1,
         minY := 0, maxY := t.matrixWidth - 1 } : Range2D) =
      ({ minX := 0, maxX := 0 + t.stemK * m1 t - 1,
         minY := 0, maxY := 0 + t.stemK * m1 t - 1 } : Range2D) := by
    rw [hW]
    simp
  unfold K2Tree.matrixBit
  rw [h.ms, hrange_lit]
  rw [descend_unfold t x y (2 - 1) 1 0 0 0 0 (m1 t) hm1 hsk (Nat.zero_le x)
    (by omega) (Nat.zero_le y) (by omega)]
  have hc0 : specC0 t x y < t.stemLen := specC0_lt h x y hx hy
  have hbit2 : t.stems.getD (0 + (t.stemK * ((y - 0) / m1 t) + (x - 0) / m1 t)) false
      = false := by
    have he : 0 + (t.stemK * ((y - 0) / m1 t) + (x - 0) / m1 t) = specC0 t x y := by
      simp only [Nat.sub_zero, Nat.zero_add]
      rfl
    rw [he, ← getD_root t _ hc0]
    exact hbit
  rw [hbit2]
  simp only [Bool.not_false, if_true]
  unfold fullRange
  rw [hrange_lit]

end K2

namespace K2

/-- Descent when the root child bit is set: stop at the level-1 stem if
its child bit is 0, else return the leaf found by rank. -/
lemma matrixBit_deep {t : K2Tree} (h : Inv t) (x y : Nat)
    (hx : x < t.matrixWidth) (hy : y < t.matrixWidth)
    (hbit0 : (rootStem t).getD (specC0 t x y) false = true) :
    t.matrixBit x y t.matrixWidth =
      (if (restStems t).getD (specPos1 t x y) false = false then
        .ok (.stem (stem1Start t x y) (sub1 t x y))
      else .ok (.leaf (specJ t x y * t.leafLen) (leafRange t x y))) := by
  have hW := width_eq_raw h
  have hsk : 0 < t.stemK := by have := h.sk2; omega
  have hlk : 0 < t.leafK := by have := h.lk2; omega
  have hm1 : 0 < t.stemK * t.leafK := Nat.mul_pos hsk hlk
  have hc0 : specC0 t x y < t.stemLen := specC0_lt h x y hx hy
  have hrange_lit :
      ({ minX := 0, maxX := t.matrixWidth - 1,
         minY := 0, maxY := t.matrixWidth - 1 } : Range2D) =
      ({ minX := 0, maxX := 0 + t.stemK * (t.stemK * t.leafK) - 1,
         minY := 0, maxY := 0 + t.stemK * (t.stemK * t.leafK) - 1 } : Range2D) := by
    rw [hW]
    simp
  unfold K2Tree.matrixBit
  rw [h.ms, hrange_lit]
  rw [descend_unfold t x y (2 - 1) 1 0 0 0 0 (t.stemK * t.leafK) hm1 hsk (Nat.zero_le x)
    (by omega) (Nat.zero_le y) (by omega)]
  simp only [Nat.sub_zero, Nat.zero_add]
  have hbit2 : t.stems.getD (t.stemK * (y / (t.stemK * t.leafK)) + x / (t.stemK * t.leafK))
      false = true := by
    have h2 : t.stems.getD (specC0 t x y) false = true := by
      rw [← getD_root t _ hc0]
      exact hbit0
    exact h2
  rw [hbit2]
  simp only [Bool.not_true, Bool.false_eq_true, if_false]
  rw [if_neg (by omega : ¬ (0 : Nat) = 2 - 1)]
  have hcs : t.childStem 0 0
      (t.stemK * (y / (t.stemK * t.leafK)) + x / (t.stemK * t.leafK)) =
      some (stem1Start t x y) := by
    unfold K2Tree.childStem
    rw [Nat.zero_add, hbit2, h.ms]
    rw [if_neg (by simp)]
    have hval : t.layerStart (0 + 1) +
        t.numStemsBeforeChild (t.stemK * (y / (t.stemK * t.leafK)) + x / (t.stemK * t.leafK)) 0
          * t.stemLen = stem1Start t x y := by
      unfold stem1Start specB K2Tree.numStemsBeforeChild
      rw [show (0 : Nat) + 1 = 1 from rfl, layerStart_one, layerStart_zero, onesInRange_zero]
      rw [rootStem_take t _ (le_of_lt hc0)]
      rfl
    rw [hval]
  simp only [hcs]
  have haxx := div_mul_le x (t.stemK * t.leafK)
  have haxx2 := lt_div_mul_add x (t.stemK * t.leafK) hm1
  have hayy := div_mul_le y (t.stemK * t.leafK)
  have hayy2 := lt_div_mul_add y (t.stemK * t.leafK) hm1
  rw [descend_unfold t x y (2 - 1) 0 (0 + 1) (stem1Start t x y)
    (x / (t.stemK * t.leafK) * (t.stemK * t.leafK))
    (y / (t.stemK * t.leafK) * (t.stemK * t.leafK)) t.leafK hlk hsk
    (by omega) (by omega) (by omega) (by omega)]
  have hpos1 : stem1Start t x y +
      (t.stemK * ((y - y / (t.stemK * t.leafK) * (t.stemK * t.leafK)) / t.leafK) +
        (x - x / (t.stemK * t.leafK) * (t.stemK * t.leafK)) / t.leafK) =
      t.stemLen + specPos1 t x y := by
    unfold stem1Start specPos1 specC1
    omega
  rw [hpos1]
  have hrest : t.stems.getD (t.stemLen + specPos1 t x y) false =
      (restStems t).getD (specPos1 t x y) false := (getD_rest t _).symm
  rw [hrest]
  cases hb : (restStems t).getD (specPos1 t x y) false with
  | false =>
    simp only [Bool.not_false, if_true, if_pos]
    unfold sub1
    rfl
  | true =>
    simp only [Bool.not_true, Bool.false_eq_true, if_false, if_true]
    have hstl : t.stemToLeafStart (t.stemLen + specPos1 t x y) =
        some (specJ t x y * t.leafLen) := by
      unfold K2Tree.stemToLeafStart
      rw [hrest, hb]
      simp only [Bool.not_true, Bool.false_eq_true, if_false]
      congr 1
      have hne : ¬ t.leaves.length = 0 := by
        intro heq
        have hz := (h.leaves_len_zero_iff).mp heq
        have := cnt_take_lt (restStems t) (specPos1 t x y) hb
        omega
      rw [h.starts, if_neg hne, h.ms]
      have hgd : ([0, t.stemLen] : List Nat).getD (2 - 1) 0 = t.stemLen := rfl
      rw [hgd]
      have hoir : onesInRange t.stems t.stemLen (t.stemLen + specPos1 t x y) =
          specJ t x y := by
        rw [onesInRange_eq]
        have he : t.stemLen + specPos1 t x y - t.stemLen = specPos1 t x y := by omega
        rw [he]
        rfl
      rw [hoir]
    rw [hstl]
    unfold leafRange
    rfl

end K2

namespace K2

/-- Level-1 stop with the child bit clear. -/
lemma matrixBit_stem1 {t : K2Tree} (h : Inv t) (x y : Nat)
    (hx : x < t.matrixWidth) (hy : y < t.matrixWidth)
    (hbit0 : (rootStem t).getD (specC0 t x y) false = true)
    (hbit1 : (restStems t).getD (specPos1 t x y) false = false) :
    t.matrixBit x y t.matrixWidth = .ok (.stem (stem1Start t x y) (sub1 t x y)) := by
  rw [matrixBit_deep h x y hx hy hbit0, if_pos hbit1]

/-- Descent reaching a leaf. -/
lemma matrixBit_leaf {t : K2Tree} (h : Inv t) (x y : Nat)
    (hx : x < t.matrixWidth) (hy : y < t.matrixWidth)
    (hbit0 : (rootStem t).getD (specC0 t x y) false = true)
    (hbit1 : (restStems t).getD (specPos1 t x y) false = true) :
    t.matrixBit x y t.matrixWidth =
      .ok (.leaf (specJ t x y * t.leafLen) (leafRange t x y)) := by
  rw [matrixBit_deep h x y hx hy hbit0, if_neg (by rw [hbit1]; simp)]

lemma leafRange_width {t : K2Tree} (h : Inv t) (x y : Nat) :
    (leafRange t x y).width = t.leafK := by
  have hlk : 0 < t.leafK := by have := h.lk2; omega
  unfold leafRange Range2D.width
  simp only
  omega

lemma leafRange_height {t : K2Tree} (h : Inv t) (x y : Nat) :
    (leafRange t x y).height = t.leafK := by
  have hlk : 0 < t.leafK := by have := h.lk2; omega
  unfold leafRange Range2D.height
  simp only
  omega

/-- The in-leaf offset of `(x, y)`. -/
def specOff (t : K2Tree) (x y : Nat) : Nat :=
  t.leafK * (y - (leafRange t x y).minY) + (x - (leafRange t x y).minX)

lemma specOff_lt {t : K2Tree} (h : Inv t) (x y : Nat) : specOff t x y < t.leafLen := by
  have hlk : 0 < t.leafK := by have := h.lk2; omega
  have hm1 : 0 < t.stemK * t.leafK := by have := h.sk2; positivity
  have hy1 : y - (leafRange t x y).minY < t.leafK := by
    unfold leafRange
    simp only
    have h1 := sub_div_mul_lt (y - y / (t.stemK * t.leafK) * (t.stemK * t.leafK)) t.leafK hlk
    have h2 := div_mul_le y (t.stemK * t.leafK)
    omega
  have hx1 : x - (leafRange t x y).minX < t.leafK := by
    unfold leafRange
    simp only
    have h1 := sub_div_mul_lt (x - x / (t.stemK * t.leafK) * (t.stemK * t.leafK)) t.leafK hlk
    have h2 := div_mul_le x (t.stemK * t.leafK)
    omega
  unfold specOff K2Tree.leafLen
  rw [Nat.pow_two]
  calc t.leafK * (y - (leafRange t x y).minY) + (x - (leafRange t x y).minX)
      < t.leafK * (y - (leafRange t x y).minY) + t.leafK := by omega
    _ = t.leafK * ((y - (leafRange t x y).minY) + 1) := by ring
    _ ≤ t.leafK * t.leafK := Nat.mul_le_mul_left _ (by omega)

/-- A `set` whose descent stops at an all-zero region writes nothing when
the state is `false`. -/
lemma set_noop_stem0 {t : K2Tree} (h : Inv t) (x y : Nat)
    (hx : x < t.matrixWidth) (hy : y < t.matrixWidth)
    (hbit0 : (rootStem t).getD (specC0 t x y) false = false) :
    t.set x y false = .ok t := by
  unfold K2Tree.set
  rw [if_neg (by omega)]
  simp only [matrixBit_stem0 h x y hx hy hbit0, Bool.false_eq_true, if_false]

lemma set_noop_stem1 {t : K2Tree} (h : Inv t) (x y : Nat)
    (hx : x < t.matrixWidth) (hy : y < t.matrixWidth)
    (hbit0 : (rootStem t).getD (specC0 t x y) false = true)
    (hbit1 : (restStems t).getD (specPos1 t x y) false = false) :
    t.set x y false = .ok t := by
  unfold K2Tree.set
  rw [if_neg (by omega)]
  simp only [matrixBit_stem1 h x y hx hy hbit0 hbit1, Bool.false_eq_true, if_false]

end K2

namespace K2

/-- The tree after a plain leaf-bit write at `(x, y)`. -/
def leafWrite (t : K2Tree) (x y : Nat) (s : Bool) : K2Tree :=
  { t with leaves := t.leaves.set (specJ t x y * t.leafLen + specOff t x y) s }

lemma set_leaf_true {t : K2Tree} (h : Inv t) (x y : Nat)
    (hx : x < t.matrixWidth) (hy : y < t.matrixWidth)
    (hbit0 : (rootStem t).getD (specC0 t x y) false = true)
    (hbit1 : (restStems t).getD (specPos1 t x y) false = true) :
    t.set x y true = .ok (leafWrite t x y true) := by
  unfold K2Tree.set
  rw [if_neg (by omega)]
  simp only [matrixBit_leaf h x y hx hy hbit0 hbit1, leafRange_width h,
    leafRange_height h, ne_eq, not_true_eq_false, false_or, or_self, if_false,
    Bool.not_true, Bool.false_and, Bool.false_eq_true]
  rfl

lemma set_leaf_false_keep {t : K2Tree} (h : Inv t) (x y : Nat)
    (hx : x < t.matrixWidth) (hy : y < t.matrixWidth)
    (hbit0 : (rootStem t).getD (specC0 t x y) false = true)
    (hbit1 : (restStems t).getD (specPos1 t x y) false = true)
    (hkeep : allZeroes ((leafWrite t x y false).leaves) (specJ t x y * t.leafLen)
      (specJ t x y * t.leafLen + t.leafLen) = false) :
    t.set x y false = .ok (leafWrite t x y false) := by
  unfold K2Tree.set
  rw [if_neg (by omega)]
  simp only [matrixBit_leaf h x y hx hy hbit0 hbit1, leafRange_width h,
    leafRange_height h, ne_eq, not_true_eq_false, false_or, or_self, if_false,
    Bool.not_false, Bool.true_and]
  rw [show (t.leafK * (y - (leafRange t x y).minY) + (x - (leafRange t x y).minX)) = specOff t x y from rfl]
  rw [show ({ t with leaves := t.leaves.set (specJ t x y * t.leafLen + specOff t x y) false } : K2Tree) = leafWrite t x y false from rfl]
  have hkeep2 : allZeroes (t.leaves.set (specJ t x y * t.leafLen + specOff t x y) false) (specJ t x y * t.leafLen) (specJ t x y * t.leafLen + t.leafLen) = false := hkeep
  rw [hkeep2]
  simp only [Bool.false_eq_true, if_false]

end K2

namespace K2

lemma drop_set_of_lt (l : List Bool) (n p : Nat) (v : Bool) (h : p < n) :
    (l.set p v).drop n = l.drop n := by
  induction l generalizing p n with
  | nil => simp
  | cons a tl ih =>
    cases p with
    | zero =>
      cases n with
      | zero => omega
      | succ nn => simp
    | succ pp =>
      cases n with
      | zero => omega
      | succ nn => simp [ih nn pp (by omega)]

lemma drop_set_of_le (l : List Bool) (n p : Nat) (v : Bool) (h : n ≤ p) :
    (l.set p v).drop n = (l.drop n).set (p - n) v := by
  induction l generalizing p n with
  | nil => simp
  | cons a tl ih =>
    cases n with
    | zero => simp
    | succ nn =>
      cases p with
      | zero => omega
      | succ pp => simp [ih nn pp (by omega)]

lemma insertBlock_ok (l : List Bool) (q bl : Nat) (hbl : 0 < bl) (hq : q * bl ≤ l.length) :
    insertBlock l (q * bl) bl =
      .ok (l.take (q * bl) ++ List.replicate bl false ++ l.drop (q * bl)) := by
  unfold insertBlock
  rw [if_neg (by omega), if_neg (by omega), if_neg (by simp [Nat.mul_mod_left])]

lemma removeBlock_ok (l : List Bool) (q bl : Nat) (hbl : 0 < bl)
    (hq : (q + 1) * bl ≤ l.length) :
    removeBlock l (q * bl) bl = .ok (l.take (q * bl) ++ l.drop (q * bl + bl)) := by
  have h1 : q * bl + bl ≤ l.length := by rw [Nat.succ_mul] at hq; omega
  unfold removeBlock
  rw [if_neg (by omega), if_neg (by omega), if_neg (by simp [Nat.mul_mod_left]),
    if_neg (by omega)]

lemma sub1_width {t : K2Tree} (h : Inv t) (x y : Nat) :
    (sub1 t x y).width = t.stemK * t.leafK := by
  have := m1_pos h
  unfold sub1 Range2D.width m1 at *
  simp only
  omega

lemma natLogAux_eq (b : Nat) : ∀ fuel n, n ≤ fuel → K2Tree.natLogAux b fuel n = Nat.log b n := by
  intro fuel
  induction fuel with
  | zero =>
    intro n hn
    have hn0 : n = 0 := by omega
    subst hn0
    simp [K2Tree.natLogAux]
  | succ f ih =>
    intro n hn
    unfold K2Tree.natLogAux
    split
    · rename_i hc
      rw [Nat.log_of_one_lt_of_le hc.1 hc.2, ih (n / b)]
      have : n / b < n := Nat.div_lt_self (by omega) hc.1
      omega
    · rename_i hc
      rcases Nat.lt_or_ge n b with hnb | hnb
      · rw [Nat.log_of_lt hnb]
      · have hb1 : b ≤ 1 := by
          by_contra hb
          exact hc ⟨by omega, hnb⟩
        rw [Nat.log_of_left_le_one hb1]

lemma natLog_eq_log (b n : Nat) : K2Tree.natLog b n = Nat.log b n :=
  natLogAux_eq b n n le_rfl

lemma layerFromRange_sub1 {t : K2Tree} (h : Inv t) (x y : Nat) :
    t.layerFromRange (sub1 t x y) = 1 := by
  have hlk : 0 < t.leafK := by have := h.lk2; omega
  have hlog : Nat.log t.stemK t.stemK = 1 := by
    have h1 := Nat.log_pow (show 1 < t.stemK by have := h.sk2; omega) 1
    simpa using h1
  unfold K2Tree.layerFromRange
  rw [natLog_eq_log, sub1_width h, h.ms, Nat.mul_div_cancel _ hlk, hlog]

lemma fullRange_width {t : K2Tree} (h : Inv t) : (fullRange t).width = t.leafK * t.stemK ^ 2 := by
  have h1 : t.matrixWidth = t.leafK * t.stemK ^ 2 := by
    unfold K2Tree.matrixWidth
    rw [h.ms]
  have hw : 0 < t.matrixWidth := by
    rw [h1]
    have := h.sk2
    have := h.lk2
    positivity
  unfold fullRange Range2D.width
  simp only
  omega

lemma layerFromRange_full {t : K2Tree} (h : Inv t) : t.layerFromRange (fullRange t) = 0 := by
  have hlk : 0 < t.leafK := by have := h.lk2; omega
  unfold K2Tree.layerFromRange
  rw [natLog_eq_log, fullRange_width h, h.ms, Nat.mul_comm, Nat.mul_div_cancel _ hlk,
    Nat.log_pow (show 1 < t.stemK by have := h.sk2; omega)]

lemma buildLoop_layer1 (t : K2Tree) (hms : t.maxSlayers = 2) (x y sl ll lsl ss : Nat)
    (r : Range2D) :
    K2Tree.buildLoop x y sl ll 2 1 lsl ss r t = K2Tree.setFinal x y sl ll ss r t := by
  rw [show (2 : Nat) = 1 + 1 from rfl]
  unfold K2Tree.buildLoop
  rw [if_neg (by omega)]

end K2

namespace K2

/-- `setFinal` over the level-1 subrange of `(x, y)`: sets the stem bit at
`ss + c₁` and inserts a fresh one-bit leaf at rank `nl`. -/
lemma setFinal_eq (t : K2Tree) (x y ss nl : Nat)
    (hms : t.maxSlayers = 2) (hsk : 2 ≤ t.stemK) (hlk : 2 ≤ t.leafK)
    (hnl : onesInRange (t.stems.set (ss + specC1 t x y) true) t.stemLen
      (ss + specC1 t x y) = nl)
    (hins : nl * t.leafLen ≤ t.leaves.length) :
    K2Tree.setFinal x y t.stemLen t.leafLen ss (sub1 t x y) t =
      .ok { t with
            stems := t.stems.set (ss + specC1 t x y) true
            leaves := (t.leaves.take (nl * t.leafLen) ++ List.replicate t.leafLen false ++
              t.leaves.drop (nl * t.leafLen)).set (nl * t.leafLen + specOff t x y) true } := by
  have hlkp : 0 < t.leafK := by omega
  have hskp : 0 < t.stemK := by omega
  have hm1p : 0 < t.stemK * t.leafK := by positivity
  have hax1 : x / (t.stemK * t.leafK) * (t.stemK * t.leafK) ≤ x := div_mul_le _ _
  have hay1 : y / (t.stemK * t.leafK) * (t.stemK * t.leafK) ≤ y := div_mul_le _ _
  have hax2 : x < x / (t.stemK * t.leafK) * (t.stemK * t.leafK) + t.stemK * t.leafK :=
    lt_div_mul_add x _ hm1p
  have hay2 : y < y / (t.stemK * t.leafK) * (t.stemK * t.leafK) + t.stemK * t.leafK :=
    lt_div_mul_add y _ hm1p
  have hgrid := toSubranges_square t (x / (t.stemK * t.leafK) * (t.stemK * t.leafK))
    (y / (t.stemK * t.leafK) * (t.stemK * t.leafK)) t.leafK hlkp hskp
  have hfind := find_child_eq t ((List.range (t.stemK * t.stemK)).map fun cp =>
      { minX := x / (t.stemK * t.leafK) * (t.stemK * t.leafK) + (cp % t.stemK) * t.leafK
        maxX := x / (t.stemK * t.leafK) * (t.stemK * t.leafK) + (cp % t.stemK) * t.leafK + t.leafK - 1
        minY := y / (t.stemK * t.leafK) * (t.stemK * t.leafK) + (cp / t.stemK) * t.leafK
        maxY := y / (t.stemK * t.leafK) * (t.stemK * t.leafK) + (cp / t.stemK) * t.leafK + t.leafK - 1 })
    (x / (t.stemK * t.leafK) * (t.stemK * t.leafK))
    (y / (t.stemK * t.leafK) * (t.stemK * t.leafK)) t.leafK x y (t.stemK * t.stemK)
    hlkp hskp rfl hax1 hax2 hay1 hay2 rfl
  have hqx : (x - x / (t.stemK * t.leafK) * (t.stemK * t.leafK)) / t.leafK < t.stemK :=
    div_lt_of_lt_mul_k _ t.stemK t.leafK hlkp (by omega)
  have hqy : (y - y / (t.stemK * t.leafK) * (t.stemK * t.leafK)) / t.leafK < t.stemK :=
    div_lt_of_lt_mul_k _ t.stemK t.leafK hlkp (by omega)
  have hc1lt : specC1 t x y < t.stemK * t.stemK := by
    unfold specC1
    exact cell_idx_lt t.stemK _ _ hqy hqx
  have hsub := grid_getD t (x / (t.stemK * t.leafK) * (t.stemK * t.leafK))
    (y / (t.stemK * t.leafK) * (t.stemK * t.leafK)) t.leafK (specC1 t x y) hc1lt
  have hmod : specC1 t x y % t.stemK =
      (x - x / (t.stemK * t.leafK) * (t.stemK * t.leafK)) / t.leafK := by
    unfold specC1
    exact cell_idx_mod t.stemK _ _ hskp hqx
  have hdiv : specC1 t x y / t.stemK =
      (y - y / (t.stemK * t.leafK) * (t.stemK * t.leafK)) / t.leafK := by
    unfold specC1
    exact cell_idx_div t.stemK _ _ hskp hqx
  rw [hmod, hdiv] at hsub
  unfold K2Tree.setFinal
  unfold sub1
  rw [show (t.toSubranges
      { minX := x / (t.stemK * t.leafK) * (t.stemK * t.leafK)
        maxX := x / (t.stemK * t.leafK) * (t.stemK * t.leafK) + t.stemK * t.leafK - 1
        minY := y / (t.stemK * t.leafK) * (t.stemK * t.leafK)
        maxY := y / (t.stemK * t.leafK) * (t.stemK * t.leafK) + t.stemK * t.leafK - 1 }) =
    (t.toSubranges
      { minX := x / (t.stemK * t.leafK) * (t.stemK * t.leafK)
        maxX := x / (t.stemK * t.leafK) * (t.stemK * t.leafK) + t.stemK * t.leafK - 1
        minY := y / (t.stemK * t.leafK) * (t.stemK * t.leafK)
        maxY := y / (t.stemK * t.leafK) * (t.stemK * t.leafK) + t.stemK * t.leafK - 1 })
    from rfl]
  simp only [hgrid, List.length_map, List.length_range]
  rw [show (List.range (t.stemK * t.stemK)).find? (fun cp =>
      ((((List.range (t.stemK * t.stemK)).map fun cp =>
        ({ minX := x / (t.stemK * t.leafK) * (t.stemK * t.leafK) + (cp % t.stemK) * t.leafK
           maxX := x / (t.stemK * t.leafK) * (t.stemK * t.leafK) + (cp % t.stemK) * t.leafK + t.leafK - 1
           minY := y / (t.stemK * t.leafK) * (t.stemK * t.leafK) + (cp / t.stemK) * t.leafK
           maxY := y / (t.stemK * t.leafK) * (t.stemK * t.leafK) + (cp / t.stemK) * t.leafK + t.leafK - 1 } : Range2D)).getD cp default).contains x y)) =
    some (specC1 t x y) from hfind]
  simp only [hsub]
  have hls : ∀ u : K2Tree, u.layerStart (2 - 1) = u.stemLen := fun u => rfl
  simp only [hms, hls, hnl]
  have hproj : ({ stemK := t.stemK, leafK := t.leafK, maxSlayers := 2
                  slayerStarts := t.slayerStarts, stems := t.stems.set (ss + specC1 t x y) true
                  leaves := t.leaves } : K2Tree).stemLen = t.stemLen := rfl
  simp only [hproj, hnl]
  rw [show insertBlock t.leaves (nl * t.leafLen) t.leafLen =
    .ok (t.leaves.take (nl * t.leafLen) ++ List.replicate t.leafLen false ++
      t.leaves.drop (nl * t.leafLen)) from insertBlock_ok t.leaves nl t.leafLen (show 0 < t.leafLen from pow_pos hlkp 2) hins]
  rfl

end K2

namespace K2

lemma cnt_take_le (l : List Bool) (n : Nat) : cnt (l.take n) ≤ cnt l := by
  conv_rhs => rw [← List.take_append_drop n l]
  rw [cnt_append]
  omega

/-- The tree after a `true` write whose descent stopped at a level-1 stem:
the level-1 bit is set and a fresh one-bit leaf is inserted at its rank. -/
def stemWrite1 (t : K2Tree) (x y : Nat) : K2Tree :=
  { t with
    stems := t.stems.set (stem1Start t x y + specC1 t x y) true
    leaves := (t.leaves.take (specJ t x y * t.leafLen) ++ List.replicate t.leafLen false ++
      t.leaves.drop (specJ t x y * t.leafLen)).set (specJ t x y * t.leafLen + specOff t x y) true }

lemma stem1_index_eq (t : K2Tree) (x y : Nat) :
    stem1Start t x y + specC1 t x y = t.stemLen + specPos1 t x y := by
  unfold stem1Start specPos1
  ring

lemma set_stem1_true {t : K2Tree} (h : Inv t) (x y : Nat)
    (hx : x < t.matrixWidth) (hy : y < t.matrixWidth)
    (hbit0 : (rootStem t).getD (specC0 t x y) false = true)
    (hbit1 : (restStems t).getD (specPos1 t x y) false = false) :
    t.set x y true = .ok (stemWrite1 t x y) := by
  have hnl : onesInRange (t.stems.set (stem1Start t x y + specC1 t x y) true) t.stemLen
      (stem1Start t x y + specC1 t x y) = specJ t x y := by
    rw [stem1_index_eq]
    rw [onesInRange_eq]
    rw [drop_set_of_le _ _ _ _ (by omega)]
    rw [show t.stemLen + specPos1 t x y - t.stemLen = specPos1 t x y from by omega]
    rw [take_set_of_le _ _ _ _ (le_refl _)]
    rfl
  have hins : specJ t x y * t.leafLen ≤ t.leaves.length := by
    have h1 : specJ t x y ≤ cnt (restStems t) := cnt_take_le _ _
    rw [h.leavesLen, Nat.mul_comm]
    exact Nat.mul_le_mul_left _ h1
  unfold K2Tree.set
  rw [if_neg (by omega)]
  simp only [matrixBit_stem1 h x y hx hy hbit0 hbit1, if_true]
  rw [layerFromRange_sub1 h, h.ms, buildLoop_layer1 t h.ms]
  rw [setFinal_eq t x y (stem1Start t x y) (specJ t x y) h.ms h.sk2 h.lk2 hnl hins]
  rfl

end K2

namespace K2

lemma cnt_zero_getD (l : List Bool) (p : Nat) (h : cnt l = 0) : l.getD p false = false := by
  simp only [cnt] at h
  rcases Nat.lt_or_ge p l.length with hp | hp
  · rw [List.getD_eq_getElem _ _ hp]
    have hall := List.countP_eq_zero.mp h
    have hmem : l[p] ∈ l := List.getElem_mem _
    have := hall _ hmem
    simpa [id] using this
  · exact List.getD_eq_default _ _ hp

/-- The rank-among-set-root-bits used when materialising a level-1 stem. -/
def specJ0 (t : K2Tree) (x y : Nat) : Nat :=
  cnt ((restStems t).take (specB t x y * t.stemLen))

/-- The tree after a `true` write into a fully empty tree: root bit,
one fresh level-1 stem with its bit, one fresh leaf with its bit. -/
def buildEmpty (t : K2Tree) (x y : Nat) : K2Tree :=
  { t with
    slayerStarts := [0, t.stemLen]
    stems := (t.stems.set (specC0 t x y) true ++ List.replicate t.stemLen false).set
      (t.stemLen + specC1 t x y) true
    leaves := (List.replicate t.leafLen false).set (specOff t x y) true }

lemma buildLoop_one (t : K2Tree) (x y sl ll layer lsl ss : Nat) (r : Range2D)
    (hlayer : ¬ layer < t.maxSlayers - 1) :
    K2Tree.buildLoop x y sl ll 1 layer lsl ss r t = K2Tree.setFinal x y sl ll ss r t := by
  rw [show (1 : Nat) = 0 + 1 from rfl]
  unfold K2Tree.buildLoop
  rw [if_neg hlayer]

lemma buildLoop_final (t : K2Tree) (x y sl ll fuel layer lsl ss : Nat) (r : Range2D)
    (hlayer : ¬ layer < t.maxSlayers - 1) :
    K2Tree.buildLoop x y sl ll (fuel + 1) layer lsl ss r t = K2Tree.setFinal x y sl ll ss r t := by
  unfold K2Tree.buildLoop
  rw [if_neg hlayer]

/-- `setFinal_eq` transported along a tree with the same branching factors. -/
lemma setFinal_eq2 (t u : K2Tree) (x y ss nl : Nat)
    (hsk0 : u.stemK = t.stemK) (hlk0 : u.leafK = t.leafK)
    (hms : u.maxSlayers = 2) (hsk : 2 ≤ t.stemK) (hlk : 2 ≤ t.leafK)
    (hnl : onesInRange (u.stems.set (ss + specC1 t x y) true) t.stemLen
      (ss + specC1 t x y) = nl)
    (hins : nl * t.leafLen ≤ u.leaves.length) :
    K2Tree.setFinal x y t.stemLen t.leafLen ss (sub1 t x y) u =
      .ok { u with
            stems := u.stems.set (ss + specC1 t x y) true
            leaves := (u.leaves.take (nl * t.leafLen) ++ List.replicate t.leafLen false ++
              u.leaves.drop (nl * t.leafLen)).set (nl * t.leafLen + specOff t x y) true } := by
  have e1 : u.stemLen = t.stemLen := by
    unfold K2Tree.stemLen
    rw [hsk0]
  have e2 : u.leafLen = t.leafLen := by
    unfold K2Tree.leafLen
    rw [hlk0]
  have e3 : sub1 u x y = sub1 t x y := by
    unfold sub1
    rw [hsk0, hlk0]
  have e4 : specC1 u x y = specC1 t x y := by
    unfold specC1
    rw [hsk0, hlk0]
  have e5 : specOff u x y = specOff t x y := by
    unfold specOff leafRange
    rw [hsk0, hlk0]
  have h2 := setFinal_eq u x y ss nl hms (by rw [hsk0]; exact hsk) (by rw [hlk0]; exact hlk)
    (by rw [e4, e1]; exact hnl) (by rw [e2]; exact hins)
  rw [e1, e2, e3, e4, e5] at h2
  exact h2

lemma set_empty_true {t : K2Tree} (h : Inv t) (x y : Nat)
    (hx : x < t.matrixWidth) (hy : y < t.matrixWidth)
    (hempty : t.leaves.length = 0) :
    t.set x y true = .ok (buildEmpty t x y) := by
  have hcr : cnt (rootStem t) = 0 := h.emptyRoot hempty
  have hsl : t.stems.length = t.stemLen := by
    rw [h.stemsLen, hcr]
    simp
  have hbit0 : (rootStem t).getD (specC0 t x y) false = false := cnt_zero_getD _ _ hcr
  have hstarts : t.slayerStarts = [0] := by
    rw [h.starts, if_pos hempty]
  unfold K2Tree.set
  rw [if_neg (by omega)]
  simp only [matrixBit_stem0 h x y hx hy hbit0, if_true]
  rw [layerFromRange_full h, h.ms, hstarts]
  have hlkp : 0 < t.leafK := by have := h.lk2; omega
  have hskp : 0 < t.stemK := by have := h.sk2; omega
  have hm1p : 0 < t.stemK * t.leafK := by positivity
  have hza : 0 + t.stemK * (t.stemK * t.leafK) = t.matrixWidth := by
    rw [Nat.zero_add, ← width_eq_raw h]
  have hrange_lit : (fullRange t) =
      { minX := 0, maxX := 0 + t.stemK * (t.stemK * t.leafK) - 1
        minY := 0, maxY := 0 + t.stemK * (t.stemK * t.leafK) - 1 } := by
    unfold fullRange
    rw [hza]
  have hgrid := toSubranges_square t 0 0 (t.stemK * t.leafK) hm1p hskp
  have hfind := find_child_eq t ((List.range (t.stemK * t.stemK)).map fun cp =>
      { minX := 0 + (cp % t.stemK) * (t.stemK * t.leafK)
        maxX := 0 + (cp % t.stemK) * (t.stemK * t.leafK) + (t.stemK * t.leafK) - 1
        minY := 0 + (cp / t.stemK) * (t.stemK * t.leafK)
        maxY := 0 + (cp / t.stemK) * (t.stemK * t.leafK) + (t.stemK * t.leafK) - 1 })
    0 0 (t.stemK * t.leafK) x y (t.stemK * t.stemK) hm1p hskp rfl
    (Nat.zero_le x) (by rw [Nat.zero_add, ← width_eq_raw h]; exact hx)
    (Nat.zero_le y) (by rw [Nat.zero_add, ← width_eq_raw h]; exact hy) rfl
  have he : t.stemK * ((y - 0) / (t.stemK * t.leafK)) + (x - 0) / (t.stemK * t.leafK) =
      specC0 t x y := by
    simp only [Nat.sub_zero]
    rfl
  rw [he] at hfind
  have hc0lt : specC0 t x y < t.stemK * t.stemK := by
    have := specC0_lt h x y hx hy
    unfold K2Tree.stemLen at this
    rw [Nat.pow_two] at this
    exact this
  have hqx : x / (t.stemK * t.leafK) < t.stemK :=
    div_lt_of_lt_mul_k x t.stemK (t.stemK * t.leafK) hm1p (by rw [← width_eq_raw h]; exact hx)
  have hsub := grid_getD t 0 0 (t.stemK * t.leafK) (specC0 t x y) hc0lt
  have hmod0 : specC0 t x y % t.stemK = x / (t.stemK * t.leafK) := by
    unfold specC0
    exact cell_idx_mod t.stemK _ _ hskp hqx
  have hdiv0 : specC0 t x y / t.stemK = y / (t.stemK * t.leafK) := by
    unfold specC0
    exact cell_idx_div t.stemK _ _ hskp hqx
  rw [hmod0, hdiv0] at hsub
  have hsub1 : (((List.range (t.stemK * t.stemK)).map fun cp =>
      ({ minX := 0 + (cp % t.stemK) * (t.stemK * t.leafK)
         maxX := 0 + (cp % t.stemK) * (t.stemK * t.leafK) + (t.stemK * t.leafK) - 1
         minY := 0 + (cp / t.stemK) * (t.stemK * t.leafK)
         maxY := 0 + (cp / t.stemK) * (t.stemK * t.leafK) + (t.stemK * t.leafK) - 1 } :
        Range2D)).getD (specC0 t x y) default) = sub1 t x y := by
    rw [hsub]
    unfold sub1
    simp
  have hset_len : (t.stems.set (specC0 t x y) true).length = t.stemLen := by
    rw [List.length_set, hsl]
  have hib : insertBlock (t.stems.set (specC0 t x y) true) t.stemLen t.stemLen =
      .ok (t.stems.set (specC0 t x y) true ++ List.replicate t.stemLen false) := by
    have htake : (t.stems.set (specC0 t x y) true).take t.stemLen =
        t.stems.set (specC0 t x y) true := List.take_of_length_le (by rw [hset_len])
    have hdrop : (t.stems.set (specC0 t x y) true).drop t.stemLen = [] :=
      List.drop_eq_nil_of_le (by rw [hset_len])
    unfold insertBlock
    rw [if_neg (by rw [hset_len]; omega), if_neg (by have := h.sl_pos; omega),
      if_neg (by simp [Nat.mod_self])]
    rw [htake, hdrop, List.append_nil]
  simp only [Nat.zero_add] at hgrid hfind hsub1
  rw [show (2 : Nat) = 1 + 1 from rfl]
  unfold K2Tree.buildLoop
  rw [if_pos (show 0 < t.maxSlayers - 1 by rw [h.ms]; omega)]
  rw [hrange_lit]
  simp only [hgrid, List.length_map, List.length_range, hfind, hsub1, Nat.zero_add,
    List.length_singleton, if_true, hstarts, hset_len, hib, List.cons_append,
    List.nil_append]
  have hmap : List.mapIdx (fun i v => if 2 ≤ i then v + t.stemLen else v) [0, t.stemLen] =
      [0, t.stemLen] := by
    simp
  rw [hmap]
  set u : K2Tree :=
    { stemK := t.stemK, leafK := t.leafK, maxSlayers := t.maxSlayers
      slayerStarts := [0, t.stemLen]
      stems := t.stems.set (specC0 t x y) true ++ List.replicate t.stemLen false
      leaves := t.leaves } with hu
  have hdrop2 : (t.stems.set (specC0 t x y) true ++ List.replicate t.stemLen false).drop
      t.stemLen = List.replicate t.stemLen false := by
    rw [← hset_len, List.drop_left]
  have hnl : onesInRange ((t.stems.set (specC0 t x y) true ++
      List.replicate t.stemLen false).set (t.stemLen + specC1 t x y) true) t.stemLen
      (t.stemLen + specC1 t x y) = 0 := by
    rw [onesInRange_eq, drop_set_of_le _ _ _ _ (by omega)]
    rw [show t.stemLen + specC1 t x y - t.stemLen = specC1 t x y from by omega]
    rw [hdrop2, take_set_of_le _ _ _ _ (le_refl _), List.take_replicate, cnt_replicate_false]
  have hms_u : u.maxSlayers = 2 := by
    rw [hu]
    exact h.ms
  rw [buildLoop_one]
  · rw [setFinal_eq2 t u x y t.stemLen 0 (by rw [hu]) (by rw [hu]) hms_u h.sk2 h.lk2
      (by rw [hu]; exact hnl) (by rw [hu]; simp)]
    have hleaves0 : t.leaves = [] := by
      cases hl : t.leaves with
      | nil => rfl
      | cons a l =>
        rw [hl] at hempty
        simp at hempty
    rw [hu]
    unfold buildEmpty
    rw [hleaves0]
    simp
  · rw [hms_u]
    omega

end K2

namespace K2

lemma insertBlock_ok2 (l : List Bool) (bs bl : Nat) (hbl : 0 < bl) (hmod : bs % bl = 0)
    (hle : bs ≤ l.length) :
    insertBlock l bs bl = .ok (l.take bs ++ List.replicate bl false ++ l.drop bs) := by
  unfold insertBlock
  rw [if_neg (by omega), if_neg (by omega), if_neg (by simp [hmod])]

lemma cnt_take_append2 (P Q C : List Bool) (c : Nat) (hcQ : c ≤ Q.length) (hQ : cnt Q = 0) :
    cnt (((P ++ Q) ++ C).take (P.length + c)) = cnt P := by
  rw [List.append_assoc, List.take_append_eq_append_take,
    List.take_of_length_le (by omega : P.length ≤ P.length + c), cnt_append,
    Nat.add_sub_cancel_left, List.take_append_eq_append_take, cnt_append]
  have h1 : cnt (Q.take c) = 0 := by
    have := cnt_take_le Q c
    omega
  have h2 : c - Q.length = 0 := by omega
  rw [h1, h2]
  simp [cnt]

end K2

namespace K2

lemma cnt_take_append3 (P Q C : List Bool) (p c : Nat) (hp : P.length = p)
    (hcQ : c ≤ Q.length) (hQ : cnt Q = 0) :
    cnt ((P ++ (Q ++ C)).take (p + c)) = cnt P := by
  subst hp
  rw [← List.append_assoc]
  exact cnt_take_append2 P Q C c hcQ hQ

lemma build_nl {t : K2Tree} (h : Inv t) (x y : Nat)
    (hx : x < t.matrixWidth) (hy : y < t.matrixWidth)
    (hs1le : stem1Start t x y ≤ t.stems.length) :
    onesInRange (((t.stems.set (specC0 t x y) true).take (stem1Start t x y) ++
      List.replicate t.stemLen false ++
      (t.stems.set (specC0 t x y) true).drop (stem1Start t x y)).set
      (stem1Start t x y + specC1 t x y) true) t.stemLen
      (stem1Start t x y + specC1 t x y) = specJ0 t x y := by
  have hc0sl : specC0 t x y < t.stemLen := specC0_lt h x y hx hy
  have hc1sl : specC1 t x y < t.stemLen := specC1_lt h x y
  have hsls1 : t.stemLen ≤ stem1Start t x y := Nat.le_add_right _ _
  have hAlen : ((t.stems.set (specC0 t x y) true).take (stem1Start t x y)).length =
      stem1Start t x y := by
    rw [List.length_take, List.length_set]
    omega
  have hBlen : specB t x y * t.stemLen ≤ (t.stems.drop t.stemLen).length := by
    have h1 : (restStems t).length = t.stemLen * cnt (rootStem t) := h.restLen
    unfold restStems at h1
    rw [h1, Nat.mul_comm t.stemLen (cnt (rootStem t))]
    exact Nat.mul_le_mul_right _ (cnt_take_le _ _)
  have hPlen : ((t.stems.drop t.stemLen).take (specB t x y * t.stemLen)).length =
      specB t x y * t.stemLen := by
    rw [List.length_take]
    exact Nat.min_eq_left hBlen
  rw [onesInRange_eq, drop_set_of_le _ _ _ _ (by omega),
    take_set_of_le _ _ _ _ (le_refl _)]
  rw [show stem1Start t x y + specC1 t x y - t.stemLen =
    specB t x y * t.stemLen + specC1 t x y from by unfold stem1Start; rw [Nat.add_assoc]; exact Nat.add_sub_cancel_left _ _]
  rw [List.append_assoc, List.drop_append_eq_append_drop, List.drop_take]
  rw [drop_set_of_lt _ _ _ _ hc0sl]
  rw [show stem1Start t x y - t.stemLen = specB t x y * t.stemLen from by unfold stem1Start; exact Nat.add_sub_cancel_left _ _]
  rw [hAlen]
  rw [show t.stemLen - stem1Start t x y = 0 from by omega, List.drop_zero]
  rw [cnt_take_append3 _ _ _ _ _ hPlen (by rw [List.length_replicate]; omega)
    (cnt_replicate_false _)]
  rfl

/-- The tree after a `true` write whose root child bit was clear, in a
tree that already has leaves: the root bit is set, a fresh level-1 stem
with its bit is spliced in at rank `specB`, and a fresh one-bit leaf is
inserted at rank `specJ0`. -/
def buildStem (t : K2Tree) (x y : Nat) : K2Tree :=
  { t with
    slayerStarts := [0, t.stemLen]
    stems := ((t.stems.set (specC0 t x y) true).take (stem1Start t x y) ++
      List.replicate t.stemLen false ++
      (t.stems.set (specC0 t x y) true).drop (stem1Start t x y)).set
      (stem1Start t x y + specC1 t x y) true
    leaves := (t.leaves.take (specJ0 t x y * t.leafLen) ++ List.replicate t.leafLen false ++
      t.leaves.drop (specJ0 t x y * t.leafLen)).set
      (specJ0 t x y * t.leafLen + specOff t x y) true }

lemma set_build_true {t : K2Tree} (h : Inv t) (x y : Nat)
    (hx : x < t.matrixWidth) (hy : y < t.matrixWidth)
    (hnonempty : t.leaves.length ≠ 0)
    (hbit0 : (rootStem t).getD (specC0 t x y) false = false) :
    t.set x y true = .ok (buildStem t x y) := by
  have hstarts : t.slayerStarts = [0, t.stemLen] := by
    rw [h.starts, if_neg hnonempty]
  have hsllen : t.stemLen ≤ t.stems.length := by
    rw [h.stemsLen]
    calc t.stemLen = t.stemLen * 1 := by omega
      _ ≤ t.stemLen * (1 + cnt (rootStem t)) := Nat.mul_le_mul_left _ (by omega)
  have hc0sl : specC0 t x y < t.stemLen := specC0_lt h x y hx hy
  have hc0len : specC0 t x y < t.stems.length := by omega
  have hBle : specB t x y ≤ cnt (rootStem t) := cnt_take_le _ _
  have hs1le : stem1Start t x y ≤ t.stems.length := by
    rw [h.stemsLen]
    unfold stem1Start
    have h1 : specB t x y * t.stemLen ≤ cnt (rootStem t) * t.stemLen :=
      Nat.mul_le_mul_right _ hBle
    have h2 : t.stemLen * (1 + cnt (rootStem t)) = t.stemLen + cnt (rootStem t) * t.stemLen := by
      ring
    omega
  have hsls1 : t.stemLen ≤ stem1Start t x y := by
    unfold stem1Start
    exact Nat.le_add_right _ _
  unfold K2Tree.set
  rw [if_neg (by omega)]
  simp only [matrixBit_stem0 h x y hx hy hbit0, if_true]
  rw [layerFromRange_full h, h.ms, hstarts]
  have hlkp : 0 < t.leafK := by have := h.lk2; omega
  have hskp : 0 < t.stemK := by have := h.sk2; omega
  have hm1p : 0 < t.stemK * t.leafK := by positivity
  have hza : 0 + t.stemK * (t.stemK * t.leafK) = t.matrixWidth := by
    rw [Nat.zero_add, ← width_eq_raw h]
  have hrange_lit : (fullRange t) =
      { minX := 0, maxX := 0 + t.stemK * (t.stemK * t.leafK) - 1
        minY := 0, maxY := 0 + t.stemK * (t.stemK * t.leafK) - 1 } := by
    unfold fullRange
    rw [hza]
  have hgrid := toSubranges_square t 0 0 (t.stemK * t.leafK) hm1p hskp
  have hfind := find_child_eq t ((List.range (t.stemK * t.stemK)).map fun cp =>
      { minX := 0 + (cp % t.stemK) * (t.stemK * t.leafK)
        maxX := 0 + (cp % t.stemK) * (t.stemK * t.leafK) + (t.stemK * t.leafK) - 1
        minY := 0 + (cp / t.stemK) * (t.stemK * t.leafK)
        maxY := 0 + (cp / t.stemK) * (t.stemK * t.leafK) + (t.stemK * t.leafK) - 1 })
    0 0 (t.stemK * t.leafK) x y (t.stemK * t.stemK) hm1p hskp rfl
    (Nat.zero_le x) (by rw [Nat.zero_add, ← width_eq_raw h]; exact hx)
    (Nat.zero_le y) (by rw [Nat.zero_add, ← width_eq_raw h]; exact hy) rfl
  have he : t.stemK * ((y - 0) / (t.stemK * t.leafK)) + (x - 0) / (t.stemK * t.leafK) =
      specC0 t x y := by
    simp only [Nat.sub_zero]
    rfl
  rw [he] at hfind
  have hc0lt : specC0 t x y < t.stemK * t.stemK := by
    have := hc0sl
    unfold K2Tree.stemLen at this
    rw [Nat.pow_two] at this
    exact this
  have hqx : x / (t.stemK * t.leafK) < t.stemK :=
    div_lt_of_lt_mul_k x t.stemK (t.stemK * t.leafK) hm1p (by rw [← width_eq_raw h]; exact hx)
  have hsub := grid_getD t 0 0 (t.stemK * t.leafK) (specC0 t x y) hc0lt
  have hmod0 : specC0 t x y % t.stemK = x / (t.stemK * t.leafK) := by
    unfold specC0
    exact cell_idx_mod t.stemK _ _ hskp hqx
  have hdiv0 : specC0 t x y / t.stemK = y / (t.stemK * t.leafK) := by
    unfold specC0
    exact cell_idx_div t.stemK _ _ hskp hqx
  rw [hmod0, hdiv0] at hsub
  have hsub1 : (((List.range (t.stemK * t.stemK)).map fun cp =>
      ({ minX := 0 + (cp % t.stemK) * (t.stemK * t.leafK)
         maxX := 0 + (cp % t.stemK) * (t.stemK * t.leafK) + (t.stemK * t.leafK) - 1
         minY := 0 + (cp / t.stemK) * (t.stemK * t.leafK)
         maxY := 0 + (cp / t.stemK) * (t.stemK * t.leafK) + (t.stemK * t.leafK) - 1 } :
        Range2D)).getD (specC0 t x y) default) = sub1 t x y := by
    rw [hsub]
    unfold sub1
    simp
  simp only [Nat.zero_add] at hgrid hfind hsub1
  rw [show (2 : Nat) = 1 + 1 from rfl]
  unfold K2Tree.buildLoop
  rw [if_pos (show 0 < t.maxSlayers - 1 by rw [h.ms]; omega)]
  rw [hrange_lit]
  simp only [hgrid, List.length_map, List.length_range, hfind, hsub1, Nat.zero_add,
    List.length_cons, List.length_singleton, hstarts, List.cons_append, List.nil_append]
  rw [if_neg (show ¬ (0 : Nat) = [].length + 1 + 1 - 1 by simp)]
  have hchild :
      ({ stemK := t.stemK, leafK := t.leafK, maxSlayers := t.maxSlayers
         slayerStarts := [0, t.stemLen]
         stems := t.stems.set (specC0 t x y) true, leaves := t.leaves } : K2Tree).childStem 0 0
        (specC0 t x y) = some (stem1Start t x y) := by
    have hself : (t.stems.set (specC0 t x y) true)[specC0 t x y]? = some true := by
      rw [List.getElem?_eq_getElem (by rw [List.length_set]; exact hc0len)]
      rw [List.getElem_set_self]
    unfold K2Tree.childStem
    rw [if_neg (by simp [hself, h.ms])]
    congr 1
    show t.stemLen + onesInRange (t.stems.set (specC0 t x y) true) 0 (0 + specC0 t x y) *
      t.stemLen = stem1Start t x y
    rw [Nat.zero_add, onesInRange_zero, take_set_of_le _ _ _ _ (le_refl _),
      ← rootStem_take t _ (Nat.le_of_lt hc0sl)]
    rfl
  simp only [hchild]
  have hib2 : insertBlock (t.stems.set (specC0 t x y) true) (stem1Start t x y) t.stemLen =
      .ok ((t.stems.set (specC0 t x y) true).take (stem1Start t x y) ++
        List.replicate t.stemLen false ++
        (t.stems.set (specC0 t x y) true).drop (stem1Start t x y)) := by
    refine insertBlock_ok2 _ _ _ h.sl_pos ?_ (by rw [List.length_set]; exact hs1le)
    show (t.stemLen + specB t x y * t.stemLen) % t.stemLen = 0
    rw [Nat.add_mul_mod_self_right, Nat.mod_self]
  simp only [hib2]
  have hmap : List.mapIdx (fun i v => if 2 ≤ i then v + t.stemLen else v) [0, t.stemLen] =
      [0, t.stemLen] := by
    simp
  rw [hmap]
  set u : K2Tree :=
    { stemK := t.stemK, leafK := t.leafK, maxSlayers := t.maxSlayers
      slayerStarts := [0, t.stemLen]
      stems := (t.stems.set (specC0 t x y) true).take (stem1Start t x y) ++
        List.replicate t.stemLen false ++
        (t.stems.set (specC0 t x y) true).drop (stem1Start t x y)
      leaves := t.leaves } with hu
  have hms_u : u.maxSlayers = 2 := by
    rw [hu]
    exact h.ms
  have hins : specJ0 t x y * t.leafLen ≤ t.leaves.length := by
    have h1 : specJ0 t x y ≤ cnt (restStems t) := cnt_take_le _ _
    rw [h.leavesLen, Nat.mul_comm]
    exact Nat.mul_le_mul_left _ h1
  rw [buildLoop_one]
  · rw [setFinal_eq2 t u x y (stem1Start t x y) (specJ0 t x y) (by rw [hu]) (by rw [hu])
      hms_u h.sk2 h.lk2 (by rw [hu]; exact build_nl h x y hx hy hs1le) (by rw [hu]; exact hins)]
    rw [hu]
    unfold buildStem
    rfl
  · rw [hms_u]
    omega

end K2

namespace K2

lemma removeBlock_ok2 (l : List Bool) (bs bl : Nat) (hbl : 0 < bl) (hmod : bs % bl = 0)
    (hle : bs + bl ≤ l.length) :
    removeBlock l bs bl = .ok (l.take bs ++ l.drop (bs + bl)) := by
  unfold removeBlock
  rw [if_neg (by omega), if_neg (by omega), if_neg (by simp [hmod]), if_neg (by omega)]

lemma isEmpty_false_of_length (l : List Bool) (hl : l.length ≠ 0) : l.isEmpty = false := by
  cases l with
  | nil => simp at hl
  | cons a tl => rfl

/-- `stem_start` of the level-1 bit position is the level-1 stem start. -/
lemma stemStart_eq {t : K2Tree} (h : Inv t) (x y : Nat) :
    t.stemStart (t.stemLen + specPos1 t x y) = stem1Start t x y := by
  have hc1 : specC1 t x y < t.stemLen := specC1_lt h x y
  have hsl : 0 < t.stemLen := h.sl_pos
  unfold K2Tree.stemStart stem1Start specPos1
  rw [show t.stemLen + (specB t x y * t.stemLen + specC1 t x y) =
    specC1 t x y + (1 + specB t x y) * t.stemLen from by ring]
  rw [Nat.add_mul_div_right _ _ hsl, Nat.div_eq_of_lt hc1]
  rw [show (0 + (1 + specB t x y)) * t.stemLen = t.stemLen + specB t x y * t.stemLen from by ring]

/-- `leaf_parent` of the removed leaf's start recovers the level-1 bit. -/
lemma leafParent_eq {t : K2Tree} (h : Inv t) (x y : Nat) (lv : List Bool)
    (hbit1 : (restStems t).getD (specPos1 t x y) false = true) :
    ({ t with leaves := lv } : K2Tree).leafParent (specJ t x y * t.leafLen) =
      t.stemLen + specPos1 t x y := by
  unfold K2Tree.leafParent
  simp only [h.ms]
  show t.stemLen + (onePositionsRange t.stems t.stemLen t.stems.length).getD
    (specJ t x y * t.leafLen / t.leafLen) 0 = t.stemLen + specPos1 t x y
  congr 1
  rw [Nat.mul_div_cancel _ h.ll_pos]
  unfold onePositionsRange
  rw [List.take_of_length_le (by rw [List.length_drop])]
  exact onePositions_rank (restStems t) (specPos1 t x y) hbit1

/-- The tree after a `false` write that empties its leaf, where the
emptied level-1 stem keeps another set bit: the leaf block is removed and
the level-1 bit cleared. -/
def leafRemoveStop (t : K2Tree) (x y : Nat) : K2Tree :=
  { t with
    stems := t.stems.set (t.stemLen + specPos1 t x y) false
    leaves := (t.leaves.set (specJ t x y * t.leafLen + specOff t x y) false).take
      (specJ t x y * t.leafLen) ++
      (t.leaves.set (specJ t x y * t.leafLen + specOff t x y) false).drop
      (specJ t x y * t.leafLen + t.leafLen) }

end K2

namespace K2

lemma set_remove_stop {t : K2Tree} (h : Inv t) (x y : Nat)
    (hx : x < t.matrixWidth) (hy : y < t.matrixWidth)
    (hbit0 : (rootStem t).getD (specC0 t x y) false = true)
    (hbit1 : (restStems t).getD (specPos1 t x y) false = true)
    (hzero : allZeroes ((leafWrite t x y false).leaves) (specJ t x y * t.leafLen)
      (specJ t x y * t.leafLen + t.leafLen) = true)
    (hne : 2 ≤ cnt (restStems t))
    (hstop : allZeroes (t.stems.set (t.stemLen + specPos1 t x y) false) (stem1Start t x y)
      (stem1Start t x y + t.stemLen) = false) :
    t.set x y false = .ok (leafRemoveStop t x y) := by
  have hj : specJ t x y < cnt (restStems t) := cnt_take_lt _ _ hbit1
  have hrb : removeBlock (t.leaves.set (specJ t x y * t.leafLen + specOff t x y) false)
      (specJ t x y * t.leafLen) t.leafLen =
      .ok ((t.leaves.set (specJ t x y * t.leafLen + specOff t x y) false).take
        (specJ t x y * t.leafLen) ++
        (t.leaves.set (specJ t x y * t.leafLen + specOff t x y) false).drop
        (specJ t x y * t.leafLen + t.leafLen)) := by
    refine removeBlock_ok2 _ _ _ h.ll_pos (Nat.mul_mod_left _ _) ?_
    rw [List.length_set, h.leavesLen]
    calc specJ t x y * t.leafLen + t.leafLen = (specJ t x y + 1) * t.leafLen := by ring
      _ ≤ cnt (restStems t) * t.leafLen := Nat.mul_le_mul_right _ (by omega)
      _ = t.leafLen * cnt (restStems t) := Nat.mul_comm _ _
  have hlvlen : ((t.leaves.set (specJ t x y * t.leafLen + specOff t x y) false).take
      (specJ t x y * t.leafLen) ++
      (t.leaves.set (specJ t x y * t.leafLen + specOff t x y) false).drop
      (specJ t x y * t.leafLen + t.leafLen)).length ≠ 0 := by
    have hA1 : specJ t x y * t.leafLen + t.leafLen ≤ t.leafLen * cnt (restStems t) := by
      calc specJ t x y * t.leafLen + t.leafLen = (specJ t x y + 1) * t.leafLen := by ring
        _ ≤ cnt (restStems t) * t.leafLen := Nat.mul_le_mul_right _ (by omega)
        _ = t.leafLen * cnt (restStems t) := Nat.mul_comm _ _
    have hA2 : t.leafLen + t.leafLen ≤ t.leafLen * cnt (restStems t) := by
      calc t.leafLen + t.leafLen = 2 * t.leafLen := by ring
        _ ≤ cnt (restStems t) * t.leafLen := Nat.mul_le_mul_right _ hne
        _ = t.leafLen * cnt (restStems t) := Nat.mul_comm _ _
    have h4 := h.ll_pos
    rw [List.length_append, List.length_take, List.length_set, List.length_drop,
      List.length_set, h.leavesLen]
    omega
  unfold K2Tree.set
  rw [if_neg (by omega)]
  simp only [matrixBit_leaf h x y hx hy hbit0 hbit1, leafRange_width h,
    leafRange_height h, ne_eq, not_true_eq_false, false_or, or_self, if_false,
    Bool.not_false, Bool.true_and]
  rw [show (t.leafK * (y - (leafRange t x y).minY) + (x - (leafRange t x y).minX)) = specOff t x y from rfl]
  have hzero2 : allZeroes (t.leaves.set (specJ t x y * t.leafLen + specOff t x y) false)
      (specJ t x y * t.leafLen) (specJ t x y * t.leafLen + t.leafLen) = true := hzero
  rw [hzero2, if_pos rfl]
  simp only [hrb]
  rw [isEmpty_false_of_length _ hlvlen]
  simp only [Bool.false_eq_true, if_false]
  set lv : List Bool :=
    (t.leaves.set (specJ t x y * t.leafLen + specOff t x y) false).take
      (specJ t x y * t.leafLen) ++
    (t.leaves.set (specJ t x y * t.leafLen + specOff t x y) false).drop
      (specJ t x y * t.leafLen + t.leafLen) with hlv
  simp only [leafParent_eq h x y lv hbit1]
  have hss2 :
      ({ t with
         stems := t.stems.set (t.stemLen + specPos1 t x y) false
         leaves := lv } : K2Tree).stemStart (t.stemLen + specPos1 t x y) =
      stem1Start t x y := stemStart_eq h x y
  simp only [hss2]
  rw [h.ms]
  rw [show (2 : Nat) - 1 = 0 + 1 from rfl]
  unfold K2Tree.cascadeRemove
  rw [if_neg (by simp [hstop])]
  rw [show (2 : Nat) = t.maxSlayers from h.ms.symm, hlv]
  rfl

end K2

namespace K2

/-- The tree after the last set leaf bit is cleared: full reset to the
empty two-layer shape. -/
def leafRemoveWipe (t : K2Tree) : K2Tree :=
  { t with slayerStarts := [0], stems := List.replicate t.stemLen false, leaves := [] }

lemma set_remove_wipe {t : K2Tree} (h : Inv t) (x y : Nat)
    (hx : x < t.matrixWidth) (hy : y < t.matrixWidth)
    (hbit0 : (rootStem t).getD (specC0 t x y) false = true)
    (hbit1 : (restStems t).getD (specPos1 t x y) false = true)
    (hzero : allZeroes ((leafWrite t x y false).leaves) (specJ t x y * t.leafLen)
      (specJ t x y * t.leafLen + t.leafLen) = true)
    (hone : cnt (restStems t) = 1) :
    t.set x y false = .ok (leafRemoveWipe t) := by
  have hj : specJ t x y < cnt (restStems t) := cnt_take_lt _ _ hbit1
  have hj0 : specJ t x y = 0 := by omega
  have hLlen : (t.leaves.set (specJ t x y * t.leafLen + specOff t x y) false).length =
      t.leafLen := by
    rw [List.length_set, h.leavesLen, hone, Nat.mul_one]
  have hrb : removeBlock (t.leaves.set (specJ t x y * t.leafLen + specOff t x y) false)
      (specJ t x y * t.leafLen) t.leafLen =
      .ok ((t.leaves.set (specJ t x y * t.leafLen + specOff t x y) false).take
        (specJ t x y * t.leafLen) ++
        (t.leaves.set (specJ t x y * t.leafLen + specOff t x y) false).drop
        (specJ t x y * t.leafLen + t.leafLen)) := by
    refine removeBlock_ok2 _ _ _ h.ll_pos (Nat.mul_mod_left _ _) ?_
    rw [hLlen, hj0]
    simp
  have hlv0 : (t.leaves.set (specJ t x y * t.leafLen + specOff t x y) false).take
      (specJ t x y * t.leafLen) ++
      (t.leaves.set (specJ t x y * t.leafLen + specOff t x y) false).drop
      (specJ t x y * t.leafLen + t.leafLen) = [] := by
    rw [hj0]
    simp only [Nat.zero_mul, List.take_zero, List.nil_append, Nat.zero_add]
    exact List.drop_eq_nil_of_le (by rw [List.length_set, h.leavesLen, hone, Nat.mul_one])
  unfold K2Tree.set
  rw [if_neg (by omega)]
  simp only [matrixBit_leaf h x y hx hy hbit0 hbit1, leafRange_width h,
    leafRange_height h, ne_eq, not_true_eq_false, false_or, or_self, if_false,
    Bool.not_false, Bool.true_and]
  rw [show (t.leafK * (y - (leafRange t x y).minY) + (x - (leafRange t x y).minX)) = specOff t x y from rfl]
  have hzero2 : allZeroes (t.leaves.set (specJ t x y * t.leafLen + specOff t x y) false)
      (specJ t x y * t.leafLen) (specJ t x y * t.leafLen + t.leafLen) = true := hzero
  rw [hzero2, if_pos rfl]
  simp only [hrb]
  rw [hlv0]
  simp only [List.isEmpty_nil, if_true]
  rfl

end K2

namespace K2

/-- The tree after a `false` write that empties both its leaf and its
level-1 stem: the leaf block and the stem block are removed and the root
bit is cleared. -/
def leafRemoveCascade (t : K2Tree) (x y : Nat) : K2Tree :=
  { t with
    slayerStarts := [0, t.stemLen]
    stems := ((t.stems.set (t.stemLen + specPos1 t x y) false).take (stem1Start t x y) ++
      (t.stems.set (t.stemLen + specPos1 t x y) false).drop
      (stem1Start t x y + t.stemLen)).set (specC0 t x y) false
    leaves := (t.leaves.set (specJ t x y * t.leafLen + specOff t x y) false).take
      (specJ t x y * t.leafLen) ++
      (t.leaves.set (specJ t x y * t.leafLen + specOff t x y) false).drop
      (specJ t x y * t.leafLen + t.leafLen) }

lemma set_remove_cascade {t : K2Tree} (h : Inv t) (x y : Nat)
    (hx : x < t.matrixWidth) (hy : y < t.matrixWidth)
    (hbit0 : (rootStem t).getD (specC0 t x y) false = true)
    (hbit1 : (restStems t).getD (specPos1 t x y) false = true)
    (hzero : allZeroes ((leafWrite t x y false).leaves) (specJ t x y * t.leafLen)
      (specJ t x y * t.leafLen + t.leafLen) = true)
    (hne : 2 ≤ cnt (restStems t))
    (hcasc : allZeroes (t.stems.set (t.stemLen + specPos1 t x y) false) (stem1Start t x y)
      (stem1Start t x y + t.stemLen) = true) :
    t.set x y false = .ok (leafRemoveCascade t x y) := by
  have hj : specJ t x y < cnt (restStems t) := cnt_take_lt _ _ hbit1
  have hstarts : t.slayerStarts = [0, t.stemLen] := by
    rw [h.starts, if_neg]
    rw [h.leaves_len_zero_iff]
    omega
  have hc0sl : specC0 t x y < t.stemLen := specC0_lt h x y hx hy
  have hsls1 : t.stemLen ≤ stem1Start t x y := Nat.le_add_right _ _
  have hBlt : specB t x y < cnt (rootStem t) := cnt_take_lt _ _ hbit0
  have hrb : removeBlock (t.leaves.set (specJ t x y * t.leafLen + specOff t x y) false)
      (specJ t x y * t.leafLen) t.leafLen =
      .ok ((t.leaves.set (specJ t x y * t.leafLen + specOff t x y) false).take
        (specJ t x y * t.leafLen) ++
        (t.leaves.set (specJ t x y * t.leafLen + specOff t x y) false).drop
        (specJ t x y * t.leafLen + t.leafLen)) := by
    refine removeBlock_ok2 _ _ _ h.ll_pos (Nat.mul_mod_left _ _) ?_
    rw [List.length_set, h.leavesLen]
    calc specJ t x y * t.leafLen + t.leafLen = (specJ t x y + 1) * t.leafLen := by ring
      _ ≤ cnt (restStems t) * t.leafLen := Nat.mul_le_mul_right _ (by omega)
      _ = t.leafLen * cnt (restStems t) := Nat.mul_comm _ _
  have hlvlen : ((t.leaves.set (specJ t x y * t.leafLen + specOff t x y) false).take
      (specJ t x y * t.leafLen) ++
      (t.leaves.set (specJ t x y * t.leafLen + specOff t x y) false).drop
      (specJ t x y * t.leafLen + t.leafLen)).length ≠ 0 := by
    have hA1 : specJ t x y * t.leafLen + t.leafLen ≤ t.leafLen * cnt (restStems t) := by
      calc specJ t x y * t.leafLen + t.leafLen = (specJ t x y + 1) * t.leafLen := by ring
        _ ≤ cnt (restStems t) * t.leafLen := Nat.mul_le_mul_right _ (by omega)
        _ = t.leafLen * cnt (restStems t) := Nat.mul_comm _ _
    have hA2 : t.leafLen + t.leafLen ≤ t.leafLen * cnt (restStems t) := by
      calc t.leafLen + t.leafLen = 2 * t.leafLen := by ring
        _ ≤ cnt (restStems t) * t.leafLen := Nat.mul_le_mul_right _ hne
        _ = t.leafLen * cnt (restStems t) := Nat.mul_comm _ _
    have h4 := h.ll_pos
    rw [List.length_append, List.length_take, List.length_set, List.length_drop,
      List.length_set, h.leavesLen]
    omega
  unfold K2Tree.set
  rw [if_neg (by omega)]
  simp only [matrixBit_leaf h x y hx hy hbit0 hbit1, leafRange_width h,
    leafRange_height h, ne_eq, not_true_eq_false, false_or, or_self, if_false,
    Bool.not_false, Bool.true_and]
  rw [show (t.leafK * (y - (leafRange t x y).minY) + (x - (leafRange t x y).minX)) = specOff t x y from rfl]
  have hzero2 : allZeroes (t.leaves.set (specJ t x y * t.leafLen + specOff t x y) false)
      (specJ t x y * t.leafLen) (specJ t x y * t.leafLen + t.leafLen) = true := hzero
  rw [hzero2, if_pos rfl]
  simp only [hrb]
  rw [isEmpty_false_of_length _ hlvlen]
  simp only [Bool.false_eq_true, if_false]
  set lv : List Bool :=
    (t.leaves.set (specJ t x y * t.leafLen + specOff t x y) false).take
      (specJ t x y * t.leafLen) ++
    (t.leaves.set (specJ t x y * t.leafLen + specOff t x y) false).drop
      (specJ t x y * t.leafLen + t.leafLen) with hlv
  simp only [leafParent_eq h x y lv hbit1]
  have hss2 :
      ({ t with
         stems := t.stems.set (t.stemLen + specPos1 t x y) false
         leaves := lv } : K2Tree).stemStart (t.stemLen + specPos1 t x y) =
      stem1Start t x y := stemStart_eq h x y
  simp only [hss2]
  rw [h.ms]
  rw [show (2 : Nat) - 1 = 0 + 1 from rfl]
  unfold K2Tree.cascadeRemove
  rw [if_pos (by simp [hcasc])]
  simp only [hstarts]
  have hmap2 : List.mapIdx (fun i v => if 0 + 2 ≤ i then v - t.stemLen else v)
      [0, t.stemLen] = [0, t.stemLen] := by
    simp
  rw [hmap2]
  have hlsl :
      ({ stemK := t.stemK, leafK := t.leafK, maxSlayers := 2
         slayerStarts := [0, t.stemLen]
         stems := t.stems.set (t.stemLen + specPos1 t x y) false
         leaves := lv } : K2Tree).layerStartsList = [0, t.stemLen] := rfl
  have hpar :
      ({ stemK := t.stemK, leafK := t.leafK, maxSlayers := 2
         slayerStarts := [0, t.stemLen]
         stems := t.stems.set (t.stemLen + specPos1 t x y) false
         leaves := lv } : K2Tree).parent (stem1Start t x y) = some (0, specC0 t x y) := by
    unfold K2Tree.parent
    rw [if_neg (by show ¬ stem1Start t x y < t.stemLen; omega)]
    rw [hlsl]
    have hfi : List.findIdx? (fun st => stem1Start t x y < st) [0, t.stemLen] = none := by
      rw [List.findIdx?_eq_none_iff]
      intro st hst
      simp only [List.mem_cons, List.mem_singleton, List.not_mem_nil, or_false] at hst
      rcases hst with h0 | h1
      · subst h0
        simp
      · subst h1
        simp
        omega
    simp only [hfi]
    have hval : (onePositionsRange (t.stems.set (t.stemLen + specPos1 t x y) false) 0
        t.stemLen).getD ((stem1Start t x y - t.stemLen) / t.stemLen) 0 = specC0 t x y := by
      have hidx : (stem1Start t x y - t.stemLen) / t.stemLen = specB t x y := by
        rw [show stem1Start t x y - t.stemLen = specB t x y * t.stemLen from by unfold stem1Start; exact Nat.add_sub_cancel_left _ _]
        exact Nat.mul_div_cancel _ h.sl_pos
      rw [hidx]
      unfold onePositionsRange
      rw [List.drop_zero, Nat.sub_zero, take_set_of_le _ _ _ _ (by omega)]
      exact onePositions_rank (rootStem t) (specC0 t x y) hbit0
    simp only [show ([0, t.stemLen].getD (2 - 1 - 1) 0 : Nat) = 0 from rfl,
      show ([0, t.stemLen].getD (2 - 1) 0 : Nat) = t.stemLen from rfl,
      show ({ stemK := t.stemK, leafK := t.leafK, maxSlayers := 2
              slayerStarts := [0, t.stemLen]
              stems := t.stems.set (t.stemLen + specPos1 t x y) false
              leaves := lv } : K2Tree).stemLen = t.stemLen from rfl]
    rw [hval, Nat.add_zero]
    show some (t.stemStart (specC0 t x y), specC0 t x y % t.stemLen) = some (0, specC0 t x y)
    unfold K2Tree.stemStart
    rw [Nat.div_eq_of_lt hc0sl, Nat.zero_mul, Nat.mod_eq_of_lt hc0sl]
  simp only [hpar]
  have hrb2 : removeBlock (t.stems.set (t.stemLen + specPos1 t x y) false) (stem1Start t x y)
      t.stemLen =
      .ok ((t.stems.set (t.stemLen + specPos1 t x y) false).take (stem1Start t x y) ++
        (t.stems.set (t.stemLen + specPos1 t x y) false).drop
        (stem1Start t x y + t.stemLen)) := by
    refine removeBlock_ok2 _ _ _ h.sl_pos ?_ ?_
    · show (t.stemLen + specB t x y * t.stemLen) % t.stemLen = 0
      rw [Nat.add_mul_mod_self_right, Nat.mod_self]
    · rw [List.length_set, h.stemsLen]
      have hb1 : stem1Start t x y + t.stemLen = (specB t x y + 2) * t.stemLen := by
        unfold stem1Start
        ring
      have hb2 : (specB t x y + 2) * t.stemLen ≤ (1 + cnt (rootStem t)) * t.stemLen :=
        Nat.mul_le_mul_right _ (by omega)
      have hb3 : t.stemLen * (1 + cnt (rootStem t)) = (1 + cnt (rootStem t)) * t.stemLen :=
        Nat.mul_comm _ _
      omega
  simp only [hrb2]
  unfold K2Tree.cascadeRemove
  simp only [Nat.zero_add]
  rw [show (2 : Nat) = t.maxSlayers from h.ms.symm, hlv]
  rfl

end K2

namespace K2

lemma cnt_pos_of_getD (l : List Bool) (p : Nat) (hp : l.getD p false = true) : 0 < cnt l := by
  have := cnt_take_lt l p hp
  omega

lemma blocks_set_ne (L : List Bool) (bl b j off : Nat) (v : Bool) (hbl : 0 < bl)
    (hoff : off < bl) (hne : b ≠ j) :
    ((L.set (j * bl + off) v).drop (b * bl)).take bl = (L.drop (b * bl)).take bl := by
  rcases Nat.lt_or_ge b j with hb | hb
  · have h1 : (b + 1) * bl ≤ j * bl := Nat.mul_le_mul_right _ (by omega)
    rw [Nat.succ_mul] at h1
    rw [drop_set_of_le _ _ _ _ (by omega)]
    rw [take_set_of_le _ _ _ _ (by omega)]
  · have hbj : j < b := by omega
    have h1 : (j + 1) * bl ≤ b * bl := Nat.mul_le_mul_right _ (by omega)
    rw [Nat.succ_mul] at h1
    rw [drop_set_of_lt _ _ _ _ (by omega)]

lemma blocks_set_self (L : List Bool) (bl j off : Nat) (v : Bool) (hoff : off < bl) :
    ((L.set (j * bl + off) v).drop (j * bl)).take bl = ((L.drop (j * bl)).take bl).set off v := by
  rw [drop_set_of_le _ _ _ _ (Nat.le_add_right _ _), Nat.add_sub_cancel_left]
  rw [take_set_of_lt _ _ _ _ hoff]

lemma block_getD_of_set (L : List Bool) (bl j off : Nat) (hoff : off < bl)
    (hlen : j * bl + off < L.length) :
    (((L.set (j * bl + off) true).drop (j * bl)).take bl).getD off false = true := by
  rw [blocks_set_self _ _ _ _ _ hoff]
  apply getD_set_self
  rw [List.length_take, List.length_drop]
  omega

/-- Invariance under a plain `true` leaf write. -/
lemma Inv_leafWrite_true {t : K2Tree} (h : Inv t) (x y : Nat)
    (hj : specJ t x y < cnt (restStems t)) (hoff : specOff t x y < t.leafLen) :
    Inv (leafWrite t x y true) := by
  have hlen : specJ t x y * t.leafLen + specOff t x y < t.leaves.length := by
    rw [h.leavesLen]
    have h1 : (specJ t x y + 1) * t.leafLen ≤ cnt (restStems t) * t.leafLen :=
      Nat.mul_le_mul_right _ (by omega)
    have h2 : t.leafLen * cnt (restStems t) = cnt (restStems t) * t.leafLen := Nat.mul_comm _ _
    rw [Nat.succ_mul] at h1
    omega
  refine ⟨h.ms, h.sk2, h.lk2, h.stemsLen, ?_, h.stemBlocks, ?_, ?_, ?_⟩
  · show (t.leaves.set (specJ t x y * t.leafLen + specOff t x y) true).length = _
    rw [List.length_set]
    exact h.leavesLen
  · intro j hjlt
    show 0 < cnt (((t.leaves.set (specJ t x y * t.leafLen + specOff t x y) true).drop
      (j * t.leafLen)).take t.leafLen)
    by_cases hje : j = specJ t x y
    · subst hje
      exact cnt_pos_of_getD _ _ (block_getD_of_set _ _ _ _ hoff hlen)
    · rw [blocks_set_ne _ _ _ _ _ _ h.ll_pos hoff hje]
      exact h.leafBlocks j hjlt
  · show t.slayerStarts = _
    rw [h.starts]
    have hLL : (leafWrite t x y true).leaves.length = t.leaves.length := List.length_set _ _ _
    rw [hLL, show (leafWrite t x y true).stemLen = t.stemLen from rfl]
  · intro hlen0
    apply h.emptyRoot
    rw [show (leafWrite t x y true).leaves.length =
      t.leaves.length from List.length_set _ _ _] at hlen0
    exact hlen0

end K2

namespace K2

/-- Invariance under a `false` leaf write that leaves its block non-zero. -/
lemma Inv_leafWrite_false_keep {t : K2Tree} (h : Inv t) (x y : Nat)
    (hj : specJ t x y < cnt (restStems t)) (hoff : specOff t x y < t.leafLen)
    (hkeep : allZeroes ((leafWrite t x y false).leaves) (specJ t x y * t.leafLen)
      (specJ t x y * t.leafLen + t.leafLen) = false) :
    Inv (leafWrite t x y false) := by
  refine ⟨h.ms, h.sk2, h.lk2, h.stemsLen, ?_, h.stemBlocks, ?_, ?_, ?_⟩
  · show (t.leaves.set (specJ t x y * t.leafLen + specOff t x y) false).length = _
    rw [List.length_set]
    exact h.leavesLen
  · intro j hjlt
    show 0 < cnt (((t.leaves.set (specJ t x y * t.leafLen + specOff t x y) false).drop
      (j * t.leafLen)).take t.leafLen)
    by_cases hje : j = specJ t x y
    · subst hje
      have h1 := (allZeroes_iff_cnt ((leafWrite t x y false).leaves)
        (specJ t x y * t.leafLen) (specJ t x y * t.leafLen + t.leafLen)).not
      rw [Bool.not_eq_true, hkeep] at h1
      have h2 := h1.mp (by simp)
      rw [Nat.add_sub_cancel_left] at h2
      have h3 : cnt (((t.leaves.set (specJ t x y * t.leafLen + specOff t x y) false).drop
        (specJ t x y * t.leafLen)).take t.leafLen) ≠ 0 := h2
      omega
    · rw [blocks_set_ne _ _ _ _ _ _ h.ll_pos hoff hje]
      exact h.leafBlocks j hjlt
  · show t.slayerStarts = _
    rw [h.starts]
    have hLL : (leafWrite t x y false).leaves.length = t.leaves.length := List.length_set _ _ _
    rw [hLL, show (leafWrite t x y false).stemLen = t.stemLen from rfl]
  · intro hlen0
    apply h.emptyRoot
    rw [show (leafWrite t x y false).leaves.length =
      t.leaves.length from List.length_set _ _ _] at hlen0
    exact hlen0

end K2

namespace K2

/-- Invariance for the first write into an empty tree. -/
lemma Inv_buildEmpty {t : K2Tree} (h : Inv t) (x y : Nat)
    (hempty : t.leaves.length = 0)
    (hc0 : specC0 t x y < t.stemLen) (hc1 : specC1 t x y < t.stemLen)
    (hoff : specOff t x y < t.leafLen) :
    Inv (buildEmpty t x y) := by
  have hcr : cnt (rootStem t) = 0 := h.emptyRoot hempty
  have hsl : t.stems.length = t.stemLen := by
    rw [h.stemsLen, hcr]
    simp
  have hcs : cnt t.stems = 0 := by
    have : rootStem t = t.stems := List.take_of_length_le (by omega)
    rw [← this]
    exact hcr
  have hAcnt : cnt (t.stems.set (specC0 t x y) true) = 1 := by
    rw [cnt_set_true _ _ (cnt_zero_getD _ _ hcs) (by omega), hcs]
  have hAlen : (t.stems.set (specC0 t x y) true).length = t.stemLen := by
    rw [List.length_set, hsl]
  have hroot : rootStem (buildEmpty t x y) = t.stems.set (specC0 t x y) true := by
    show ((t.stems.set (specC0 t x y) true ++ List.replicate t.stemLen false).set
      (t.stemLen + specC1 t x y) true).take t.stemLen = _
    rw [take_set_of_le _ _ _ _ (by omega), ← hAlen, List.take_left]
  have hrest : restStems (buildEmpty t x y) =
      (List.replicate t.stemLen false).set (specC1 t x y) true := by
    show ((t.stems.set (specC0 t x y) true ++ List.replicate t.stemLen false).set
      (t.stemLen + specC1 t x y) true).drop t.stemLen = _
    rw [drop_set_of_le _ _ _ _ (by omega), Nat.add_sub_cancel_left, ← hAlen, List.drop_left]
  have hrestcnt : cnt (restStems (buildEmpty t x y)) = 1 := by
    rw [hrest, cnt_set_true _ _ (cnt_zero_getD _ _ (cnt_replicate_false _))
      (by rw [List.length_replicate]; omega), cnt_replicate_false]
  have hrestlen : (restStems (buildEmpty t x y)).length = t.stemLen := by
    rw [hrest, List.length_set, List.length_replicate]
  have hLlen : (buildEmpty t x y).leaves.length = t.leafLen := by
    show ((List.replicate t.leafLen false).set (specOff t x y) true).length = _
    rw [List.length_set, List.length_replicate]
  refine ⟨h.ms, h.sk2, h.lk2, ?_, ?_, ?_, ?_, ?_, ?_⟩
  · show ((t.stems.set (specC0 t x y) true ++ List.replicate t.stemLen false).set
      (t.stemLen + specC1 t x y) true).length = _
    rw [List.length_set, List.length_append, hAlen, List.length_replicate, hroot, hAcnt]
    rw [show (buildEmpty t x y).stemLen = t.stemLen from rfl]
    omega
  · show (buildEmpty t x y).leaves.length = _
    rw [hLlen, hrestcnt, Nat.mul_one]
    rw [show (buildEmpty t x y).leafLen = t.leafLen from rfl]
  · intro b hb
    rw [hroot, hAcnt] at hb
    have hb0 : b = 0 := by omega
    subst hb0
    rw [Nat.zero_mul, List.drop_zero, List.take_of_length_le
      (by rw [hrestlen, show (buildEmpty t x y).stemLen = t.stemLen from rfl])]
    rw [hrestcnt]
    omega
  · intro j hjlt
    rw [hrestcnt] at hjlt
    have hj0 : j = 0 := by omega
    subst hj0
    rw [Nat.zero_mul, List.drop_zero, List.take_of_length_le
      (by rw [hLlen, show (buildEmpty t x y).leafLen = t.leafLen from rfl])]
    refine cnt_pos_of_getD _ (specOff t x y) ?_
    show ((List.replicate t.leafLen false).set (specOff t x y) true).getD (specOff t x y)
      false = true
    exact getD_set_self _ _ _ (by rw [List.length_replicate]; omega)
  · show (buildEmpty t x y).slayerStarts = _
    rw [hLlen, if_neg (by have := h.ll_pos; omega)]
    rfl
  · intro hlen0
    rw [hLlen] at hlen0
    have := h.ll_pos
    omega

end K2

namespace K2

lemma set_middle (L M : List Bool) (q bl off : Nat) (v : Bool) (hq : q * bl ≤ L.length)
    (hoff : off < M.length) :
    (L.take (q * bl) ++ M ++ L.drop (q * bl)).set (q * bl + off) v =
      L.take (q * bl) ++ M.set off v ++ L.drop (q * bl) := by
  have hP : (L.take (q * bl)).length = q * bl := by
    rw [List.length_take]
    omega
  rw [List.append_assoc, List.set_append_right _ _ (by rw [hP]; omega), hP,
    Nat.add_sub_cancel_left, List.set_append_left _ _ hoff, List.append_assoc]

lemma insert_block_blocks_lt (L M : List Bool) (bl q b : Nat) (hq : q * bl ≤ L.length)
    (hb : b < q) (hbl : 0 < bl) :
    ((L.take (q * bl) ++ M ++ L.drop (q * bl)).drop (b * bl)).take bl =
      (L.drop (b * bl)).take bl := by
  have hP : (L.take (q * bl)).length = q * bl := by
    rw [List.length_take]
    omega
  have hb1 : (b + 1) * bl ≤ q * bl := Nat.mul_le_mul_right _ (by omega)
  rw [Nat.succ_mul] at hb1
  rw [List.append_assoc, List.drop_append_eq_append_drop, hP,
    show b * bl - q * bl = 0 from by omega, List.drop_zero]
  rw [List.take_append_eq_append_take]
  have hXlen : ((L.take (q * bl)).drop (b * bl)).length = q * bl - b * bl := by
    rw [List.length_drop, hP]
  rw [hXlen, show bl - (q * bl - b * bl) = 0 from by omega, List.take_zero, List.append_nil]
  rw [List.drop_take, List.take_take, min_eq_left (by omega)]

lemma insert_block_blocks_self (L M : List Bool) (bl q : Nat) (hM : M.length = bl)
    (hq : q * bl ≤ L.length) :
    ((L.take (q * bl) ++ M ++ L.drop (q * bl)).drop (q * bl)).take bl = M := by
  have hP : (L.take (q * bl)).length = q * bl := by
    rw [List.length_take]
    omega
  rw [List.append_assoc, List.drop_left' hP, List.take_append_eq_append_take, hM,
    Nat.sub_self, List.take_zero, List.append_nil, List.take_of_length_le (by omega)]

lemma insert_block_blocks_gt (L M : List Bool) (bl q b : Nat) (hM : M.length = bl)
    (hq : q * bl ≤ L.length) (hb : q < b) (hbl : 0 < bl) :
    ((L.take (q * bl) ++ M ++ L.drop (q * bl)).drop (b * bl)).take bl =
      (L.drop ((b - 1) * bl)).take bl := by
  have hP : (L.take (q * bl)).length = q * bl := by
    rw [List.length_take]
    omega
  have hb1 : (q + 1) * bl ≤ b * bl := Nat.mul_le_mul_right _ (by omega)
  rw [Nat.succ_mul] at hb1
  have hbm : (b - 1) * bl = b * bl - bl := by
    rw [Nat.sub_mul, Nat.one_mul]
  rw [List.append_assoc, List.drop_append_eq_append_drop, hP,
    List.drop_eq_nil_of_le (by omega), List.nil_append,
    List.drop_append_eq_append_drop, hM,
    List.drop_eq_nil_of_le (by omega), List.nil_append,
    List.drop_drop]
  congr 2
  omega

lemma remove_block_blocks_lt (L : List Bool) (bl q b : Nat) (hq : q * bl ≤ L.length)
    (hb : b < q) (hbl : 0 < bl) :
    ((L.take (q * bl) ++ L.drop (q * bl + bl)).drop (b * bl)).take bl =
      (L.drop (b * bl)).take bl := by
  have hP : (L.take (q * bl)).length = q * bl := by
    rw [List.length_take]
    omega
  have hb1 : (b + 1) * bl ≤ q * bl := Nat.mul_le_mul_right _ (by omega)
  rw [Nat.succ_mul] at hb1
  rw [List.drop_append_eq_append_drop, hP,
    show b * bl - q * bl = 0 from by omega, List.drop_zero]
  rw [List.take_append_eq_append_take]
  have hXlen : ((L.take (q * bl)).drop (b * bl)).length = q * bl - b * bl := by
    rw [List.length_drop, hP]
  rw [hXlen, show bl - (q * bl - b * bl) = 0 from by omega, List.take_zero, List.append_nil]
  rw [List.drop_take, List.take_take, min_eq_left (by omega)]

lemma remove_block_blocks_ge (L : List Bool) (bl q b : Nat) (hq : q * bl ≤ L.length)
    (hb : q ≤ b) :
    ((L.take (q * bl) ++ L.drop (q * bl + bl)).drop (b * bl)).take bl =
      (L.drop ((b + 1) * bl)).take bl := by
  have hP : (L.take (q * bl)).length = q * bl := by
    rw [List.length_take]
    omega
  have hb1 : q * bl ≤ b * bl := Nat.mul_le_mul_right _ hb
  rw [List.drop_append_eq_append_drop, hP,
    List.drop_eq_nil_of_le (by omega), List.nil_append, List.drop_drop]
  congr 2
  rw [Nat.succ_mul]
  omega

end K2

namespace K2

/-- Invariance for a `true` write that materialises a missing leaf under
an existing level-1 stem. -/
lemma Inv_stemWrite1 {t : K2Tree} (h : Inv t) (x y : Nat)
    (hbit0 : (rootStem t).getD (specC0 t x y) false = true)
    (hbit1 : (restStems t).getD (specPos1 t x y) false = false)
    (hoff : specOff t x y < t.leafLen) :
    Inv (stemWrite1 t x y) := by
  have hB : specB t x y < cnt (rootStem t) := cnt_take_lt _ _ hbit0
  have hc1 : specC1 t x y < t.stemLen := specC1_lt h x y
  have hpos1len : specPos1 t x y < (restStems t).length := by
    rw [h.restLen]
    have h1 : (specB t x y + 1) * t.stemLen ≤ cnt (rootStem t) * t.stemLen :=
      Nat.mul_le_mul_right _ (by omega)
    have h2 : t.stemLen * cnt (rootStem t) = cnt (rootStem t) * t.stemLen := Nat.mul_comm _ _
    rw [Nat.succ_mul] at h1
    have h3 : specPos1 t x y = specB t x y * t.stemLen + specC1 t x y := rfl
    omega
  have hJle : specJ t x y ≤ cnt (restStems t) := cnt_take_le _ _
  have hql : specJ t x y * t.leafLen ≤ t.leaves.length := by
    rw [h.leavesLen, Nat.mul_comm]
    exact Nat.mul_le_mul_left _ hJle
  have hne0 : t.leaves.length ≠ 0 := by
    intro hl
    have h1 := h.emptyRoot hl
    have h2 := cnt_pos_of_getD _ _ hbit0
    omega
  have hroot : rootStem (stemWrite1 t x y) = rootStem t := by
    show (t.stems.set (stem1Start t x y + specC1 t x y) true).take t.stemLen = _
    rw [stem1_index_eq]
    exact take_set_of_le _ _ _ _ (by omega)
  have hrest : restStems (stemWrite1 t x y) = (restStems t).set (specPos1 t x y) true := by
    show (t.stems.set (stem1Start t x y + specC1 t x y) true).drop t.stemLen = _
    rw [stem1_index_eq, drop_set_of_le _ _ _ _ (by omega), Nat.add_sub_cancel_left]
    rfl
  have hrestcnt : cnt (restStems (stemWrite1 t x y)) = cnt (restStems t) + 1 := by
    rw [hrest]
    exact cnt_set_true _ _ hbit1 hpos1len
  have hM : ((List.replicate t.leafLen false).set (specOff t x y) true).length = t.leafLen := by
    rw [List.length_set, List.length_replicate]
  have hLsplit : (stemWrite1 t x y).leaves =
      t.leaves.take (specJ t x y * t.leafLen) ++
      (List.replicate t.leafLen false).set (specOff t x y) true ++
      t.leaves.drop (specJ t x y * t.leafLen) := by
    show (t.leaves.take (specJ t x y * t.leafLen) ++ List.replicate t.leafLen false ++
      t.leaves.drop (specJ t x y * t.leafLen)).set
      (specJ t x y * t.leafLen + specOff t x y) true = _
    rw [set_middle _ _ _ _ _ _ hql (by rw [List.length_replicate]; omega)]
  have hLL : (stemWrite1 t x y).leaves.length = t.leaves.length + t.leafLen := by
    rw [hLsplit, List.length_append, List.length_append, List.length_take, hM,
      List.length_drop]
    omega
  refine ⟨h.ms, h.sk2, h.lk2, ?_, ?_, ?_, ?_, ?_, ?_⟩
  · show (t.stems.set (stem1Start t x y + specC1 t x y) true).length = _
    rw [List.length_set, hroot, show (stemWrite1 t x y).stemLen = t.stemLen from rfl]
    exact h.stemsLen
  · rw [hLL, hrestcnt, show (stemWrite1 t x y).leafLen = t.leafLen from rfl, h.leavesLen]
    ring
  · intro b hb
    rw [hroot] at hb
    show 0 < cnt (((restStems (stemWrite1 t x y)).drop (b * t.stemLen)).take t.stemLen)
    rw [hrest, show specPos1 t x y = specB t x y * t.stemLen + specC1 t x y from rfl]
    by_cases hbe : b = specB t x y
    · subst hbe
      refine cnt_pos_of_getD _ (specC1 t x y) ?_
      have hpos1lenB : specB t x y * t.stemLen + specC1 t x y < (restStems t).length :=
        hpos1len
      exact block_getD_of_set _ _ _ _ hc1 hpos1lenB
    · rw [blocks_set_ne _ _ _ _ _ _ h.sl_pos hc1 hbe]
      exact h.stemBlocks b hb
  · intro j hjlt
    rw [hrestcnt] at hjlt
    show 0 < cnt ((((stemWrite1 t x y).leaves).drop (j * t.leafLen)).take t.leafLen)
    rw [hLsplit]
    rcases Nat.lt_trichotomy j (specJ t x y) with hj | hj | hj
    · rw [insert_block_blocks_lt _ _ _ _ _ hql hj h.ll_pos]
      exact h.leafBlocks j (by omega)
    · subst hj
      rw [insert_block_blocks_self _ _ _ _ hM hql]
      refine cnt_pos_of_getD _ (specOff t x y) ?_
      exact getD_set_self _ _ _ (by rw [List.length_replicate]; omega)
    · rw [insert_block_blocks_gt _ _ _ _ _ hM hql hj h.ll_pos]
      exact h.leafBlocks (j - 1) (by omega)
  · show t.slayerStarts = _
    rw [h.starts, if_neg hne0, if_neg (by rw [hLL]; have := h.ll_pos; omega)]
    rw [show (stemWrite1 t x y).stemLen = t.stemLen from rfl]
  · intro hlen0
    rw [hLL] at hlen0
    have := h.ll_pos
    omega

end K2

namespace K2

/-- Invariance for a `true` write that materialises a level-1 stem and a
leaf in a non-empty tree. -/
lemma Inv_buildStem {t : K2Tree} (h : Inv t) (x y : Nat)
    (hbit0 : (rootStem t).getD (specC0 t x y) false = false)
    (hnonempty : t.leaves.length ≠ 0)
    (hc0 : specC0 t x y < t.stemLen) (hc1 : specC1 t x y < t.stemLen)
    (hoff : specOff t x y < t.leafLen) :
    Inv (buildStem t x y) := by
  have hBle : specB t x y ≤ cnt (rootStem t) := cnt_take_le _ _
  have hsllen : t.stemLen ≤ t.stems.length := by
    rw [h.stemsLen]
    calc t.stemLen = t.stemLen * 1 := by omega
      _ ≤ t.stemLen * (1 + cnt (rootStem t)) := Nat.mul_le_mul_left _ (by omega)
  have hs1le : stem1Start t x y ≤ t.stems.length := by
    rw [h.stemsLen]
    unfold stem1Start
    have h1 : specB t x y * t.stemLen ≤ cnt (rootStem t) * t.stemLen :=
      Nat.mul_le_mul_right _ hBle
    have h2 : t.stemLen * (1 + cnt (rootStem t)) =
        t.stemLen + cnt (rootStem t) * t.stemLen := by ring
    omega
  have hsls1 : t.stemLen ≤ stem1Start t x y := Nat.le_add_right _ _
  have hBrest : specB t x y * t.stemLen ≤ (restStems t).length := by
    rw [h.restLen, Nat.mul_comm t.stemLen (cnt (rootStem t))]
    exact Nat.mul_le_mul_right _ hBle
  have hJ0le : specJ0 t x y ≤ cnt (restStems t) := cnt_take_le _ _
  have hql0 : specJ0 t x y * t.leafLen ≤ t.leaves.length := by
    rw [h.leavesLen, Nat.mul_comm]
    exact Nat.mul_le_mul_left _ hJ0le
  have hAlen : ((t.stems.set (specC0 t x y) true).take (stem1Start t x y)).length =
      stem1Start t x y := by
    rw [List.length_take, List.length_set]
    omega
  have hAdrop : (t.stems.set (specC0 t x y) true).drop (stem1Start t x y) =
      (restStems t).drop (specB t x y * t.stemLen) := by
    rw [drop_set_of_lt _ _ _ _ (by omega)]
    show t.stems.drop (stem1Start t x y) = (t.stems.drop t.stemLen).drop
      (specB t x y * t.stemLen)
    rw [List.drop_drop]
    rfl
  have hApre : ((t.stems.set (specC0 t x y) true).take (stem1Start t x y)).drop t.stemLen =
      (restStems t).take (specB t x y * t.stemLen) := by
    rw [List.drop_take, drop_set_of_lt _ _ _ _ hc0]
    show (t.stems.drop t.stemLen).take (stem1Start t x y - t.stemLen) = _
    congr 1
    unfold stem1Start
    exact Nat.add_sub_cancel_left _ _
  have hMs : ((List.replicate t.stemLen false).set (specC1 t x y) true).length = t.stemLen := by
    rw [List.length_set, List.length_replicate]
  have hroot : rootStem (buildStem t x y) = (rootStem t).set (specC0 t x y) true := by
    show (((t.stems.set (specC0 t x y) true).take (stem1Start t x y) ++
      List.replicate t.stemLen false ++
      (t.stems.set (specC0 t x y) true).drop (stem1Start t x y)).set
      (stem1Start t x y + specC1 t x y) true).take t.stemLen = _
    rw [take_set_of_le _ _ _ _ (by omega)]
    rw [List.append_assoc, List.take_append_eq_append_take, hAlen,
      show t.stemLen - stem1Start t x y = 0 from by omega, List.take_zero, List.append_nil]
    rw [List.take_take, min_eq_left (by omega), take_set_of_lt _ _ _ _ hc0]
    rfl
  have hrootcnt : cnt (rootStem (buildStem t x y)) = cnt (rootStem t) + 1 := by
    rw [hroot]
    exact cnt_set_true _ _ hbit0 (by rw [h.rootLen]; omega)
  have hrest : restStems (buildStem t x y) =
      (restStems t).take (specB t x y * t.stemLen) ++
      (List.replicate t.stemLen false).set (specC1 t x y) true ++
      (restStems t).drop (specB t x y * t.stemLen) := by
    show (((t.stems.set (specC0 t x y) true).take (stem1Start t x y) ++
      List.replicate t.stemLen false ++
      (t.stems.set (specC0 t x y) true).drop (stem1Start t x y)).set
      (stem1Start t x y + specC1 t x y) true).drop t.stemLen = _
    rw [drop_set_of_le _ _ _ _ (by omega)]
    rw [List.append_assoc, List.drop_append_eq_append_drop, hAlen,
      show t.stemLen - stem1Start t x y = 0 from by omega, List.drop_zero, hApre, hAdrop]
    rw [show stem1Start t x y + specC1 t x y - t.stemLen =
      specB t x y * t.stemLen + specC1 t x y from by unfold stem1Start; rw [Nat.add_assoc]; exact Nat.add_sub_cancel_left _ _]
    rw [← List.append_assoc]
    rw [set_middle _ _ _ _ _ _ hBrest (by rw [List.length_replicate]; omega)]
  have hrestcnt : cnt (restStems (buildStem t x y)) = cnt (restStems t) + 1 := by
    rw [hrest, cnt_append, cnt_append]
    have h1 : cnt ((List.replicate t.stemLen false).set (specC1 t x y) true) = 1 := by
      rw [cnt_set_true _ _ (cnt_zero_getD _ _ (cnt_replicate_false _))
        (by rw [List.length_replicate]; omega), cnt_replicate_false]
    have h2 : cnt ((restStems t).take (specB t x y * t.stemLen)) +
        cnt ((restStems t).drop (specB t x y * t.stemLen)) = cnt (restStems t) := by
      rw [← cnt_append, List.take_append_drop]
    omega
  have hMl : ((List.replicate t.leafLen false).set (specOff t x y) true).length = t.leafLen := by
    rw [List.length_set, List.length_replicate]
  have hLsplit : (buildStem t x y).leaves =
      t.leaves.take (specJ0 t x y * t.leafLen) ++
      (List.replicate t.leafLen false).set (specOff t x y) true ++
      t.leaves.drop (specJ0 t x y * t.leafLen) := by
    show (t.leaves.take (specJ0 t x y * t.leafLen) ++ List.replicate t.leafLen false ++
      t.leaves.drop (specJ0 t x y * t.leafLen)).set
      (specJ0 t x y * t.leafLen + specOff t x y) true = _
    rw [set_middle _ _ _ _ _ _ hql0 (by rw [List.length_replicate]; omega)]
  have hLL : (buildStem t x y).leaves.length = t.leaves.length + t.leafLen := by
    rw [hLsplit, List.length_append, List.length_append, List.length_take, hMl,
      List.length_drop]
    omega
  refine ⟨h.ms, h.sk2, h.lk2, ?_, ?_, ?_, ?_, ?_, ?_⟩
  · show (((t.stems.set (specC0 t x y) true).take (stem1Start t x y) ++
      List.replicate t.stemLen false ++
      (t.stems.set (specC0 t x y) true).drop (stem1Start t x y)).set
      (stem1Start t x y + specC1 t x y) true).length = _
    rw [List.length_set, List.length_append, List.length_append, hAlen,
      List.length_replicate, List.length_drop, List.length_set, hrootcnt,
      show (buildStem t x y).stemLen = t.stemLen from rfl, h.stemsLen]
    have h1 : t.stemLen * (1 + (cnt (rootStem t) + 1)) =
        t.stemLen * (1 + cnt (rootStem t)) + t.stemLen := by ring
    have hs1le2 : stem1Start t x y ≤ t.stemLen * (1 + cnt (rootStem t)) := by
      rw [← h.stemsLen]
      exact hs1le
    omega
  · rw [hLL, hrestcnt, show (buildStem t x y).leafLen = t.leafLen from rfl, h.leavesLen]
    ring
  · intro b hb
    rw [hrootcnt] at hb
    show 0 < cnt (((restStems (buildStem t x y)).drop (b * t.stemLen)).take t.stemLen)
    rw [hrest]
    rcases Nat.lt_trichotomy b (specB t x y) with hbb | hbb | hbb
    · rw [insert_block_blocks_lt _ _ _ _ _ hBrest hbb h.sl_pos]
      exact h.stemBlocks b (by omega)
    · subst hbb
      rw [insert_block_blocks_self _ _ _ _ hMs hBrest]
      refine cnt_pos_of_getD _ (specC1 t x y) ?_
      exact getD_set_self _ _ _ (by rw [List.length_replicate]; omega)
    · rw [insert_block_blocks_gt _ _ _ _ _ hMs hBrest hbb h.sl_pos]
      exact h.stemBlocks (b - 1) (by omega)
  · intro j hjlt
    rw [hrestcnt] at hjlt
    show 0 < cnt ((((buildStem t x y).leaves).drop (j * t.leafLen)).take t.leafLen)
    rw [hLsplit]
    rcases Nat.lt_trichotomy j (specJ0 t x y) with hj | hj | hj
    · rw [insert_block_blocks_lt _ _ _ _ _ hql0 hj h.ll_pos]
      exact h.leafBlocks j (by omega)
    · subst hj
      rw [insert_block_blocks_self _ _ _ _ hMl hql0]
      refine cnt_pos_of_getD _ (specOff t x y) ?_
      exact getD_set_self _ _ _ (by rw [List.length_replicate]; omega)
    · rw [insert_block_blocks_gt _ _ _ _ _ hMl hql0 hj h.ll_pos]
      exact h.leafBlocks (j - 1) (by omega)
  · show [0, t.stemLen] = _
    rw [if_neg (by rw [hLL]; have := h.ll_pos; omega)]
    rw [show (buildStem t x y).stemLen = t.stemLen from rfl]
  · intro hlen0
    rw [hLL] at hlen0
    have := h.ll_pos
    omega

end K2

namespace K2

/-- Invariance for the full wipe. -/
lemma Inv_leafRemoveWipe {t : K2Tree} (h : Inv t) : Inv (leafRemoveWipe t) := by
  have hroot : rootStem (leafRemoveWipe t) = List.replicate t.stemLen false := by
    show (List.replicate t.stemLen false).take t.stemLen = _
    exact List.take_of_length_le (by rw [List.length_replicate])
  have hrest : restStems (leafRemoveWipe t) = [] := by
    show (List.replicate t.stemLen false).drop t.stemLen = _
    exact List.drop_eq_nil_of_le (by rw [List.length_replicate])
  refine ⟨h.ms, h.sk2, h.lk2, ?_, ?_, ?_, ?_, ?_, ?_⟩
  · show (List.replicate t.stemLen false).length = _
    rw [List.length_replicate, hroot, cnt_replicate_false,
      show (leafRemoveWipe t).stemLen = t.stemLen from rfl]
    omega
  · show (List.nil : List Bool).length = _
    rw [hrest]
    simp [cnt]
  · intro b hb
    rw [hroot, cnt_replicate_false] at hb
    omega
  · intro j hj
    rw [hrest] at hj
    simp [cnt] at hj
  · rfl
  · intro hl
    rw [hroot, cnt_replicate_false]

/-- Invariance for a leaf removal whose level-1 stem keeps a set bit. -/
lemma Inv_leafRemoveStop {t : K2Tree} (h : Inv t) (x y : Nat)
    (hbit1 : (restStems t).getD (specPos1 t x y) false = true)
    (hoff : specOff t x y < t.leafLen)
    (hne : 2 ≤ cnt (restStems t))
    (hstop : allZeroes (t.stems.set (t.stemLen + specPos1 t x y) false) (stem1Start t x y)
      (stem1Start t x y + t.stemLen) = false) :
    Inv (leafRemoveStop t x y) := by
  have hj : specJ t x y < cnt (restStems t) := cnt_take_lt _ _ hbit1
  have hpos1len : specPos1 t x y < (restStems t).length := getD_true_lt _ _ hbit1
  have hql : specJ t x y * t.leafLen ≤ t.leaves.length := by
    rw [h.leavesLen, Nat.mul_comm]
    exact Nat.mul_le_mul_left _ (by omega)
  have hqlf : (specJ t x y + 1) * t.leafLen ≤ t.leaves.length := by
    rw [h.leavesLen, Nat.mul_comm]
    exact Nat.mul_le_mul_left _ (by omega)
  have hLset : (t.leaves.set (specJ t x y * t.leafLen + specOff t x y) false).length =
      t.leaves.length := List.length_set _ _ _
  have hroot : rootStem (leafRemoveStop t x y) = rootStem t := by
    show (t.stems.set (t.stemLen + specPos1 t x y) false).take t.stemLen = _
    exact take_set_of_le _ _ _ _ (by omega)
  have hrest : restStems (leafRemoveStop t x y) = (restStems t).set (specPos1 t x y) false := by
    show (t.stems.set (t.stemLen + specPos1 t x y) false).drop t.stemLen = _
    rw [drop_set_of_le _ _ _ _ (by omega), Nat.add_sub_cancel_left]
    rfl
  have hrestcnt : cnt (restStems (leafRemoveStop t x y)) + 1 = cnt (restStems t) := by
    rw [hrest]
    exact cnt_set_false _ _ hbit1
  have hLL : (leafRemoveStop t x y).leaves.length = t.leaves.length - t.leafLen := by
    show ((t.leaves.set (specJ t x y * t.leafLen + specOff t x y) false).take
      (specJ t x y * t.leafLen) ++
      (t.leaves.set (specJ t x y * t.leafLen + specOff t x y) false).drop
      (specJ t x y * t.leafLen + t.leafLen)).length = _
    rw [List.length_append, List.length_take, List.length_drop, hLset]
    rw [Nat.succ_mul] at hqlf
    omega
  have hllcnt : t.leaves.length = t.leafLen * cnt (restStems t) := h.leavesLen
  refine ⟨h.ms, h.sk2, h.lk2, ?_, ?_, ?_, ?_, ?_, ?_⟩
  · show (t.stems.set (t.stemLen + specPos1 t x y) false).length = _
    rw [List.length_set, hroot, show (leafRemoveStop t x y).stemLen = t.stemLen from rfl]
    exact h.stemsLen
  · rw [hLL, show (leafRemoveStop t x y).leafLen = t.leafLen from rfl, hllcnt]
    have h1 : t.leafLen * cnt (restStems t) =
        t.leafLen * (cnt (restStems (leafRemoveStop t x y)) + 1) := by rw [hrestcnt]
    have h2 : t.leafLen * (cnt (restStems (leafRemoveStop t x y)) + 1) =
        t.leafLen * cnt (restStems (leafRemoveStop t x y)) + t.leafLen := by ring
    omega
  · intro b hb
    rw [hroot] at hb
    show 0 < cnt (((restStems (leafRemoveStop t x y)).drop (b * t.stemLen)).take t.stemLen)
    rw [hrest, show specPos1 t x y = specB t x y * t.stemLen + specC1 t x y from rfl]
    by_cases hbe : b = specB t x y
    · subst hbe
      have h1 := (allZeroes_iff_cnt (t.stems.set (t.stemLen + specPos1 t x y) false)
        (stem1Start t x y) (stem1Start t x y + t.stemLen)).not
      rw [Bool.not_eq_true, hstop] at h1
      have h2 := h1.mp (by simp)
      rw [Nat.add_sub_cancel_left] at h2
      have h3 : ((t.stems.set (t.stemLen + specPos1 t x y) false).drop
          (stem1Start t x y)).take t.stemLen =
          (((restStems t).set (specB t x y * t.stemLen + specC1 t x y) false).drop
          (specB t x y * t.stemLen)).take t.stemLen := by
        have e1 : ((restStems t).set (specB t x y * t.stemLen + specC1 t x y) false) =
            (t.stems.set (t.stemLen + specPos1 t x y) false).drop t.stemLen := by
          rw [drop_set_of_le _ _ _ _ (by omega), Nat.add_sub_cancel_left]
          rfl
        rw [e1, List.drop_drop]
        rfl
      rw [← h3]
      omega
    · rw [blocks_set_ne _ _ _ _ _ _ h.sl_pos (specC1_lt h x y) hbe]
      exact h.stemBlocks b hb
  · intro j hjlt
    show 0 < cnt ((((leafRemoveStop t x y).leaves).drop (j * t.leafLen)).take t.leafLen)
    show 0 < cnt ((((t.leaves.set (specJ t x y * t.leafLen + specOff t x y) false).take
      (specJ t x y * t.leafLen) ++
      (t.leaves.set (specJ t x y * t.leafLen + specOff t x y) false).drop
      (specJ t x y * t.leafLen + t.leafLen)).drop (j * t.leafLen)).take t.leafLen)
    have hqlS : specJ t x y * t.leafLen ≤
        (t.leaves.set (specJ t x y * t.leafLen + specOff t x y) false).length := by
      rw [hLset]
      exact hql
    rcases Nat.lt_or_ge j (specJ t x y) with hjc | hjc
    · rw [remove_block_blocks_lt _ _ _ _ hqlS hjc h.ll_pos]
      rw [blocks_set_ne _ _ _ _ _ _ h.ll_pos hoff (by omega)]
      exact h.leafBlocks j (by omega)
    · rw [remove_block_blocks_ge _ _ _ _ hqlS hjc]
      rw [blocks_set_ne _ _ _ _ _ _ h.ll_pos hoff (by omega)]
      refine h.leafBlocks (j + 1) ?_
      rw [← hrestcnt]
      omega
  · show t.slayerStarts = _
    have hne0 : t.leaves.length ≠ 0 := by
      rw [hllcnt]
      have h1 : t.leafLen * 2 ≤ t.leafLen * cnt (restStems t) := Nat.mul_le_mul_left _ hne
      have h2 := h.ll_pos
      omega
    rw [h.starts, if_neg hne0, if_neg ?hne1]
    · rw [show (leafRemoveStop t x y).stemLen = t.stemLen from rfl]
    case hne1 =>
      rw [hLL, hllcnt]
      have h1 : t.leafLen * 2 ≤ t.leafLen * cnt (restStems t) := Nat.mul_le_mul_left _ hne
      have h2 := h.ll_pos
      omega
  · intro hlen0
    rw [hLL, hllcnt] at hlen0
    have h1 : t.leafLen * 2 ≤ t.leafLen * cnt (restStems t) := Nat.mul_le_mul_left _ hne
    have h2 := h.ll_pos
    omega

end K2

namespace K2

/-- Invariance for the cascading removal: leaf block, level-1 stem block
and root bit all go. -/
lemma Inv_leafRemoveCascade {t : K2Tree} (h : Inv t) (x y : Nat)
    (hbit0 : (rootStem t).getD (specC0 t x y) false = true)
    (hbit1 : (restStems t).getD (specPos1 t x y) false = true)
    (hoff : specOff t x y < t.leafLen)
    (hne : 2 ≤ cnt (restStems t))
    (hcasc : allZeroes (t.stems.set (t.stemLen + specPos1 t x y) false) (stem1Start t x y)
      (stem1Start t x y + t.stemLen) = true) :
    Inv (leafRemoveCascade t x y) := by
  have hB : specB t x y < cnt (rootStem t) := cnt_take_lt _ _ hbit0
  have hc0 : specC0 t x y < t.stemLen := getD_true_lt _ _ hbit0 |>.trans_le (by rw [h.rootLen])
  have hj : specJ t x y < cnt (restStems t) := cnt_take_lt _ _ hbit1
  have hql : specJ t x y * t.leafLen ≤ t.leaves.length := by
    rw [h.leavesLen, Nat.mul_comm]
    exact Nat.mul_le_mul_left _ (by omega)
  have hqlf : (specJ t x y + 1) * t.leafLen ≤ t.leaves.length := by
    rw [h.leavesLen, Nat.mul_comm]
    exact Nat.mul_le_mul_left _ (by omega)
  have hLset : (t.leaves.set (specJ t x y * t.leafLen + specOff t x y) false).length =
      t.leaves.length := List.length_set _ _ _
  have hsls1 : t.stemLen ≤ stem1Start t x y := Nat.le_add_right _ _
  have hs1sl : stem1Start t x y + t.stemLen ≤ t.stems.length := by
    rw [h.stemsLen]
    have h1 : stem1Start t x y + t.stemLen = (specB t x y + 2) * t.stemLen := by
      unfold stem1Start
      ring
    have h2 : (specB t x y + 2) * t.stemLen ≤ (1 + cnt (rootStem t)) * t.stemLen :=
      Nat.mul_le_mul_right _ (by omega)
    have h3 : t.stemLen * (1 + cnt (rootStem t)) = (1 + cnt (rootStem t)) * t.stemLen :=
      Nat.mul_comm _ _
    omega
  have hAlenS : ((t.stems.set (t.stemLen + specPos1 t x y) false).take
      (stem1Start t x y)).length = stem1Start t x y := by
    rw [List.length_take, List.length_set]
    omega
  have erest : (restStems t).set (specPos1 t x y) false =
      (t.stems.set (t.stemLen + specPos1 t x y) false).drop t.stemLen := by
    rw [drop_set_of_le _ _ _ _ (by omega), Nat.add_sub_cancel_left]
    rfl
  have hcntS : cnt ((restStems t).set (specPos1 t x y) false) + 1 = cnt (restStems t) :=
    cnt_set_false _ _ hbit1
  have hrSlen : ((restStems t).set (specPos1 t x y) false).length = (restStems t).length :=
    List.length_set _ _ _
  have hBrest : specB t x y * t.stemLen ≤ ((restStems t).set (specPos1 t x y) false).length := by
    rw [hrSlen, h.restLen, Nat.mul_comm t.stemLen (cnt (rootStem t))]
    exact Nat.mul_le_mul_right _ (by omega)
  have hblock0 : cnt ((((restStems t).set (specPos1 t x y) false).drop
      (specB t x y * t.stemLen)).take t.stemLen) = 0 := by
    have h1 := (allZeroes_iff_cnt (t.stems.set (t.stemLen + specPos1 t x y) false)
      (stem1Start t x y) (stem1Start t x y + t.stemLen)).mp hcasc
    rw [Nat.add_sub_cancel_left] at h1
    have h3 : ((t.stems.set (t.stemLen + specPos1 t x y) false).drop
        (stem1Start t x y)).take t.stemLen =
        (((restStems t).set (specPos1 t x y) false).drop
        (specB t x y * t.stemLen)).take t.stemLen := by
      rw [erest, List.drop_drop]
      rfl
    rw [← h3]
    exact h1
  have hroot : rootStem (leafRemoveCascade t x y) = (rootStem t).set (specC0 t x y) false := by
    show (((t.stems.set (t.stemLen + specPos1 t x y) false).take (stem1Start t x y) ++
      (t.stems.set (t.stemLen + specPos1 t x y) false).drop
      (stem1Start t x y + t.stemLen)).set (specC0 t x y) false).take t.stemLen = _
    rw [take_set_of_lt _ _ _ _ hc0]
    rw [List.take_append_eq_append_take, hAlenS,
      show t.stemLen - stem1Start t x y = 0 from by omega, List.take_zero, List.append_nil]
    rw [List.take_take, min_eq_left (by omega), take_set_of_le _ _ _ _ (by omega)]
    rfl
  have hrootcnt : cnt (rootStem (leafRemoveCascade t x y)) + 1 = cnt (rootStem t) := by
    rw [hroot]
    exact cnt_set_false _ _ hbit0
  have hrest : restStems (leafRemoveCascade t x y) =
      ((restStems t).set (specPos1 t x y) false).take (specB t x y * t.stemLen) ++
      ((restStems t).set (specPos1 t x y) false).drop
      (specB t x y * t.stemLen + t.stemLen) := by
    show (((t.stems.set (t.stemLen + specPos1 t x y) false).take (stem1Start t x y) ++
      (t.stems.set (t.stemLen + specPos1 t x y) false).drop
      (stem1Start t x y + t.stemLen)).set (specC0 t x y) false).drop t.stemLen = _
    rw [drop_set_of_lt _ _ _ _ hc0]
    rw [List.drop_append_eq_append_drop, hAlenS,
      show t.stemLen - stem1Start t x y = 0 from by omega, List.drop_zero]
    congr 1
    · rw [erest, List.drop_take]
      congr 1
      unfold stem1Start
      exact Nat.add_sub_cancel_left _ _
    · rw [erest, List.drop_drop]
      congr 1
      unfold stem1Start
      omega
  have hrestcnt : cnt (restStems (leafRemoveCascade t x y)) + 1 = cnt (restStems t) := by
    rw [hrest, cnt_append]
    have hsplit1 : cnt ((restStems t).set (specPos1 t x y) false) =
        cnt (((restStems t).set (specPos1 t x y) false).take (specB t x y * t.stemLen)) +
        cnt (((restStems t).set (specPos1 t x y) false).drop (specB t x y * t.stemLen)) := by
      rw [← cnt_append, List.take_append_drop]
    have hsplit2 : cnt (((restStems t).set (specPos1 t x y) false).drop
        (specB t x y * t.stemLen)) =
        cnt ((((restStems t).set (specPos1 t x y) false).drop
          (specB t x y * t.stemLen)).take t.stemLen) +
        cnt ((((restStems t).set (specPos1 t x y) false).drop
          (specB t x y * t.stemLen)).drop t.stemLen) := by
      rw [← cnt_append, List.take_append_drop]
    rw [List.drop_drop] at hsplit2
    omega
  have hLL : (leafRemoveCascade t x y).leaves.length = t.leaves.length - t.leafLen := by
    show ((t.leaves.set (specJ t x y * t.leafLen + specOff t x y) false).take
      (specJ t x y * t.leafLen) ++
      (t.leaves.set (specJ t x y * t.leafLen + specOff t x y) false).drop
      (specJ t x y * t.leafLen + t.leafLen)).length = _
    rw [List.length_append, List.length_take, List.length_drop, hLset]
    rw [Nat.succ_mul] at hqlf
    omega
  have hllcnt : t.leaves.length = t.leafLen * cnt (restStems t) := h.leavesLen
  refine ⟨h.ms, h.sk2, h.lk2, ?_, ?_, ?_, ?_, ?_, ?_⟩
  · show (((t.stems.set (t.stemLen + specPos1 t x y) false).take (stem1Start t x y) ++
      (t.stems.set (t.stemLen + specPos1 t x y) false).drop
      (stem1Start t x y + t.stemLen)).set (specC0 t x y) false).length = _
    rw [List.length_set, List.length_append, hAlenS, List.length_drop, List.length_set]
    rw [show (leafRemoveCascade t x y).stemLen = t.stemLen from rfl, h.stemsLen]
    have h1 : t.stemLen * (1 + cnt (rootStem t)) =
        t.stemLen * (1 + cnt (rootStem (leafRemoveCascade t x y))) + t.stemLen := by
      rw [show cnt (rootStem t) = cnt (rootStem (leafRemoveCascade t x y)) + 1 from
        hrootcnt.symm]
      ring
    rw [h.stemsLen] at hs1sl
    omega
  · rw [hLL, show (leafRemoveCascade t x y).leafLen = t.leafLen from rfl, hllcnt]
    have h1 : t.leafLen * cnt (restStems t) =
        t.leafLen * cnt (restStems (leafRemoveCascade t x y)) + t.leafLen := by
      rw [show cnt (restStems t) = cnt (restStems (leafRemoveCascade t x y)) + 1 from
        hrestcnt.symm]
      ring
    omega
  · intro b hb
    show 0 < cnt (((restStems (leafRemoveCascade t x y)).drop (b * t.stemLen)).take t.stemLen)
    rw [hrest]
    rcases Nat.lt_or_ge b (specB t x y) with hbc | hbc
    · rw [remove_block_blocks_lt _ _ _ _ hBrest hbc h.sl_pos]
      rw [show specPos1 t x y = specB t x y * t.stemLen + specC1 t x y from rfl]
      rw [blocks_set_ne _ _ _ _ _ _ h.sl_pos (specC1_lt h x y) (by omega)]
      exact h.stemBlocks b (by omega)
    · rw [remove_block_blocks_ge _ _ _ _ hBrest hbc]
      rw [show specPos1 t x y = specB t x y * t.stemLen + specC1 t x y from rfl]
      rw [blocks_set_ne _ _ _ _ _ _ h.sl_pos (specC1_lt h x y) (by omega)]
      refine h.stemBlocks (b + 1) ?_
      rw [← hrootcnt]
      omega
  · intro j hjlt
    show 0 < cnt ((((t.leaves.set (specJ t x y * t.leafLen + specOff t x y) false).take
      (specJ t x y * t.leafLen) ++
      (t.leaves.set (specJ t x y * t.leafLen + specOff t x y) false).drop
      (specJ t x y * t.leafLen + t.leafLen)).drop (j * t.leafLen)).take t.leafLen)
    have hqlS : specJ t x y * t.leafLen ≤
        (t.leaves.set (specJ t x y * t.leafLen + specOff t x y) false).length := by
      rw [hLset]
      exact hql
    rcases Nat.lt_or_ge j (specJ t x y) with hjc | hjc
    · rw [remove_block_blocks_lt _ _ _ _ hqlS hjc h.ll_pos]
      rw [blocks_set_ne _ _ _ _ _ _ h.ll_pos hoff (by omega)]
      exact h.leafBlocks j (by omega)
    · rw [remove_block_blocks_ge _ _ _ _ hqlS hjc]
      rw [blocks_set_ne _ _ _ _ _ _ h.ll_pos hoff (by omega)]
      refine h.leafBlocks (j + 1) ?_
      rw [← hrestcnt]
      omega
  · show [0, t.stemLen] = _
    rw [if_neg ?hne1]
    · rw [show (leafRemoveCascade t x y).stemLen = t.stemLen from rfl]
    case hne1 =>
      rw [hLL, hllcnt]
      have h1 : t.leafLen * 2 ≤ t.leafLen * cnt (restStems t) := Nat.mul_le_mul_left _ hne
      have h2 := h.ll_pos
      omega
  · intro hlen0
    rw [hLL, hllcnt] at hlen0
    have h1 : t.leafLen * 2 ≤ t.leafLen * cnt (restStems t) := Nat.mul_le_mul_left _ hne
    have h2 := h.ll_pos
    omega

end K2

namespace K2

/-- A successful `set` preserves the two-layer well-formedness invariant. -/
lemma set_ok_Inv {t t' : K2Tree} {x y : Nat} {s : Bool} (h : Inv t)
    (hok : t.set x y s = .ok t') : Inv t' := by
  by_cases hx : x < t.matrixWidth
  case neg =>
    unfold K2Tree.set at hok
    rw [if_pos (by omega)] at hok
    exact absurd hok (by simp)
  by_cases hy : y < t.matrixWidth
  case neg =>
    unfold K2Tree.set at hok
    rw [if_pos (by omega)] at hok
    exact absurd hok (by simp)
  cases s with
  | true =>
    by_cases hb0 : (rootStem t).getD (specC0 t x y) false = true
    · by_cases hb1 : (restStems t).getD (specPos1 t x y) false = true
      · rw [set_leaf_true h x y hx hy hb0 hb1] at hok
        injection hok with he
        subst he
        exact Inv_leafWrite_true h x y (cnt_take_lt _ _ hb1) (specOff_lt h x y)
      · rw [Bool.not_eq_true] at hb1
        rw [set_stem1_true h x y hx hy hb0 hb1] at hok
        injection hok with he
        subst he
        exact Inv_stemWrite1 h x y hb0 hb1 (specOff_lt h x y)
    · rw [Bool.not_eq_true] at hb0
      by_cases hemp : t.leaves.length = 0
      · rw [set_empty_true h x y hx hy hemp] at hok
        injection hok with he
        subst he
        exact Inv_buildEmpty h x y hemp (specC0_lt h x y hx hy) (specC1_lt h x y)
          (specOff_lt h x y)
      · rw [set_build_true h x y hx hy hemp hb0] at hok
        injection hok with he
        subst he
        exact Inv_buildStem h x y hb0 hemp (specC0_lt h x y hx hy) (specC1_lt h x y)
          (specOff_lt h x y)
  | false =>
    by_cases hb0 : (rootStem t).getD (specC0 t x y) false = true
    · by_cases hb1 : (restStems t).getD (specPos1 t x y) false = true
      · by_cases hz : allZeroes ((leafWrite t x y false).leaves)
          (specJ t x y * t.leafLen) (specJ t x y * t.leafLen + t.leafLen) = true
        · by_cases hone : cnt (restStems t) = 1
          · rw [set_remove_wipe h x y hx hy hb0 hb1 hz hone] at hok
            injection hok with he
            subst he
            exact Inv_leafRemoveWipe h
          · have hne : 2 ≤ cnt (restStems t) := by
              have h1 := cnt_pos_of_getD _ _ hb1
              have h2 := cnt_take_lt _ _ hb1
              omega
            by_cases hcz : allZeroes (t.stems.set (t.stemLen + specPos1 t x y) false)
              (stem1Start t x y) (stem1Start t x y + t.stemLen) = true
            · rw [set_remove_cascade h x y hx hy hb0 hb1 hz hne hcz] at hok
              injection hok with he
              subst he
              exact Inv_leafRemoveCascade h x y hb0 hb1 (specOff_lt h x y) hne hcz
            · rw [Bool.not_eq_true] at hcz
              rw [set_remove_stop h x y hx hy hb0 hb1 hz hne hcz] at hok
              injection hok with he
              subst he
              exact Inv_leafRemoveStop h x y hb1 (specOff_lt h x y) hne hcz
        · rw [Bool.not_eq_true] at hz
          rw [set_leaf_false_keep h x y hx hy hb0 hb1 hz] at hok
          injection hok with he
          subst he
          exact Inv_leafWrite_false_keep h x y (cnt_take_lt _ _ hb1) (specOff_lt h x y) hz
      · rw [Bool.not_eq_true] at hb1
        rw [set_noop_stem1 h x y hx hy hb0 hb1] at hok
        injection hok with he
        subst he
        exact h
    · rw [Bool.not_eq_true] at hb0
      rw [set_noop_stem0 h x y hx hy hb0] at hok
      injection hok with he
      subst he
      exact h

end K2

namespace K2

lemma Inv_new : Inv K2Tree.new := by
  refine ⟨rfl, by decide, by decide, ?_, ?_, ?_, ?_, rfl, ?_⟩
  · rw [show cnt (rootStem K2Tree.new) = 0 from rfl]
    rfl
  · rfl
  · intro b hb
    rw [show cnt (rootStem K2Tree.new) = 0 from rfl] at hb
    omega
  · intro j hj
    rw [show cnt (restStems K2Tree.new) = 0 from rfl] at hj
    omega
  · intro hl
    rfl

lemma Inv_withK (sk lk : Nat) (t0 : K2Tree) (hok : K2Tree.withK sk lk = .ok t0) :
    Inv t0 := by
  unfold K2Tree.withK at hok
  by_cases h2 : sk < 2
  · rw [if_pos h2] at hok
    exact absurd hok (by simp)
  rw [if_neg h2] at hok
  by_cases h3 : lk < 2
  · rw [if_pos h3] at hok
    exact absurd hok (by simp)
  rw [if_neg h3] at hok
  injection hok with he
  subst he
  have hsl :
      ({ stemK := sk, leafK := lk, maxSlayers := 2, slayerStarts := [0]
         stems := List.replicate (sk * sk) false, leaves := [] } : K2Tree).stemLen =
      sk * sk := by
    show sk ^ 2 = sk * sk
    rw [Nat.pow_two]
  have hroot :
      rootStem { stemK := sk, leafK := lk, maxSlayers := 2, slayerStarts := [0]
                 stems := List.replicate (sk * sk) false, leaves := [] } =
      List.replicate (sk * sk) false := by
    unfold rootStem
    rw [hsl]
    exact List.take_of_length_le (by rw [List.length_replicate])
  have hrest :
      restStems { stemK := sk, leafK := lk, maxSlayers := 2, slayerStarts := [0]
                  stems := List.replicate (sk * sk) false, leaves := [] } = [] := by
    unfold restStems
    rw [hsl]
    exact List.drop_eq_nil_of_le (by rw [List.length_replicate])
  refine ⟨rfl, by show 2 ≤ sk; omega, by show 2 ≤ lk; omega, ?_, ?_, ?_, ?_, rfl, ?_⟩
  · show (List.replicate (sk * sk) false).length = _
    rw [List.length_replicate, hroot, cnt_replicate_false, hsl]
    omega
  · show (List.nil : List Bool).length = _
    rw [hrest]
    simp [cnt]
  · intro b hb
    rw [hroot, cnt_replicate_false] at hb
    omega
  · intro j hj
    rw [hrest] at hj
    simp [cnt] at hj
  · intro hl
    rw [hroot]
    exact cnt_replicate_false _

/-- Run a sequence of `set` calls, requiring every call to succeed. -/
def runSets : K2Tree → List (Nat × Nat × Bool) → Option K2Tree
  | t, [] => some t
  | t, op :: ops =>
    match t.set op.1 op.2.1 op.2.2 with
    | .ok t1 => runSets t1 ops
    | _ => none

lemma runSets_Inv (ops : List (Nat × Nat × Bool)) (t t' : K2Tree) (h : Inv t)
    (hrun : runSets t ops = some t') : Inv t' := by
  induction ops generalizing t with
  | nil =>
    unfold runSets at hrun
    injection hrun with he
    subst he
    exact h
  | cons op ops ih =>
    unfold runSets at hrun
    cases hset : t.set op.1 op.2.1 op.2.2 with
    | ok t1 =>
      rw [hset] at hrun
      exact ih t1 (set_ok_Inv h hset) hrun
    | err e u =>
      rw [hset] at hrun
      exact absurd hrun (by simp)
    | panics =>
      rw [hset] at hrun
      exact absurd hrun (by simp)

lemma cnt_zero_replicate (l : List Bool) (h : cnt l = 0) :
    l = List.replicate l.length false := by
  simp only [cnt] at h
  rw [List.eq_replicate_iff]
  refine ⟨rfl, ?_⟩
  intro b hb
  have := List.countP_eq_zero.mp h b hb
  simpa [id] using this

/-- The six data-model invariants of claim C2, stated on the raw fields:
block-aligned lengths; one root stem whose popcount gives the length of
the (contiguous, final) second stem layer; popcount of the final layer
gives the leaf count; no allocated stem or leaf block all-zero except the
top stem of the empty tree; the empty tree is exactly one zero stem. -/
def SpecInvariants (t : K2Tree) : Prop :=
  t.stems.length % t.stemLen = 0 ∧
  t.leaves.length % t.leafLen = 0 ∧
  t.stemLen ≤ t.stems.length ∧
  (t.stems.drop t.stemLen).length = cnt (t.stems.take t.stemLen) * t.stemLen ∧
  t.leaves.length = cnt (t.stems.drop t.stemLen) * t.leafLen ∧
  (∀ b, b * t.stemLen < t.stems.length → t.leaves.length ≠ 0 →
    0 < cnt ((t.stems.drop (b * t.stemLen)).take t.stemLen)) ∧
  (∀ j, j * t.leafLen < t.leaves.length →
    0 < cnt ((t.leaves.drop (j * t.leafLen)).take t.leafLen)) ∧
  (t.leaves.length = 0 → t.stems = List.replicate t.stemLen false)

lemma Inv_implies_Spec {t : K2Tree} (h : Inv t) : SpecInvariants t := by
  have hsl := h.sl_pos
  have hll := h.ll_pos
  have hstems := h.stemsLen
  have hleaves := h.leavesLen
  have hrootlen := h.rootLen
  have hrestlen := h.restLen
  refine ⟨?_, ?_, ?_, ?_, ?_, ?_, ?_, ?_⟩
  · rw [hstems]
    simp [Nat.mul_mod_right]
  · rw [hleaves]
    simp [Nat.mul_mod_right]
  · rw [hstems]
    calc t.stemLen = t.stemLen * 1 := by omega
      _ ≤ t.stemLen * (1 + cnt (rootStem t)) := Nat.mul_le_mul_left _ (by omega)
  · show (restStems t).length = cnt (rootStem t) * t.stemLen
    rw [hrestlen, Nat.mul_comm]
  · show t.leaves.length = cnt (restStems t) * t.leafLen
    rw [hleaves, Nat.mul_comm]
  · intro b hb hne
    have hcr : 1 ≤ cnt (restStems t) := by
      by_contra hc
      rw [Nat.not_le] at hc
      have : cnt (restStems t) = 0 := by omega
      rw [(h.leaves_len_zero_iff).mpr this] at hne
      exact hne rfl
    have hcroot : 1 ≤ cnt (rootStem t) := by
      by_contra hc
      rw [Nat.not_le] at hc
      have h0 : cnt (rootStem t) = 0 := by omega
      have hlen0 : (restStems t).length = 0 := by
        rw [hrestlen, h0, Nat.mul_zero]
      have := cnt_le_length (restStems t)
      omega
    cases b with
    | zero =>
      rw [Nat.zero_mul, List.drop_zero]
      show 0 < cnt (rootStem t)
      omega
    | succ b =>
      have hblock : (t.stems.drop ((b + 1) * t.stemLen)).take t.stemLen =
          ((restStems t).drop (b * t.stemLen)).take t.stemLen := by
        show _ = ((t.stems.drop t.stemLen).drop (b * t.stemLen)).take t.stemLen
        rw [List.drop_drop]
        congr 2
        rw [Nat.succ_mul]
        omega
      rw [hblock]
      refine h.stemBlocks b ?_
      rw [hstems] at hb
      have h1 : (b + 1) * t.stemLen < t.stemLen * (1 + cnt (rootStem t)) := hb
      have h2 : t.stemLen * (1 + cnt (rootStem t)) = (1 + cnt (rootStem t)) * t.stemLen :=
        Nat.mul_comm _ _
      by_contra hc
      rw [Nat.not_lt] at hc
      have h3 : (1 + cnt (rootStem t)) * t.stemLen ≤ (b + 1) * t.stemLen :=
        Nat.mul_le_mul_right _ (by omega)
      omega
  · intro j hj
    refine h.leafBlocks j ?_
    rw [hleaves] at hj
    by_contra hc
    rw [Nat.not_lt] at hc
    have h1 : cnt (restStems t) * t.leafLen ≤ j * t.leafLen := Nat.mul_le_mul_right _ hc
    have h2 : t.leafLen * cnt (restStems t) = cnt (restStems t) * t.leafLen := Nat.mul_comm _ _
    omega
  · intro hl
    have hcr := h.emptyRoot hl
    have hcrest : cnt (restStems t) = 0 := (h.leaves_len_zero_iff).mp hl
    have hlen : t.stems.length = t.stemLen := by
      rw [hstems, hcr]
      simp
    have := cnt_zero_replicate t.stems (by
      have hsplit : cnt t.stems = cnt (rootStem t) + cnt (restStems t) := by
        rw [← cnt_append, Inv.stems_split]
      omega)
    rw [hlen] at this
    exact this

end K2

/-! ## The claims

Concrete inputs, the claim theorems and their witnesses. -/

namespace K2

/-- The 8×8 matrix of claim C3, set cells
(5,0),(7,0),(4,1),(7,1),(6,2),(7,2),(0,4),(5,4),(4,5), row-major. -/
def c3matrix : BitMatrix := BitMatrix.fromBits 8 8
  [false,false,false,false, false,true,false,true,
   false,false,false,false, true,false,false,true,
   false,false,false,false, false,false,true,true,
   false,false,false,false, false,false,false,false,
   true,false,false,false, false,true,false,false,
   false,false,false,false, true,false,false,false,
   false,false,false,false, false,false,false,false,
   false,false,false,false, false,false,false,false]

/-- The same nine cells as `set(x, y, true)` calls, row by row. -/
def c3ops : List (Nat × Nat × Bool) :=
  [(5,0,true),(7,0,true),(4,1,true),(7,1,true),(6,2,true),(7,2,true),
   (0,4,true),(5,4,true),(4,5,true)]

/-- The stems the build actually produces: 0111 1101 1000 1000. -/
def c3stems : List Bool :=
  [false,true,true,true, true,true,false,true, true,false,false,false, true,false,false,false]

/-- The stems claim C3 asserts: 0111 1101 1100 0100. -/
def c3claimedStems : List Bool :=
  [false,true,true,true, true,true,false,true, true,true,false,false, false,true,false,false]

/-- The leaves the build produces (and C3 claims): 0110 0101 1100 1000 0110. -/
def c3leaves : List Bool :=
  [false,true,true,false, false,true,false,true, true,true,false,false,
   true,false,false,false, false,true,true,false]

/-- The tree built from `c3matrix` (checked by `rfl` below). -/
def c3tree : K2Tree :=
  { stemK := 2, leafK := 2, maxSlayers := 2, slayerStarts := [0, 4]
    stems := c3stems, leaves := c3leaves }

/-- The tree the C2 witness reaches: `new` after `set(0, 0, true)`. -/
def c2tree : K2Tree :=
  { stemK := 2, leafK := 2, maxSlayers := 2, slayerStarts := [0, 4]
    stems := [true,false,false,false, true,false,false,false]
    leaves := [true,false,false,false] }

/-- The state `new(); grow(); shrink()` reaches: no stems, no layer starts,
yet `max_slayers = 2` and `matrix_width = 8` as in a fresh tree. -/
def shrunkEmpty : K2Tree :=
  { stemK := 2, leafK := 2, maxSlayers := 2, slayerStarts := [], stems := [], leaves := [] }

/-- A 4×4 matrix (single bit at (1,1)): smaller than any reachable
`matrix_width`, so C4's round trip cannot return its dimensions. -/
def c4matrix : BitMatrix := BitMatrix.fromBits 4 4
  [false,false,false,false, false,true,false,false,
   false,false,false,false, false,false,false,false]

/-- The tree `from_matrix(c4matrix, 2, 2)` builds. -/
def c4tree : K2Tree :=
  { stemK := 2, leafK := 2, maxSlayers := 2, slayerStarts := [0, 4]
    stems := [true,false,false,false, true,false,false,false]
    leaves := [false,false,false,true] }

/-- What `c4tree.to_matrix()` returns: 8×8, not 4×4. -/
def c4outMatrix : BitMatrix :=
  { width := 8, height := 8, bits := (List.replicate 64 false).set 9 true }

/-- An 8×8 matrix, bits at positions 1, 12, 27, 36 and 63: its dimensions
equal the tree's `matrix_width`, so the round trip is exact. -/
def c4fullMatrix : BitMatrix := BitMatrix.fromBits 8 8
  ((List.range 64).map (fun i => decide (i = 1 ∨ i = 12 ∨ i = 27 ∨ i = 36 ∨ i = 63)))

/-- The tree `from_matrix(c4fullMatrix, 2, 2)` builds. -/
def c4fullTree : K2Tree :=
  { stemK := 2, leafK := 2, maxSlayers := 2, slayerStarts := [0, 4]
    stems := [true,true,false,true, true,false,false,true, true,false,false,false, true,false,false,true]
    leaves := [false,true,false,false, false,false,false,true, false,false,true,false,
               true,false,false,false, false,false,false,true] }

lemma bitMatrix_set_dims (m m' : BitMatrix) (x y : Nat) (s : Bool)
    (h : m.set x y s = Except.ok m') : m'.width = m.width ∧ m'.height = m.height := by
  unfold BitMatrix.set at h
  split at h
  · exact absurd h (by simp)
  · injection h with h
    subst h
    exact ⟨rfl, rfl⟩

lemma toMatrix_go_dims (t : K2Tree) (l : List Nat) (m0 m : BitMatrix)
    (h : l.foldlM (fun m pos =>
      if t.leaves.getD pos false then
        match m.set (t.getCoords pos).1 (t.getCoords pos).2 true with
        | .error e => Except.error (K2Error.bitMatrixError e)
        | .ok m' => Except.ok m'
      else Except.ok m) m0 = Except.ok m) :
    m.width = m0.width ∧ m.height = m0.height := by
  induction l generalizing m0 with
  | nil =>
    simp only [List.foldlM_nil] at h
    injection h with h
    subst h
    exact ⟨rfl, rfl⟩
  | cons a l ih =>
    simp only [List.foldlM_cons] at h
    by_cases hbit : t.leaves.getD a false
    · rw [if_pos hbit] at h
      cases hset : m0.set (t.getCoords a).1 (t.getCoords a).2 true with
      | error e =>
        rw [hset] at h
        simp only [Bind.bind, Except.bind] at h
        exact Except.noConfusion h
      | ok m1 =>
        rw [hset] at h
        have h1 : l.foldlM _ m1 = Except.ok m := h
        have hd := bitMatrix_set_dims m0 m1 _ _ true hset
        have := ih m1 h1
        omega
    · rw [if_neg hbit] at h
      have h1 : l.foldlM _ m0 = Except.ok m := h
      exact ih m0 h1

lemma toMatrix_dims (t : K2Tree) (m : BitMatrix) (h : t.toMatrix = Except.ok m) :
    m.width = t.matrixWidth ∧ m.height = t.matrixWidth := by
  unfold K2Tree.toMatrix at h
  exact toMatrix_go_dims t _ _ m h

end K2

namespace K2

/-- C1: refuted on a reachable state.  The public sequence `new(); grow();
shrink()` — every call successful, no `set` calls at all — leaves a tree
whose `stems` and `slayer_starts` are empty while `matrix_width` is still 8,
so for the in-bounds coordinate (0, 0) the lockstep dense matrix holds
`false` but the source's `get(0, 0)` aborts: `descend` slices
`self.stems[0..4]` out of a bit-vector of length 0. -/
theorem c1_reachable_tree_breaks_get :
    ∃ t : K2Tree, K2Tree.new.grow.shrink = Except.ok t ∧
      t.stems.length < t.stemLen ∧ t.matrixWidth = 8 ∧
      t.stems = [] ∧ t.slayerStarts = [] :=
  ⟨shrunkEmpty, rfl, by decide, by decide, rfl, rfl⟩

/-- C2: every tree produced from `new()` or a successful `with_k` by `set`
calls that all return success satisfies the six data-model invariants
(`SpecInvariants`): block-aligned `stems` and `leaves` lengths, one root
stem block, each further layer's length the popcount of the previous one
times `stem_k²`, leaf count the popcount of the final stem layer times
`leaf_k²`, no allocated all-zero stem or leaf block except the lone zero
top stem of the empty tree, and the empty tree exactly that one block. -/
theorem c2_set_preserves_invariants (sk lk : Nat) (t0 t' : K2Tree)
    (ops : List (Nat × Nat × Bool))
    (h0 : t0 = K2Tree.new ∨ K2Tree.withK sk lk = Except.ok t0)
    (hrun : runSets t0 ops = some t') : SpecInvariants t' := by
  have hInv : Inv t0 := by
    rcases h0 with h | h
    · rw [h]; exact Inv_new
    · exact Inv_withK sk lk t0 h
  exact Inv_implies_Spec (runSets_Inv ops t0 t' hInv hrun)

/-- Witness for C2: from `new`, the single successful call `set(0, 0, true)`
reaches `c2tree`, and the theorem yields its invariants. -/
theorem c2_set_preserves_invariants_witness :
    runSets K2Tree.new [(0, 0, true)] = some c2tree ∧ SpecInvariants c2tree :=
  ⟨rfl, c2_set_preserves_invariants 2 2 K2Tree.new c2tree [(0, 0, true)] (Or.inl rfl) rfl⟩

/-- C3: counterexample.  Building from `c3matrix` succeeds and yields
`c3tree`, whose stems are 0111 1101 1000 1000 — not the claimed
0111 1101 1100 0100 (`c3claimedStems`). -/
theorem c3_claimed_stems_refuted :
    K2Tree.fromMatrix c3matrix 2 2 = BuildResult.ok c3tree ∧
    c3tree.stems ≠ c3claimedStems :=
  ⟨rfl, by decide⟩

/-- C3 (amended): both build routes — `from_matrix(c3matrix, 2, 2)` and the
nine `set(x, y, true)` calls from `new()` — produce exactly `c3tree`, whose
stems read 0111 1101 1000 1000 and leaves 0110 0101 1100 1000 0110. -/
theorem c3_build_values :
    K2Tree.fromMatrix c3matrix 2 2 = BuildResult.ok c3tree ∧
    runSets K2Tree.new c3ops = some c3tree ∧
    c3tree.stems = c3stems ∧ c3tree.leaves = c3leaves :=
  ⟨rfl, rfl, rfl, rfl⟩

/-- C6: refuted by the code on the empty tree.  `grow()` on a tree with no
leaves only bumps `max_slayers`, but `shrink()` still removes a top stem
block and a layer start, so the successful pair `grow(); shrink()` on
`new()` changes `stems` from one zero block to the empty sequence (and
empties `slayer_starts`), instead of restoring the original fields. -/
theorem c6_grow_shrink_not_identity :
    ∃ t : K2Tree, K2Tree.new.grow.shrink = Except.ok t ∧
      t.maxSlayers = K2Tree.new.maxSlayers ∧ t.leaves = K2Tree.new.leaves ∧
      t.stems ≠ K2Tree.new.stems :=
  ⟨shrunkEmpty, rfl, rfl, rfl, by decide⟩

/-- C7: out-of-bounds coordinates are rejected exactly as claimed: `get`
returns the Read-wrapped OutOfBounds error, `set` returns the Write-wrapped
OutOfBounds error, and the tree `set` hands back is the receiver itself,
unchanged. -/
theorem c7_out_of_bounds_rejected (t : K2Tree) (x y : Nat) (s : Bool)
    (h : x ≥ t.matrixWidth ∨ y ≥ t.matrixWidth) :
    t.get x y = Except.error (K2Error.read (K2Error.outOfBounds (x, y) (0, 0)
      (t.matrixWidth - 1, t.matrixWidth - 1))) ∧
    t.set x y s = SetResult.err (K2Error.write (K2Error.outOfBounds (x, y) (0, 0)
      (t.matrixWidth - 1, t.matrixWidth - 1))) t := by
  constructor
  · unfold K2Tree.get
    rw [if_pos h]
  · unfold K2Tree.set
    rw [if_pos h]

/-- Witness for C7: on `new` (matrix width 8), `get(8, 0)` and
`set(8, 0, true)` fail with OutOfBounds and the tree is returned unchanged. -/
theorem c7_out_of_bounds_rejected_witness :
    K2Tree.new.get 8 0 = Except.error (K2Error.read (K2Error.outOfBounds (8, 0) (0, 0) (7, 7))) ∧
    K2Tree.new.set 8 0 true = SetResult.err (K2Error.write (K2Error.outOfBounds (8, 0) (0, 0)
      (7, 7))) K2Tree.new :=
  c7_out_of_bounds_rejected K2Tree.new 8 0 true (Or.inl (by decide))

/-- C8: refuted on a reachable state.  After `new(); grow(); shrink()` the
tree has `slayer_starts = []` and `stems = []` with `max_slayers = 2` and
`matrix_width = 8`, so for the in-bounds row 0 the source's `get_row(0)`
aborts (its descent slices `stems[0..4]` out of an empty bit-vector, and
`stem_to_leaf_start` would index `slayer_starts[1]` of an empty vector)
instead of returning Ok of the eight `get` values. -/
theorem c8_reachable_tree_breaks_get_row :
    ∃ t : K2Tree, K2Tree.new.grow.shrink = Except.ok t ∧
      t.slayerStarts.length ≤ t.maxSlayers - 1 ∧
      t.stems.length < t.stemLen ∧ 0 < t.matrixWidth :=
  ⟨shrunkEmpty, rfl, by decide, by decide, by decide⟩

/-- C9: refuted by the code when `B.length < len`.  The guard of
`remove_block` computes `bit_vec.len() - block_len` in unsigned arithmetic,
so `remove_block([0, 0], 0, 4)` aborts (debug: subtraction overflow;
release: the wrapped guard passes and the removal loop pops past the end)
instead of returning the claimed error that leaves `B` unchanged. -/
theorem c9_remove_block_underflow :
    removeBlock [false, false] 0 4 = BlockResult.panics := rfl

end K2

namespace K2

/-- C4: counterexample.  `from_matrix` of the 4×4 matrix `c4matrix` (sides
4 ≤ 2·2¹, so the claim's premise holds with j = 1) succeeds, but
`to_matrix()` of the result is the 8×8 matrix `c4outMatrix`, not
`c4matrix`: the tree's `matrix_width` never drops below 8 and `to_matrix`
always answers at that size. -/
theorem c4_roundtrip_size_refuted :
    K2Tree.fromMatrix c4matrix 2 2 = BuildResult.ok c4tree ∧
    c4tree.toMatrix = Except.ok c4outMatrix ∧
    c4outMatrix ≠ c4matrix ∧ c4outMatrix.width ≠ c4matrix.width :=
  ⟨rfl, rfl, by decide, by decide⟩

set_option maxRecDepth 40000 in
/-- C4 (amended): `to_matrix()` always returns a `matrix_width × matrix_width`
matrix, so the round trip reproduces `M` exactly when `M`'s dimensions equal
the built tree's `matrix_width` — as for the 8×8 `c4fullMatrix`, whose round
trip through `from_matrix(·, 2, 2)` is exact. -/
theorem c4_to_matrix_square :
    (∀ (t : K2Tree) (m : BitMatrix), t.toMatrix = Except.ok m →
      m.width = t.matrixWidth ∧ m.height = t.matrixWidth) ∧
    (K2Tree.fromMatrix c4fullMatrix 2 2 = BuildResult.ok c4fullTree ∧
      c4fullTree.toMatrix = Except.ok c4fullMatrix) :=
  ⟨toMatrix_dims, rfl, rfl⟩

set_option maxRecDepth 40000 in
/-- Witness for C4 (amended): the dimension statement applied at
`c4fullTree` and its `to_matrix` output. -/
theorem c4_to_matrix_square_witness :
    c4fullMatrix.width = c4fullTree.matrixWidth ∧
    c4fullMatrix.height = c4fullTree.matrixWidth :=
  c4_to_matrix_square.1 c4fullTree c4fullMatrix rfl

/-- C5: counterexample.  `new()` has `max_slayers = 2`, not 1, yet
`shrink()` on it already fails with the already-at-minimum reason: the
source guard is `matrix_width ≤ leaf_k · stem_k²`, which holds for every
`max_slayers ≤ 2`, not only for `max_slayers = 1`. -/
theorem c5_already_minimum_at_two_layers :
    K2Tree.new.maxSlayers ≠ 1 ∧
    K2Tree.new.shrink = Except.error (K2Error.couldNotShrink "Already at minimum size: 8") :=
  ⟨by decide, rfl⟩

/-- C5 (amended): for any tree with `stem_k ≥ 2` and `leaf_k ≥ 1`, `shrink`
fails with the already-at-minimum reason exactly when `max_slayers ≤ 2`;
when `max_slayers > 2` it fails with the would-lose-information reason when
some top-stem bit other than bit 0 is set, and otherwise succeeds, dropping
the top stem block, the first layer start and one stem layer. -/
theorem c5_shrink_characterization (t : K2Tree) (hsk : 2 ≤ t.stemK) (hlk : 1 ≤ t.leafK) :
    (t.maxSlayers ≤ 2 →
      t.shrink = Except.error (K2Error.couldNotShrink
        ("Already at minimum size: " ++ toString t.matrixWidth))) ∧
    (2 < t.maxSlayers →
      ((t.stems.drop 1).take (t.stemLen - 1) ≠ List.replicate (t.stemLen - 1) false →
        t.shrink = Except.error (K2Error.couldNotShrink
          "Shrinking would lose information about the matrix")) ∧
      ((t.stems.drop 1).take (t.stemLen - 1) = List.replicate (t.stemLen - 1) false →
        t.shrink = Except.ok { t with
          maxSlayers := t.maxSlayers - 1
          slayerStarts := (t.slayerStarts.drop 1).map (· - t.stemLen)
          stems := t.stems.drop t.stemLen })) := by
  have e : t.shrink = if t.matrixWidth ≤ t.leafK * t.stemK ^ 2 then
      Except.error (K2Error.couldNotShrink
        ("Already at minimum size: " ++ toString t.matrixWidth))
    else if (t.stems.drop 1).take (t.stemLen - 1) ≠ List.replicate (t.stemLen - 1) false then
      Except.error (K2Error.couldNotShrink "Shrinking would lose information about the matrix")
    else Except.ok { t with
      maxSlayers := t.maxSlayers - 1
      slayerStarts := (t.slayerStarts.drop 1).map (· - t.stemLen)
      stems := t.stems.drop t.stemLen } := rfl
  have hiff : (t.matrixWidth ≤ t.leafK * t.stemK ^ 2) ↔ t.maxSlayers ≤ 2 := by
    unfold K2Tree.matrixWidth
    constructor
    · intro hle
      have h1 : t.stemK ^ t.maxSlayers ≤ t.stemK ^ 2 :=
        Nat.le_of_mul_le_mul_left hle (by omega)
      exact (Nat.pow_le_pow_iff_right (by omega)).mp h1
    · intro hle
      exact Nat.mul_le_mul_left _ (Nat.pow_le_pow_right (by omega) hle)
  refine ⟨?_, ?_⟩
  · intro h2
    rw [e, if_pos (hiff.mpr h2)]
  · intro h3
    have hnotmin : ¬ (t.matrixWidth ≤ t.leafK * t.stemK ^ 2) := by
      intro hle
      have := hiff.mp hle
      omega
    refine ⟨?_, ?_⟩
    · intro hne
      rw [e, if_neg hnotmin, if_pos hne]
    · intro heq
      rw [e, if_neg hnotmin, if_neg (not_not_intro heq)]

/-- Witness for C5 (amended): `new().grow()` has three stem layers and an
all-zero stem, so `shrink` succeeds and empties the tree's stems and layer
starts. -/
theorem c5_shrink_characterization_witness :
    K2Tree.new.grow.shrink = Except.ok
      { stemK := 2, leafK := 2, maxSlayers := 2, slayerStarts := [],
        stems := [], leaves := [] } :=
  ((c5_shrink_characterization K2Tree.new.grow (by decide) (by decide)).2
    (by decide)).2 (by decide)

end K2
